import Mathlib

/-!
Verification of the YAML parser / packer pair of src/core/yaml.c.

The development shallowly embeds the C code: byte streams are lists of
characters (each character standing for one byte; multi-byte UTF-8
sequences are abstracted as single code points), machine integers are
Nat/Int with explicit range conditions, fallible code returns Except, and
the stateful parse / pack environments are threaded explicitly.

Scope of the embedding, mirroring how the entry points are exercised on
in-memory streams:
- the parser is embedded in the mode where no presentation data is
  generated (flag YAML_PARSE_GEN_PRES_DATA unset); the presentation
  bookkeeping calls are no-ops in that mode in the C code and are
  faithfully no-ops here.  The structural facts proved about sequences
  (element / presentation-slot list lengths) are mode independent: the
  appends happen unconditionally in the C code;
- file inclusion needs a file system; attaching a subfile is modelled as
  failing (no file is available to an in-memory parse), exactly as
  t_yaml_parse_attach_file fails when the file cannot be read;
- the packer is embedded with the in-memory buffer writer (sb_write,
  which always succeeds); the override / active-variable stacks are only
  ever non-empty while packing include subfiles (out of scope here), so
  the corresponding lookups are modelled by their value on empty stacks;
- IEEE doubles are not shallowly embeddable; a double scalar carries its
  textual rendering.
-/

set_option maxHeartbeats 1000000

namespace Yaml

abbrev Str := List Char

/-- C isspace for the ASCII range: space, tab, newline, vertical tab,
form feed, carriage return. -/
def cIsSpace (c : Char) : Bool :=
  c == ' ' || c == '\t' || c == '\n' ||
  c == Char.ofNat 11 || c == Char.ofNat 12 || c == Char.ofNat 13

def cIsDigit (c : Char) : Bool := '0' ≤ c && c ≤ '9'

def cIsAlpha (c : Char) : Bool := ('a' ≤ c && c ≤ 'z') || ('A' ≤ c && c ≤ 'Z')

def cIsAlnum (c : Char) : Bool := cIsAlpha c || cIsDigit c

/-- The ctype_tag bitmap of t_yaml_env_parse_tag: a-zA-Z0-9 plus the dot. -/
def cIsTagChar (c : Char) : Bool := cIsAlnum c || c == '.'

def charLower (c : Char) : Char :=
  if 'A' ≤ c && c ≤ 'Z' then Char.ofNat (c.toNat + 32) else c

/-- lstr_ascii_iequal: ASCII case-insensitive string comparison. -/
def lstr_ascii_iequal (a b : Str) : Bool :=
  a.map charLower == b.map charLower

/-! ## Scalar values

yaml_scalar_t.  A double value carries its textual rendering (the form
the packer would emit): IEEE floating point is not shallowly embedded,
and the classification claims only depend on the constructor. -/

inductive YamlScalar where
  | str (s : Str)
  | uint (u : Nat)
  | int (i : Int)
  | double (rendered : Str)
  | bool (b : Bool)
  | null
deriving DecidableEq, Repr

/-! ## Numeric token recognition

lstr_to_int64 / lstr_to_uint64 / lstr_to_double are lib-common helpers
that are part of this repository but not under src/. -/

def digitsVal (l : Str) : Nat :=
  l.foldl (fun a c => a * 10 + (c.toNat - 48)) 0

/-- Modelled from the spec: lstr_to_uint64 (lib-common, not under src/)
recognizes an unsigned 64-bit decimal integer spanning the whole token. -/
def lstr_to_uint64 (line : Str) : Option Nat :=
  if line ≠ [] ∧ line.all cIsDigit ∧ digitsVal line < 2 ^ 64 then
    some (digitsVal line)
  else
    none

/-- Modelled from the spec: lstr_to_int64 (lib-common, not under src/)
recognizes a signed 64-bit decimal integer (optional leading minus)
spanning the whole token. -/
def lstr_to_int64 (line : Str) : Option Int :=
  if line.head? == some '-' then
    if line.tail ≠ [] ∧ line.tail.all cIsDigit ∧ digitsVal line.tail ≤ 2 ^ 63
    then
      some (-(digitsVal line.tail : Int))
    else
      none
  else
    if line ≠ [] ∧ line.all cIsDigit ∧ digitsVal line ≤ 2 ^ 63 - 1 then
      some (digitsVal line)
    else
      none

def stripSign : Str → Str
  | '-' :: r => r
  | '+' :: r => r
  | l => l

def expPartOk : Str → Bool
  | [] => true
  | 'e' :: r => (stripSign r ≠ [] ∧ (stripSign r).all cIsDigit : Bool)
  | 'E' :: r => (stripSign r ≠ [] ∧ (stripSign r).all cIsDigit : Bool)
  | _ => false

/-- Modelled from the spec: lstr_to_double (lib-common, not under src/)
succeeds on a decimal floating point literal spanning the whole token:
optional sign, mantissa digits with an optional dot, optional exponent. -/
def lstr_to_double_ok (line : Str) : Bool :=
  let l := stripSign line
  let d1 := l.takeWhile cIsDigit
  let r := l.drop d1.length
  match r with
  | '.' :: r2 =>
      let d2 := r2.takeWhile cIsDigit
      (decide (d1 ≠ []) || decide (d2 ≠ [])) && expPartOk (r2.drop d2.length)
  | _ => decide (d1 ≠ []) && expPartOk r

/-! ## Scalar classification (yaml_parse_special_scalar,
yaml_parse_numeric_scalar, and the classification order of
t_yaml_env_parse_scalar) -/

def yaml_parse_special_scalar (line : Str) : Option YamlScalar :=
  if line == "~".toList || lstr_ascii_iequal line "null".toList then
    some .null
  else if lstr_ascii_iequal line "true".toList then
    some (.bool true)
  else if lstr_ascii_iequal line "false".toList then
    some (.bool false)
  else if lstr_ascii_iequal line "-.inf".toList then
    some (.double "-.Inf".toList)
  else if lstr_ascii_iequal line ".inf".toList then
    some (.double ".Inf".toList)
  else if lstr_ascii_iequal line ".nan".toList then
    some (.double ".NaN".toList)
  else
    none

def yaml_parse_numeric_scalar (line : Str) : Option YamlScalar :=
  if line.head? == some '-' then
    match lstr_to_int64 line with
    | some i => some (if 0 ≤ i then .uint i.toNat else .int i)
    | none => if lstr_to_double_ok line then some (.double line) else none
  else
    match lstr_to_uint64 line with
    | some u => some (.uint u)
    | none => if lstr_to_double_ok line then some (.double line) else none

/-- The classification of a trimmed raw scalar token, exactly as performed
by the tail of t_yaml_env_parse_scalar: special strings first, then
numeric, then fall back to a string. -/
def scalarClassOf (line : Str) : YamlScalar :=
  match yaml_parse_special_scalar line with
  | some s => s
  | none =>
      match yaml_parse_numeric_scalar line with
      | some s => s
      | none => .str line

/-- Written from the words of the spec sentence on scalar typing: exact
match for the tilde, case-insensitive special words, then signed integer
(negative values only, a parseable non-negative token being classified
unsigned), then unsigned integer, then double, otherwise string. -/
def scalarClassSpec (line : Str) : YamlScalar :=
  if line == "~".toList then .null
  else if lstr_ascii_iequal line "null".toList then .null
  else if lstr_ascii_iequal line "true".toList then .bool true
  else if lstr_ascii_iequal line "false".toList then .bool false
  else if lstr_ascii_iequal line ".inf".toList then .double ".Inf".toList
  else if lstr_ascii_iequal line "-.inf".toList then .double "-.Inf".toList
  else if lstr_ascii_iequal line ".nan".toList then .double ".NaN".toList
  else
    match lstr_to_int64 line with
    | some i => if i < 0 then .int i else .uint i.toNat
    | none =>
        match lstr_to_uint64 line with
        | some u => .uint u
        | none =>
            if lstr_to_double_ok line then .double line else .str line

/-! ## Scalar quoting decision of the packer
(yaml_string_must_be_quoted) -/

/-- The yaml_invalid_raw_string_start bitmap, decoded: the characters
with which a bare scalar string may not start. -/
def inInvalidRawStringStart (c : Char) : Bool :=
  decide (c ∈ ['!', '"', '&', '*', '-', '.', '[', Char.ofNat 123])

/-- The yaml_raw_string_contains bitmap, decoded: the characters a bare
scalar string may contain.  Bytes 32 to 127 except the hash sign and the
colon.  (Note that byte 127, DEL, is included by the bitmap.) -/
def inRawStringContains (c : Char) : Bool :=
  32 ≤ c.toNat && c.toNat ≤ 127 && c != '#' && c != ':'

def yaml_string_must_be_quoted (s : Str) : Bool :=
  match s with
  | [] => true
  | c :: cs =>
      inInvalidRawStringStart c ||
      !((c :: cs).all inRawStringContains) ||
      c == ' ' || (c :: cs).getLast? == some ' ' ||
      (c :: cs) == "~".toList || (c :: cs) == "null".toList

/-- Written from the words of claim C6: quoted iff the string is empty,
starts with one of the listed characters, contains a colon or a hash or a
non-printable byte (outside 32..126), starts or ends with a space, or
equals the tilde or the word null. -/
def mustBeQuotedClaim (s : Str) : Bool :=
  s == [] ||
  (match s.head? with
   | some c =>
       decide (c ∈ ['!', '&', '*', '-', '"', Char.ofNat 123, '[', '#', '.'])
   | none => false) ||
  s.any (fun c => c == ':' || c == '#' || c.toNat < 32 || 126 < c.toNat) ||
  s.head? == some ' ' || s.getLast? == some ' ' ||
  s == "~".toList || s == "null".toList

/-- The claim predicate amended at its only point of divergence from the
code: the byte 127 (DEL) is treated as printable by the packer, so only
bytes below 32 or above 127 count as non-printable. -/
def mustBeQuotedAmended (s : Str) : Bool :=
  s == [] ||
  (match s.head? with
   | some c =>
       decide (c ∈ ['!', '&', '*', '-', '"', Char.ofNat 123, '[', '#', '.'])
   | none => false) ||
  s.any (fun c => c == ':' || c == '#' || c.toNat < 32 || 127 < c.toNat) ||
  s.head? == some ' ' || s.getLast? == some ' ' ||
  s == "~".toList || s == "null".toList

/-! ## Lemmas on the numeric token recognizers -/

theorem iequal_length {a b : Str} (h : lstr_ascii_iequal a b = true) :
    a.length = b.length := by
  have h' : a.map charLower = b.map charLower := by
    simpa [lstr_ascii_iequal] using h
  have := congrArg List.length h'
  simpa using this

theorem lstr_to_uint64_dash (c : Char) (r : Str) (hc : c = '-') :
    lstr_to_uint64 (c :: r) = none := by
  subst hc
  simp [lstr_to_uint64, cIsDigit]

theorem lstr_to_int64_imp_uint64 {line : Str} {i : Int}
    (hd : line.head? ≠ some '-') (h : lstr_to_int64 line = some i) :
    0 ≤ i ∧ lstr_to_uint64 line = some i.toNat := by
  rw [lstr_to_int64, if_neg (by simpa using hd)] at h
  by_cases hcond : line ≠ [] ∧ line.all cIsDigit ∧ digitsVal line ≤ 2 ^ 63 - 1
  · rw [if_pos hcond] at h
    obtain ⟨h1, h2, h3⟩ := hcond
    have hi : i = (digitsVal line : Int) := by
      simpa using h.symm
    subst hi
    refine ⟨by positivity, ?_⟩
    rw [lstr_to_uint64, if_pos ⟨h1, h2, by omega⟩]
    simp
  · rw [if_neg hcond] at h
    exact absurd h (by simp)

/-- The numeric classification tail of the source agrees with the spec
order (signed first, non-negative signed results re-classified unsigned,
then unsigned, then double). -/
theorem numeric_class_eq_spec (line : Str) :
    (match yaml_parse_numeric_scalar line with
     | some s => s
     | none => YamlScalar.str line) =
    (match lstr_to_int64 line with
     | some i => if i < 0 then YamlScalar.int i else YamlScalar.uint i.toNat
     | none =>
         match lstr_to_uint64 line with
         | some u => YamlScalar.uint u
         | none =>
             if lstr_to_double_ok line then YamlScalar.double line
             else YamlScalar.str line) := by
  by_cases hd : line.head? = some '-'
  · rw [yaml_parse_numeric_scalar, if_pos (by simpa using hd)]
    cases hi : lstr_to_int64 line with
    | some i =>
        rcases lt_or_le i 0 with h0 | h0
        · simp [if_neg (not_le.mpr h0), if_pos h0]
        · simp [if_pos h0, if_neg (not_lt.mpr h0)]
    | none =>
        have hu : lstr_to_uint64 line = none := by
          cases line with
          | nil => simp at hd
          | cons c r =>
              exact lstr_to_uint64_dash c r (by simpa using hd)
        rw [hu]
        cases hdo : lstr_to_double_ok line <;> simp [hdo]
  · rw [yaml_parse_numeric_scalar, if_neg (by simpa using hd)]
    cases hi : lstr_to_int64 line with
    | some i =>
        obtain ⟨hpos, hu⟩ := lstr_to_int64_imp_uint64 hd hi
        rw [hu]
        simp [if_neg (not_lt.mpr hpos)]
    | none =>
        cases hu : lstr_to_uint64 line with
        | some u => rfl
        | none => cases hdo : lstr_to_double_ok line <;> simp [hdo]

/-- C4: for every trimmed raw scalar token, classification follows the
documented order: exact match for the tilde or case-insensitive special
words, then signed integer only when the parsed value is negative (a
parseable non-negative token starting with a minus, such as -0, being
classified unsigned), then unsigned integer, then double, otherwise
string.  Stated as: the classification performed by the source
(yaml_parse_special_scalar then yaml_parse_numeric_scalar, as composed by
t_yaml_env_parse_scalar) agrees with the classifier written from the
spec sentence, on every token. -/
theorem scalar_class_eq_spec (line : Str) :
    scalarClassOf line = scalarClassSpec line := by
  unfold scalarClassOf scalarClassSpec yaml_parse_special_scalar
  by_cases h1 : line = ['~']
  · simp [h1]
  by_cases h2 : lstr_ascii_iequal line ['n', 'u', 'l', 'l'] = true
  · simp [h1, h2]
  by_cases h3 : lstr_ascii_iequal line ['t', 'r', 'u', 'e'] = true
  · simp [h1, h2, h3]
  by_cases h4 : lstr_ascii_iequal line ['f', 'a', 'l', 's', 'e'] = true
  · simp [h1, h2, h3, h4]
  by_cases h5 : lstr_ascii_iequal line ['.', 'i', 'n', 'f'] = true
  · have h5' : lstr_ascii_iequal line ['-', '.', 'i', 'n', 'f'] = false := by
      cases hq : lstr_ascii_iequal line ['-', '.', 'i', 'n', 'f']
      · rfl
      · have l1 := iequal_length h5
        have l2 := iequal_length hq
        simp at l1 l2
        omega
    simp [h1, h2, h3, h4, h5, h5']
  by_cases h6 : lstr_ascii_iequal line ['-', '.', 'i', 'n', 'f'] = true
  · simp [h1, h2, h3, h4, h5, h6]
  by_cases h7 : lstr_ascii_iequal line ['.', 'n', 'a', 'n'] = true
  · simp [h1, h2, h3, h4, h5, h6, h7]
  · simp only [h1, h2, h3, h4, h5, h6, h7, Bool.not_eq_true, beq_iff_eq,
      Bool.false_or, if_false, decide_eq_true_eq]
    simpa [h1, h2, h3, h4, h5, h6, h7] using numeric_class_eq_spec line

/-! ## Quoting decision: claim versus code -/

theorem not_all_eq_any_not (l : List Char) (p : Char → Bool) :
    (!(l.all p)) = l.any (fun c => !p c) := by
  induction l with
  | nil => rfl
  | cons c cs ih => simp [List.all_cons, List.any_cons, Bool.not_and, ih]

theorem not_inRawStringContains (x : Char) :
    (!inRawStringContains x) =
      (x == ':' || x == '#' || decide (x.toNat < 32) ||
        decide (127 < x.toNat)) := by
  unfold inRawStringContains
  by_cases h1 : x = ':'
  · subst h1; decide
  by_cases h2 : x = '#'
  · subst h2; decide
  have e1 : (x == ':') = false := beq_eq_false_iff_ne.mpr h1
  have e2 : (x == '#') = false := beq_eq_false_iff_ne.mpr h2
  simp only [bne, e1, e2, Bool.not_false, Bool.and_true, Bool.false_or]
  by_cases h3 : 32 ≤ x.toNat <;> by_cases h4 : x.toNat ≤ 127 <;>
    simp [h3, h4] <;> omega

/-- C6 counterexample: the one-byte string consisting of the DEL byte
(127) is emitted bare by the packer although the claim (non-printable
bytes force quoting) requires it to be quoted. -/
theorem quoting_differs_on_del_byte :
    yaml_string_must_be_quoted [Char.ofNat 127] = false ∧
      mustBeQuotedClaim [Char.ofNat 127] = true := by
  constructor <;> rfl

/-- C6 amended: a scalar string is quoted if and only if it is empty,
starts with one of the listed characters, contains a colon, a hash, or a
byte outside 32..127 (DEL, byte 127, is treated as printable by the code),
starts or ends with a space, or equals the tilde or the word null. -/
theorem must_be_quoted_eq_amended (s : Str) :
    yaml_string_must_be_quoted s = mustBeQuotedAmended s := by
  cases s with
  | nil => rfl
  | cons c cs =>
      unfold yaml_string_must_be_quoted mustBeQuotedAmended
      by_cases hc : c = '#'
      · subst hc
        have hall : (('#' :: cs).all inRawStringContains) = false := by
          simp [List.all_cons, inRawStringContains]
        simp [hall, inInvalidRawStringStart]
      · have hstart :
            (decide (c ∈ ['!', '&', '*', '-', '"', Char.ofNat 123, '[', '#',
              '.'])) = inInvalidRawStringStart c := by
          unfold inInvalidRawStringStart
          simp only [List.mem_cons, List.not_mem_nil, or_false,
            decide_eq_decide]
          constructor
          · rintro (h | h | h | h | h | h | h | h | h) <;>
              first
                | exact absurd h hc
                | simp [h]
          · rintro (h | h | h | h | h | h | h | h) <;> simp [h]
        have hbad : (!((c :: cs).all inRawStringContains)) =
            (c :: cs).any (fun x =>
              x == ':' || x == '#' || decide (x.toNat < 32) ||
                decide (127 < x.toNat)) := by
          rw [not_all_eq_any_not]
          simp only [not_inRawStringContains]
        simp only [← hstart, ← hbad]
        simp [Bool.or_assoc, Bool.or_comm, Bool.or_left_comm]

/-! ## Packer: data model -/

def lbrace : Char := Char.ofNat 123
def rbrace : Char := Char.ofNat 125
def backslash : Char := Char.ofNat 92

/-- yaml_pack_state_t. -/
inductive PackState where
  | clean
  | onDash
  | onKey
  | onNewline
  | afterData
deriving DecidableEq, Repr

/-- yaml.PresentationNode, restricted to the fields live outside the
include machinery: prefix comments, inline comment, empty lines (the
parser caps them at 2), flow mode.  The include descriptor and the
variable template are only consulted while packing include subfiles,
which need a file system and are out of the embedding's scope. -/
structure yaml_presentation_node_t where
  prefixComments : List Str := []
  inlineComment : Str := []
  emptyLines : Nat := 0
  flowMode : Bool := false
deriving DecidableEq, Repr

mutual
inductive yaml_data_t where
  | scalar (v : YamlScalar) (tag : Option Str)
      (presentation : Option yaml_presentation_node_t)
  | seq (datas : List yaml_data_t)
      (presNodes : List (Option yaml_presentation_node_t))
      (tag : Option Str) (presentation : Option yaml_presentation_node_t)
  | obj (fields : List yaml_key_data_t) (tag : Option Str)
      (presentation : Option yaml_presentation_node_t)
inductive yaml_key_data_t where
  | mk (key : Str) (data : yaml_data_t)
      (keyPres : Option yaml_presentation_node_t)
end

def yaml_data_t.tag : yaml_data_t → Option Str
  | .scalar _ t _ => t
  | .seq _ _ t _ => t
  | .obj _ t _ => t

def yaml_data_t.presentation : yaml_data_t → Option yaml_presentation_node_t
  | .scalar _ _ p => p
  | .seq _ _ _ p => p
  | .obj _ _ p => p

/-- out->tag = LSTR_PS_V(&tag) at the end of t_yaml_env_parse_tag. -/
def yaml_data_t.setTag : yaml_data_t → Str → yaml_data_t
  | .scalar v _ p, t => .scalar v (some t) p
  | .seq d pn _ p, t => .seq d pn (some t) p
  | .obj f _ p, t => .obj f (some t) p

def yaml_key_data_t.key : yaml_key_data_t → Str
  | .mk k _ _ => k

def yaml_key_data_t.data : yaml_key_data_t → yaml_data_t
  | .mk _ d _ => d

/-- yaml_pack_env_t, for the in-memory buffer writer.  The override and
active-variable stacks are only populated while packing include subfiles
(out of scope), so they are always empty here and the corresponding
lookups are modelled by their value on empty stacks (NULL / not found). -/
structure yaml_pack_env_t where
  state : PackState
  indent_lvl : Nat
  out : Str
  pres : Option (List (Str × yaml_presentation_node_t))
  absolute_path : Str
  current_path_pos : Nat
deriving Repr

def YAML_STD_INDENT : Nat := 2

def t_yaml_pack_env_new : yaml_pack_env_t :=
  { state := .onNewline, indent_lvl := 0, out := [], pres := none,
    absolute_path := [], current_path_pos := 0 }

def t_yaml_pack_env_set_presentation (env : yaml_pack_env_t)
    (m : List (Str × yaml_presentation_node_t)) : yaml_pack_env_t :=
  { env with pres := some m }

/-! ## Packer: whitespace state machine -/

def indentStr (n : Nat) : Str := List.replicate n ' '

/-- The emission table of yaml_pack_goto_state (do_indent writes
indent_lvl spaces). -/
def yaml_pack_goto_emit (s s' : PackState) (indent_lvl : Nat) : Str :=
  match s, s' with
  | .clean, .onNewline => ['\n']
  | .clean, _ => []
  | .onDash, .clean => [' ']
  | .onDash, .onKey => [' ']
  | .onDash, .onDash => [' ']
  | .onDash, .onNewline => ['\n']
  | .onDash, .afterData => []
  | .onKey, .clean => [' ']
  | .onKey, .onNewline => ['\n']
  | .onKey, .onDash => '\n' :: indentStr indent_lvl
  | .onKey, .onKey => '\n' :: indentStr indent_lvl
  | .onKey, .afterData => []
  | .onNewline, .clean => indentStr indent_lvl
  | .onNewline, .onDash => indentStr indent_lvl
  | .onNewline, .onKey => indentStr indent_lvl
  | .onNewline, _ => []
  | .afterData, .onNewline => ['\n']
  | .afterData, .clean => [' ']
  | .afterData, .onDash => '\n' :: indentStr indent_lvl
  | .afterData, .onKey => '\n' :: indentStr indent_lvl
  | .afterData, .afterData => []

def yaml_pack_goto_state (env : yaml_pack_env_t) (ns : PackState) :
    Nat × yaml_pack_env_t :=
  let w := yaml_pack_goto_emit env.state ns env.indent_lvl
  (w.length, { env with state := ns, out := env.out ++ w })

/-- The transition table as written in the spec, where the indent of a
logical level is the level times 2 spaces. -/
def packGotoSpecEmit (s s' : PackState) (level : Nat) : Str :=
  let ind := List.replicate (2 * level) ' '
  match s, s' with
  | .clean, .onNewline => ['\n']
  | .clean, _ => []
  | .onDash, .clean => [' ']
  | .onDash, .onKey => [' ']
  | .onDash, .onDash => [' ']
  | .onDash, .onNewline => ['\n']
  | .onDash, .afterData => []
  | .onKey, .clean => [' ']
  | .onKey, .onNewline => ['\n']
  | .onKey, .onDash => '\n' :: ind
  | .onKey, .onKey => '\n' :: ind
  | .onKey, .afterData => []
  | .onNewline, .clean => ind
  | .onNewline, .onDash => ind
  | .onNewline, .onKey => ind
  | .onNewline, _ => []
  | .afterData, .onNewline => ['\n']
  | .afterData, .clean => [' ']
  | .afterData, .onDash => '\n' :: ind
  | .afterData, .onKey => '\n' :: ind
  | .afterData, .afterData => []

/-! ## Packer: presentation helpers -/

def pwrite (env : yaml_pack_env_t) (s : Str) : Nat × yaml_pack_env_t :=
  (s.length, { env with out := env.out ++ s })

def lookupFirst : List (Str × yaml_presentation_node_t) → Str →
    Option yaml_presentation_node_t
  | [], _ => none
  | (k, v) :: r, p => if k = p then some v else lookupFirst r p

def yaml_pack_env_curpath (env : yaml_pack_env_t) : Str :=
  env.absolute_path.drop env.current_path_pos

/-- yaml_pack_env_get_pres_node, called with the path suffix already
pushed onto absolute_path. -/
def yaml_pack_env_get_pres_node (env : yaml_pack_env_t) :
    Option yaml_presentation_node_t :=
  match env.pres with
  | some m => lookupFirst m (yaml_pack_env_curpath env)
  | none => none

def yaml_pack_empty_lines (env : yaml_pack_env_t) (nb : Nat) :
    Nat × yaml_pack_env_t :=
  if nb = 0 then (0, env)
  else
    let (a, env) := yaml_pack_goto_state env .onNewline
    let (b, env) := pwrite env (List.replicate nb '\n')
    (a + b, env)

def yaml_pack_comments_loop (env : yaml_pack_env_t) (cs : List Str) :
    Nat × yaml_pack_env_t :=
  match cs with
  | [] => (0, env)
  | c :: rest =>
      let (a, env) := yaml_pack_goto_state env .clean
      let (b, env) := pwrite env ("# ".toList ++ c ++ ['\n'])
      let env := { env with state := .onNewline }
      let (c', env) := yaml_pack_comments_loop env rest
      (a + b + c', env)

/-- yaml_pack_pres_node_prefix of the source: empty lines then prefix
comments.  Note that when there are no prefix comments the function
returns 0, discarding the count of the empty-line bytes it wrote. -/
def yaml_pack_pres_node_lead (env : yaml_pack_env_t)
    (node : Option yaml_presentation_node_t) : Nat × yaml_pack_env_t :=
  match node with
  | none => (0, env)
  | some nd =>
      let (a, env) := yaml_pack_empty_lines env nd.emptyLines
      if nd.prefixComments = [] then (0, env)
      else
        let (b, env) := yaml_pack_goto_state env .onNewline
        let (c, env) := yaml_pack_comments_loop env nd.prefixComments
        (a + b + c, env)

def yaml_pack_pres_node_inline (env : yaml_pack_env_t)
    (node : Option yaml_presentation_node_t) : Nat × yaml_pack_env_t :=
  match node with
  | some nd =>
      if nd.inlineComment.length > 0 then
        let (a, env) := yaml_pack_goto_state env .clean
        let (b, env) := pwrite env ("# ".toList ++ nd.inlineComment ++ ['\n'])
        (a + b, { env with state := .onNewline })
      else (0, env)
  | none => (0, env)

def yaml_pack_tag (env : yaml_pack_env_t) (tag : Option Str) :
    Nat × yaml_pack_env_t :=
  match tag with
  | none => (0, env)
  | some t =>
      let (a, env) := yaml_pack_goto_state env .clean
      let (b, env) := pwrite env ('!' :: t)
      (a + b, { env with state := .afterData })

/-! ## Packer: scalars -/

/-- Decimal rendering of an unsigned integer (the %ju conversion). -/
def natDecimal (n : Nat) : Str :=
  if _h : n < 10 then [Char.ofNat (48 + n)]
  else natDecimal (n / 10) ++ [Char.ofNat (48 + n % 10)]
decreasing_by exact Nat.div_lt_self (by omega) (by omega)

/-- Decimal rendering of a signed integer (the %jd conversion). -/
def intDecimal (i : Int) : Str :=
  if i < 0 then '-' :: natDecimal (-i).toNat else natDecimal i.toNat

/-- The safe_chars bitmap of yaml_pack_string: bytes 32..127 minus the
double quote and the backslash. -/
def packSafeChar (c : Char) : Bool :=
  32 ≤ c.toNat && c.toNat ≤ 127 && c != '"' && c != backslash

def toHexDigit (n : Nat) : Char :=
  if n < 10 then Char.ofNat (48 + n) else Char.ofNat (87 + n)

def hexChars (n : Nat) : Str :=
  if _h : n < 16 then [toHexDigit n]
  else hexChars (n / 16) ++ [toHexDigit (n % 16)]
decreasing_by exact Nat.div_lt_self (by omega) (by omega)

/-- sprintf with a 04x conversion: at least four lowercase hex digits. -/
def hexPad4 (n : Nat) : Str :=
  List.replicate (4 - (hexChars n).length) '0' ++ hexChars n

def yaml_escape_char (c : Char) : Str :=
  if c = '"' then [backslash, '"']
  else if c = backslash then [backslash, backslash]
  else if c = Char.ofNat 7 then [backslash, 'a']
  else if c = Char.ofNat 8 then [backslash, 'b']
  else if c = Char.ofNat 27 then [backslash, 'e']
  else if c = Char.ofNat 12 then [backslash, 'f']
  else if c = '\n' then [backslash, 'n']
  else if c = Char.ofNat 13 then [backslash, 'r']
  else if c = '\t' then [backslash, 't']
  else if c = Char.ofNat 11 then [backslash, 'v']
  else backslash :: 'u' :: hexPad4 c.toNat

/-- yaml_pack_string.  The byte-level UTF-8 decoding of ps_getuc is
abstracted: the embedded string is a sequence of code points. -/
def yaml_pack_string (env : yaml_pack_env_t) (val : Str) :
    Nat × yaml_pack_env_t :=
  if !yaml_string_must_be_quoted val then pwrite env val
  else
    pwrite env
      ('"' ::
        (val.map (fun c =>
          if packSafeChar c then [c] else yaml_escape_char c)).flatten ++
        ['"'])

def yaml_pack_scalar (env : yaml_pack_env_t) (scalar : YamlScalar) :
    Nat × yaml_pack_env_t :=
  let (a, env) := yaml_pack_goto_state env .clean
  let (b, env) :=
    match scalar with
    | .str s => yaml_pack_string env s
    | .double r => pwrite env r
    | .uint u => pwrite env (natDecimal u)
    | .int i => pwrite env (intDecimal i)
    | .bool true => pwrite env "true".toList
    | .bool false => pwrite env "false".toList
    | .null => pwrite env "~".toList
  (a + b, { env with state := .afterData })

/-! ## Packer: tags versus flow mode -/

mutual
def yaml_data_contains_tags : yaml_data_t → Bool
  | .scalar _ t _ => t.isSome
  | .seq ds _ t _ => t.isSome || yaml_datas_contain_tags ds
  | .obj fs t _ => t.isSome || yaml_fields_contain_tags fs
def yaml_datas_contain_tags : List yaml_data_t → Bool
  | [] => false
  | d :: r => yaml_data_contains_tags d || yaml_datas_contain_tags r
def yaml_fields_contain_tags : List yaml_key_data_t → Bool
  | [] => false
  | .mk _ d _ :: r =>
      yaml_data_contains_tags d || yaml_fields_contain_tags r
end

/-- yaml_env_data_can_use_flow_mode.  The override-stack scan
(yaml_env_path_contains_overrides) is false on the empty stack. -/
def yaml_env_data_can_use_flow_mode (data : yaml_data_t) : Bool :=
  !yaml_data_contains_tags data

/-! ## Packer: data

The override lookups (yaml_pack_env_find_override) return NULL on the
empty override stack and the included-node branch of t_yaml_pack_data is
never taken without an include descriptor, so neither appears below. -/

def natPath (pos : Nat) : Str := '[' :: natDecimal pos ++ [']']

mutual

/-- yaml_pack_flow_data; the bodies of yaml_pack_flow_seq and
yaml_pack_flow_obj are inlined at their single call sites so that the
recursion is structural. -/
def yaml_pack_flow_data (env : yaml_pack_env_t) (data : yaml_data_t)
    (can_omit_brackets : Bool) : Nat × yaml_pack_env_t :=
  let (a, env) :=
    match data with
    | .scalar v _ _ => yaml_pack_scalar env v
    | .seq ds _ _ _ =>
        if ds.isEmpty then pwrite env "[]".toList
        else
          let (a, env) := pwrite env "[ ".toList
          let (b, env) := yaml_pack_flow_seq_loop env ds 0
          let (c, env) := pwrite env " ]".toList
          (a + b + c, env)
    | .obj fs _ _ =>
        if fs.isEmpty then pwrite env [lbrace, rbrace]
        else
          let omit_brackets := can_omit_brackets && fs.length == 1
          let (a, env) :=
            if !omit_brackets then pwrite env [lbrace, ' '] else (0, env)
          let (b, env) := yaml_pack_flow_obj_loop env fs 0
          let (c, env) :=
            if !omit_brackets then pwrite env [' ', rbrace] else (0, env)
          (a + b + c, env)
  (a, { env with state := .clean })
termination_by structural data

def yaml_pack_flow_seq_loop (env : yaml_pack_env_t)
    (datas : List yaml_data_t) (pos : Nat) : Nat × yaml_pack_env_t :=
  match datas with
  | [] => (0, env)
  | d :: rest =>
      let (a, env) :=
        if 0 < pos then pwrite env ", ".toList else (0, env)
      let (b, env) := yaml_pack_flow_data env d true
      let (c, env) := yaml_pack_flow_seq_loop env rest (pos + 1)
      (a + b + c, env)
termination_by structural datas

def yaml_pack_flow_obj_loop (env : yaml_pack_env_t)
    (fields : List yaml_key_data_t) (pos : Nat) : Nat × yaml_pack_env_t :=
  match fields with
  | [] => (0, env)
  | .mk key data _ :: rest =>
      let (a, env) :=
        if 0 < pos then pwrite env ", ".toList else (0, env)
      let (b, env) := pwrite env (key ++ ": ".toList)
      let (c, env) := yaml_pack_flow_data env data false
      let (d', env) := yaml_pack_flow_obj_loop env rest (pos + 1)
      (a + b + c + d', env)
termination_by structural fields

end

mutual

/-- t_yaml_pack_data; the bodies of t_yaml_pack_seq and yaml_pack_obj
(the empty-container checks) are inlined at their single call sites so
that the recursion is structural. -/
def t_yaml_pack_data (env : yaml_pack_env_t) (data : yaml_data_t) :
    Nat × yaml_pack_env_t :=
  let node : Option yaml_presentation_node_t :=
    if env.pres.isSome then
      yaml_pack_env_get_pres_node
        { env with absolute_path := env.absolute_path ++ ['!'] }
    else data.presentation
  let (r1, env) := yaml_pack_pres_node_lead env node
  let (r2, env) := yaml_pack_tag env data.tag
  let flowHint := match node with
    | some nd => nd.flowMode
    | none => false
  if flowHint && yaml_env_data_can_use_flow_mode data then
    let (r3, env) := yaml_pack_goto_state env .clean
    let (r4, env) := yaml_pack_flow_data env data false
    let env := { env with state := .afterData }
    let (r5, env) := yaml_pack_pres_node_inline env node
    (r1 + r2 + r3 + r4 + r5, env)
  else
    let (r3, env) :=
      match data with
      | .scalar v _ _ => yaml_pack_scalar env v
      | .seq ds pn _ _ =>
          if ds.isEmpty then
            let (a, env) := yaml_pack_goto_state env .clean
            let (b, env) := pwrite env "[]".toList
            (a + b, { env with state := PackState.afterData })
          else
            t_yaml_pack_seq_loop env ds pn 0
      | .obj fs _ _ =>
          if fs.isEmpty then
            let (a, env) := yaml_pack_goto_state env .clean
            let (b, env) := pwrite env [lbrace, rbrace]
            (a + b, { env with state := PackState.afterData })
          else
            yaml_pack_obj_loop env fs
    let (r5, env) := yaml_pack_pres_node_inline env node
    (r1 + r2 + r3 + r5, env)
termination_by structural data

def t_yaml_pack_seq_loop (env : yaml_pack_env_t)
    (datas : List yaml_data_t)
    (presNodes : List (Option yaml_presentation_node_t)) (pos : Nat) :
    Nat × yaml_pack_env_t :=
  match datas with
  | [] => (0, env)
  | d :: rest =>
      let saved := env.absolute_path
      let env :=
        if env.pres.isSome then
          { env with absolute_path := env.absolute_path ++ natPath pos }
        else env
      let node : Option yaml_presentation_node_t :=
        if env.pres.isSome then yaml_pack_env_get_pres_node env
        else (presNodes.getD pos none)
      let (a, env) := yaml_pack_pres_node_lead env node
      let (b, env) := yaml_pack_goto_state env .onDash
      let (c, env) := pwrite env ['-']
      let env := { env with indent_lvl := env.indent_lvl + YAML_STD_INDENT }
      let (d', env) := yaml_pack_pres_node_inline env node
      let (e, env) := t_yaml_pack_data env d
      let env := { env with indent_lvl := env.indent_lvl - YAML_STD_INDENT }
      let env := { env with absolute_path := saved }
      let (f, env) := t_yaml_pack_seq_loop env rest presNodes (pos + 1)
      (a + b + c + d' + e + f, env)
termination_by structural datas

def t_yaml_pack_key_data (env : yaml_pack_env_t) (kd : yaml_key_data_t) :
    Nat × yaml_pack_env_t :=
  match kd with
  | .mk key data keyPres =>
      let saved := env.absolute_path
      let env :=
        if env.pres.isSome then
          { env with absolute_path := env.absolute_path ++ '.' :: key }
        else env
      let node : Option yaml_presentation_node_t :=
        if env.pres.isSome then yaml_pack_env_get_pres_node env
        else keyPres
      let (a, env) := yaml_pack_pres_node_lead env node
      let (b, env) := yaml_pack_goto_state env .onKey
      let (c, env) := pwrite env (key ++ [':'])
      let env := { env with indent_lvl := env.indent_lvl + YAML_STD_INDENT }
      let (d', env) := yaml_pack_pres_node_inline env node
      let (e, env) := t_yaml_pack_data env data
      let env := { env with indent_lvl := env.indent_lvl - YAML_STD_INDENT }
      let env := { env with absolute_path := saved }
      (a + b + c + d' + e, env)
termination_by structural kd

def yaml_pack_obj_loop (env : yaml_pack_env_t)
    (fields : List yaml_key_data_t) : Nat × yaml_pack_env_t :=
  match fields with
  | [] => (0, env)
  | kd :: rest =>
      let (a, env) := t_yaml_pack_key_data env kd
      let (b, env) := yaml_pack_obj_loop env rest
      (a + b, env)
termination_by structural fields

end

/-- t_yaml_pack_seq as a standalone entry (its body is inlined in
t_yaml_pack_data above). -/
def t_yaml_pack_seq (env : yaml_pack_env_t) (datas : List yaml_data_t)
    (presNodes : List (Option yaml_presentation_node_t)) :
    Nat × yaml_pack_env_t :=
  if datas.isEmpty then
    let (a, env) := yaml_pack_goto_state env .clean
    let (b, env) := pwrite env "[]".toList
    (a + b, { env with state := PackState.afterData })
  else
    t_yaml_pack_seq_loop env datas presNodes 0

/-- yaml_pack_obj as a standalone entry (its body is inlined in
t_yaml_pack_data above). -/
def yaml_pack_obj (env : yaml_pack_env_t) (fields : List yaml_key_data_t) :
    Nat × yaml_pack_env_t :=
  if fields.isEmpty then
    let (a, env) := yaml_pack_goto_state env .clean
    let (b, env) := pwrite env [lbrace, rbrace]
    (a + b, { env with state := PackState.afterData })
  else
    yaml_pack_obj_loop env fields


/-! ## Packer: entry points -/

/-- t_yaml_pack instantiated with the in-memory buffer writer (the
callback of t_yaml_pack_sb, which always succeeds): the returned value is
the accumulated write count of t_yaml_pack_data. -/
def t_yaml_pack_sb (env : yaml_pack_env_t) (data : yaml_data_t) :
    Int × yaml_pack_env_t :=
  let (n, env) := t_yaml_pack_data env data
  ((n : Int), env)

/-- t_yaml_pack_file on the success path, the file writer modelled as a
buffer (directory creation and open/close failures are file-system
effects out of scope): packs the data, appends a final newline when the
state machine did not stop on a newline, and returns 0. -/
def t_yaml_pack_file (env : yaml_pack_env_t) (data : yaml_data_t) :
    Int × Str :=
  let (_, env') := t_yaml_pack_data env data
  let content :=
    if env'.state ≠ PackState.onNewline then env'.out ++ ['\n'] else env'.out
  (0, content)

/-! ## C8 and C10 -/

/-- C8: the packer's whitespace state machine starts in ON_NEWLINE at env
construction and performs exactly the transitions of the spec's table
(in particular, from ON_KEY a space when going to CLEAN and a newline
plus indent when going to ON_DASH or ON_KEY), where the indent written is
the current logical level times 2 spaces (the env's indent_lvl counts
spaces and moves in steps of YAML_STD_INDENT = 2). -/
theorem pack_state_machine_matches_spec :
    (∀ s s' lvl,
      yaml_pack_goto_emit s s' (2 * lvl) = packGotoSpecEmit s s' lvl) ∧
    t_yaml_pack_env_new.state = PackState.onNewline ∧
    YAML_STD_INDENT = 2 := by
  refine ⟨fun s s' lvl => ?_, rfl, rfl⟩
  cases s <;> cases s' <;> rfl

/-- C10: an empty sequence packs as the flow form with square brackets
and an empty mapping as the flow form with curly braces, in block mode
(no document presentation, no presentation node on the data, hence no
flow-mode hint), after the whitespace transition to the CLEAN state. -/
theorem pack_empty_containers_use_flow_forms (env : yaml_pack_env_t)
    (hp : env.pres = none) :
    ((t_yaml_pack_data env (.seq [] [] none none)).2.out =
        env.out ++ yaml_pack_goto_emit env.state .clean env.indent_lvl ++
          "[]".toList ∧
      (t_yaml_pack_data env (.seq [] [] none none)).2.state =
        PackState.afterData) ∧
    ((t_yaml_pack_data env (.obj [] none none)).2.out =
        env.out ++ yaml_pack_goto_emit env.state .clean env.indent_lvl ++
          [lbrace, rbrace] ∧
      (t_yaml_pack_data env (.obj [] none none)).2.state =
        PackState.afterData) := by
  constructor <;>
    simp [t_yaml_pack_data, hp, yaml_pack_pres_node_lead, yaml_pack_tag,
      yaml_data_t.presentation, yaml_data_t.tag, yaml_pack_goto_state,
      yaml_pack_pres_node_inline, pwrite, List.append_assoc]

/-- Witness for the empty-container packing theorem at a concrete env. -/
theorem pack_empty_containers_use_flow_forms_witness :
    (t_yaml_pack_data t_yaml_pack_env_new (.seq [] [] none none)).2.out =
      "[]".toList ∧
    (t_yaml_pack_data t_yaml_pack_env_new (.obj [] none none)).2.out =
      [lbrace, rbrace] := by
  have h := pack_empty_containers_use_flow_forms t_yaml_pack_env_new rfl
  exact ⟨by simpa [t_yaml_pack_env_new, yaml_pack_goto_emit, indentStr]
      using h.1.1,
    by simpa [t_yaml_pack_env_new, yaml_pack_goto_emit, indentStr]
      using h.2.1⟩

/-! ## Output-shape invariant of the packer

The facts needed for the trailing-newline claim: every packed datum
appends a non-empty chunk; the whitespace state machine ends in
AFTER_DATA with the output not ending on a newline, or in ON_NEWLINE
with the output ending on exactly one newline (the latter exactly when an
inline comment was flushed last).  Well-formedness asks only what the
parser guarantees for its own outputs: comments contain no newline and a
double rendering is a non-empty newline-free token. -/

def wfPresNode (nd : yaml_presentation_node_t) : Bool :=
  nd.inlineComment.all (fun c => c != '\n')

def wfPresNodeOpt : Option yaml_presentation_node_t → Bool
  | none => true
  | some nd => wfPresNode nd

def wfScalar : YamlScalar → Bool
  | .double r => !r.isEmpty && r.all (fun c => c != '\n')
  | _ => true

mutual
def wfData : yaml_data_t → Bool
  | .scalar v _ p => wfScalar v && wfPresNodeOpt p
  | .seq ds pns _ p =>
      wfPresNodeOpt p && pns.all wfPresNodeOpt && wfDatas ds
  | .obj fs _ p => wfPresNodeOpt p && wfFields fs
termination_by structural d => d
def wfDatas : List yaml_data_t → Bool
  | [] => true
  | d :: r => wfData d && wfDatas r
termination_by structural l => l
def wfFields : List yaml_key_data_t → Bool
  | [] => true
  | .mk _ d kp :: r => wfPresNodeOpt kp && wfData d && wfFields r
termination_by structural l => l
end

def wfPresMap (m : List (Str × yaml_presentation_node_t)) : Bool :=
  m.all (fun kv => wfPresNode kv.2)

def wfEnvPres (env : yaml_pack_env_t) : Bool :=
  match env.pres with
  | none => true
  | some m => wfPresMap m

def endsClean (w : Str) : Prop := ∃ v c, w = v ++ [c] ∧ c ≠ '\n'

def endsOneNl (w : Str) : Prop := ∃ v c, w = v ++ [c, '\n'] ∧ c ≠ '\n'

def packPreserved (env env' : yaml_pack_env_t) : Prop :=
  env'.pres = env.pres

/-- Generic post-state of a packer write helper: the output grew by a
chunk at least as long as the returned count, everything but the cursor
state untouched. -/
def StepRel (n : Nat) (env env' : yaml_pack_env_t) : Prop :=
  ∃ w, env'.out = env.out ++ w ∧ n ≤ w.length ∧ packPreserved env env'

/-- Post-state of packing one datum: a non-empty chunk was appended, and
the machine stopped in AFTER_DATA with the chunk not ending on a newline
or in ON_NEWLINE with the chunk ending on exactly one newline. -/
def DoneRel (n : Nat) (env env' : yaml_pack_env_t) : Prop :=
  ∃ w, env'.out = env.out ++ w ∧ n ≤ w.length ∧ packPreserved env env' ∧
    ((env'.state = PackState.afterData ∧ endsClean w) ∨
     (env'.state = PackState.onNewline ∧ endsOneNl w))

/-- Post-state of a flow write: non-empty newline-free-tail chunk, state
left CLEAN. -/
def CleanRel (n : Nat) (env env' : yaml_pack_env_t) : Prop :=
  ∃ w, env'.out = env.out ++ w ∧ n ≤ w.length ∧ packPreserved env env' ∧
    env'.state = PackState.clean ∧ endsClean w

theorem packPreserved_refl (env : yaml_pack_env_t) :
    packPreserved env env := rfl

theorem packPreserved_trans {a b c : yaml_pack_env_t}
    (h1 : packPreserved a b) (h2 : packPreserved b c) :
    packPreserved a c := h2.trans h1

theorem endsClean_append (a : Str) {w : Str} (h : endsClean w) :
    endsClean (a ++ w) := by
  obtain ⟨v, c, rfl, hc⟩ := h
  exact ⟨a ++ v, c, by simp, hc⟩

theorem endsOneNl_append (a : Str) {w : Str} (h : endsOneNl w) :
    endsOneNl (a ++ w) := by
  obtain ⟨v, c, rfl, hc⟩ := h
  exact ⟨a ++ v, c, by simp, hc⟩

theorem StepRel.trans {m n : Nat} {a b c : yaml_pack_env_t}
    (h1 : StepRel m a b) (h2 : StepRel n b c) : StepRel (m + n) a c := by
  obtain ⟨w1, e1, l1, p1⟩ := h1
  obtain ⟨w2, e2, l2, p2⟩ := h2
  exact ⟨w1 ++ w2, by rw [e2, e1, List.append_assoc],
    by simpa using Nat.add_le_add l1 l2, packPreserved_trans p1 p2⟩

theorem StepRel.intoDone {m n : Nat} {a b c : yaml_pack_env_t}
    (h1 : StepRel m a b) (h2 : DoneRel n b c) : DoneRel (m + n) a c := by
  obtain ⟨w1, e1, l1, p1⟩ := h1
  obtain ⟨w2, e2, l2, p2, hst⟩ := h2
  refine ⟨w1 ++ w2, by rw [e2, e1, List.append_assoc],
    by simpa using Nat.add_le_add l1 l2, packPreserved_trans p1 p2, ?_⟩
  rcases hst with ⟨hs, he⟩ | ⟨hs, he⟩
  · exact Or.inl ⟨hs, endsClean_append w1 he⟩
  · exact Or.inr ⟨hs, endsOneNl_append w1 he⟩

theorem StepRel.clean {m n : Nat} {a b c : yaml_pack_env_t}
    (h1 : StepRel m a b) (h2 : CleanRel n b c) : CleanRel (m + n) a c := by
  obtain ⟨w1, e1, l1, p1⟩ := h1
  obtain ⟨w2, e2, l2, p2, hs, he⟩ := h2
  exact ⟨w1 ++ w2, by rw [e2, e1, List.append_assoc],
    by simpa using Nat.add_le_add l1 l2, packPreserved_trans p1 p2, hs,
    endsClean_append w1 he⟩

theorem DoneRel.chain {m n : Nat} {a b c : yaml_pack_env_t}
    (h1 : DoneRel m a b) (h2 : DoneRel n b c) : DoneRel (m + n) a c :=
  StepRel.intoDone (by obtain ⟨w, e, l, p, _⟩ := h1; exact ⟨w, e, l, p⟩) h2

theorem DoneRel.weaken {m : Nat} {a b : yaml_pack_env_t}
    (h : DoneRel m a b) : StepRel m a b := by
  obtain ⟨w, e, l, p, _⟩ := h
  exact ⟨w, e, l, p⟩

theorem CleanRel.toStep {m : Nat} {a b : yaml_pack_env_t}
    (h : CleanRel m a b) : StepRel m a b := by
  obtain ⟨w, e, l, p, _⟩ := h
  exact ⟨w, e, l, p⟩

theorem CleanRel.setAfterData {m : Nat} {a b : yaml_pack_env_t}
    (h : CleanRel m a b) :
    DoneRel m a { b with state := PackState.afterData } := by
  obtain ⟨w, e, l, p, _, he⟩ := h
  exact ⟨w, e, l, p, Or.inl ⟨rfl, he⟩⟩

/-- Post-state of packing a scalar: AFTER_DATA and a clean-tailed
chunk. -/
def AfterRel (n : Nat) (env env' : yaml_pack_env_t) : Prop :=
  ∃ w, env'.out = env.out ++ w ∧ n ≤ w.length ∧ packPreserved env env' ∧
    env'.state = PackState.afterData ∧ endsClean w

theorem AfterRel.toDone {n : Nat} {a b : yaml_pack_env_t}
    (h : AfterRel n a b) : DoneRel n a b := by
  obtain ⟨w, e, l, p, hs, he⟩ := h
  exact ⟨w, e, l, p, Or.inl ⟨hs, he⟩⟩

theorem AfterRel.toClean {n : Nat} {a b : yaml_pack_env_t}
    (h : AfterRel n a b) :
    CleanRel n a { b with state := PackState.clean } := by
  obtain ⟨w, e, l, p, _, he⟩ := h
  exact ⟨w, e, l, p, rfl, he⟩

theorem pwrite_eq (env : yaml_pack_env_t) (s : Str) {n' : Nat}
    {env' : yaml_pack_env_t} (h : pwrite env s = (n', env')) :
    n' = s.length ∧ env' = { env with out := env.out ++ s } := by
  rw [pwrite] at h
  exact ⟨(Prod.mk.injEq _ _ _ _ ▸ h).1.symm,
    (Prod.mk.injEq _ _ _ _ ▸ h).2.symm⟩

theorem goto_step {env : yaml_pack_env_t} {ns : PackState} {n' : Nat}
    {env' : yaml_pack_env_t} (h : yaml_pack_goto_state env ns = (n', env')) :
    StepRel n' env env' ∧ env'.state = ns ∧ env'.out =
      env.out ++ yaml_pack_goto_emit env.state ns env.indent_lvl := by
  rw [yaml_pack_goto_state] at h
  obtain ⟨h1, h2⟩ := Prod.mk.injEq _ _ _ _ ▸ h
  subst h2
  exact ⟨⟨yaml_pack_goto_emit env.state ns env.indent_lvl, rfl, by omega,
    rfl⟩, rfl, rfl⟩

theorem empty_lines_step {env : yaml_pack_env_t} {nb : Nat} {n' : Nat}
    {env' : yaml_pack_env_t} (h : yaml_pack_empty_lines env nb = (n', env')) :
    StepRel n' env env' := by
  rw [yaml_pack_empty_lines] at h
  split at h
  · obtain ⟨h1, h2⟩ := Prod.mk.injEq _ _ _ _ ▸ h
    subst h2
    exact ⟨[], by simp, by omega, packPreserved_refl env⟩
  · cases hg : yaml_pack_goto_state env .onNewline with
    | mk a env1 =>
        rw [hg] at h
        dsimp only at h
        cases hw : pwrite env1 (List.replicate nb '\n') with
        | mk b env2 =>
            rw [hw] at h
            obtain ⟨h1, h2⟩ := Prod.mk.injEq _ _ _ _ ▸ h
            subst h2
            obtain ⟨hb, henv2⟩ := pwrite_eq env1 _ hw
            subst henv2
            obtain ⟨⟨w1, e1, l1, p1⟩, _, _⟩ := goto_step hg
            subst h1
            subst hb
            exact ⟨w1 ++ List.replicate nb '\n', by simp [e1],
              by rw [List.length_append, List.length_replicate]; omega, p1⟩

theorem comments_loop_step {cs : List Str} : ∀ {env : yaml_pack_env_t}
    {n' : Nat} {env' : yaml_pack_env_t},
    yaml_pack_comments_loop env cs = (n', env') → StepRel n' env env' := by
  induction cs with
  | nil =>
      intro env n' env' h
      rw [yaml_pack_comments_loop] at h
      obtain ⟨h1, h2⟩ := Prod.mk.injEq _ _ _ _ ▸ h
      subst h2
      exact ⟨[], by simp, by omega, packPreserved_refl env⟩
  | cons c rest ih =>
      intro env n' env' h
      rw [yaml_pack_comments_loop] at h
      cases hg : yaml_pack_goto_state env .clean with
      | mk a env1 =>
          rw [hg] at h
          dsimp only at h
          cases hw : pwrite env1 ("# ".toList ++ c ++ ['\n']) with
          | mk b env2 =>
              rw [hw] at h
              dsimp only at h
              cases hrec : yaml_pack_comments_loop
                  { env2 with state := PackState.onNewline } rest with
              | mk c' env3 =>
                  rw [hrec] at h
                  obtain ⟨h1, h2⟩ := Prod.mk.injEq _ _ _ _ ▸ h
                  subst h2
                  obtain ⟨hb, henv2⟩ := pwrite_eq env1 _ hw
                  subst henv2
                  obtain ⟨s1, _, _⟩ := goto_step hg
                  have s2 : StepRel b env1
                      { { env1 with out := env1.out ++
                          ("# ".toList ++ c ++ ['\n']) } with
                        state := PackState.onNewline } := by
                    subst hb
                    exact ⟨_, rfl, by omega, rfl⟩
                  have s3 := ih hrec
                  subst h1
                  exact (s1.trans s2).trans s3

theorem lead_step {env : yaml_pack_env_t}
    {node : Option yaml_presentation_node_t} {n' : Nat}
    {env' : yaml_pack_env_t}
    (h : yaml_pack_pres_node_lead env node = (n', env')) :
    StepRel n' env env' := by
  cases node with
  | none =>
      rw [yaml_pack_pres_node_lead] at h
      obtain ⟨h1, h2⟩ := Prod.mk.injEq _ _ _ _ ▸ h
      subst h2
      exact ⟨[], by simp, by omega, packPreserved_refl env⟩
  | some nd =>
      rw [yaml_pack_pres_node_lead] at h
      cases he : yaml_pack_empty_lines env nd.emptyLines with
      | mk a env1 =>
          rw [he] at h
          dsimp only at h
          split at h
          · obtain ⟨h1, h2⟩ := Prod.mk.injEq _ _ _ _ ▸ h
            subst h2
            obtain ⟨w1, e1, l1, p1⟩ := empty_lines_step he
            exact ⟨w1, e1, by omega, p1⟩
          · cases hg : yaml_pack_goto_state env1 .onNewline with
            | mk b env2 =>
                rw [hg] at h
                dsimp only at h
                cases hc : yaml_pack_comments_loop env2 nd.prefixComments with
                | mk c' env3 =>
                    rw [hc] at h
                    dsimp only at h
                    obtain ⟨h1, h2⟩ := Prod.mk.injEq _ _ _ _ ▸ h
                    subst h2
                    subst h1
                    exact ((empty_lines_step he).trans
                      (goto_step hg).1).trans (comments_loop_step hc)

theorem tag_step {env : yaml_pack_env_t} {tag : Option Str} {n' : Nat}
    {env' : yaml_pack_env_t} (h : yaml_pack_tag env tag = (n', env')) :
    StepRel n' env env' := by
  cases tag with
  | none =>
      rw [yaml_pack_tag] at h
      obtain ⟨h1, h2⟩ := Prod.mk.injEq _ _ _ _ ▸ h
      subst h2
      exact ⟨[], by simp, by omega, packPreserved_refl env⟩
  | some t =>
      rw [yaml_pack_tag] at h
      cases hg : yaml_pack_goto_state env .clean with
      | mk a env1 =>
          rw [hg] at h
          dsimp only at h
          cases hw : pwrite env1 ('!' :: t) with
          | mk b env2 =>
              rw [hw] at h
              dsimp only at h
              obtain ⟨h1, h2⟩ := Prod.mk.injEq _ _ _ _ ▸ h
              subst h2
              obtain ⟨hb, henv2⟩ := pwrite_eq env1 _ hw
              subst henv2
              subst h1
              have s2 : StepRel b env1
                  { { env1 with out := env1.out ++ ('!' :: t) } with
                    state := PackState.afterData } := by
                subst hb
                exact ⟨_, rfl, by omega, rfl⟩
              exact (goto_step hg).1.trans s2

theorem endsClean_of_all {w : Str} {p : Char → Bool} (hne : w ≠ [])
    (h : w.all p = true) (hp : p '\n' = false) : endsClean w := by
  refine ⟨w.dropLast, w.getLast hne,
    (List.dropLast_append_getLast hne).symm, ?_⟩
  intro hEq
  have hmem := List.getLast_mem hne
  have := List.all_eq_true.mp h _ hmem
  rw [hEq, hp] at this
  exact absurd this (by simp)

theorem inline_step {env : yaml_pack_env_t}
    {node : Option yaml_presentation_node_t} {n' : Nat}
    {env' : yaml_pack_env_t} (hwf : wfPresNodeOpt node = true)
    (h : yaml_pack_pres_node_inline env node = (n', env')) :
    (n' = 0 ∧ env' = env) ∨
    (∃ w, env'.out = env.out ++ w ∧ n' ≤ w.length ∧
      packPreserved env env' ∧ env'.state = PackState.onNewline ∧
      endsOneNl w) := by
  cases node with
  | none =>
      rw [yaml_pack_pres_node_inline] at h
      obtain ⟨h1, h2⟩ := Prod.mk.injEq _ _ _ _ ▸ h
      exact Or.inl ⟨h1.symm, h2.symm⟩
  | some nd =>
      rw [yaml_pack_pres_node_inline] at h
      split at h
      · rename_i hlen0
        cases hg : yaml_pack_goto_state env .clean with
        | mk a env1 =>
            rw [hg] at h
            dsimp only at h
            cases hw : pwrite env1 ("# ".toList ++ nd.inlineComment ++ ['\n'])
              with
            | mk b env2 =>
                rw [hw] at h
                dsimp only at h
                obtain ⟨h1, h2⟩ := Prod.mk.injEq _ _ _ _ ▸ h
                subst h2
                obtain ⟨hb, henv2⟩ := pwrite_eq env1 _ hw
                subst henv2
                obtain ⟨⟨w1, e1, l1, p1⟩, _, _⟩ := goto_step hg
                subst h1
                subst hb
                right
                have hcne : nd.inlineComment ≠ [] := by
                  intro hq
                  rw [hq] at hlen0
                  simp at hlen0
                have hsplit : nd.inlineComment =
                    nd.inlineComment.dropLast ++
                      [nd.inlineComment.getLast hcne] :=
                  (List.dropLast_append_getLast hcne).symm
                refine ⟨w1 ++ ("# ".toList ++ nd.inlineComment ++ ['\n']),
                  by simp [e1], by simp; omega, p1, rfl, ?_⟩
                refine ⟨w1 ++ "# ".toList ++ nd.inlineComment.dropLast,
                  nd.inlineComment.getLast hcne, ?_, ?_⟩
                · conv_lhs => rw [hsplit]
                  simp
                · intro hEq
                  have hmem := List.getLast_mem hcne
                  have := List.all_eq_true.mp hwf _ hmem
                  rw [hEq] at this
                  exact absurd this (by simp)
      · obtain ⟨h1, h2⟩ := Prod.mk.injEq _ _ _ _ ▸ h
        exact Or.inl ⟨h1.symm, h2.symm⟩

theorem natDecimal_digits (n : Nat) :
    natDecimal n ≠ [] ∧ (natDecimal n).all cIsDigit = true := by
  induction n using Nat.strong_induction_on with
  | _ n ih =>
      rw [natDecimal]
      split
      · next hlt =>
          refine ⟨by simp, ?_⟩
          simp only [List.all_cons, List.all_nil, Bool.and_true]
          interval_cases n <;> decide
      · next hge =>
          obtain ⟨ih1, ih2⟩ :=
            ih (n / 10) (Nat.div_lt_self (by omega) (by omega))
          refine ⟨by simp, ?_⟩
          rw [List.all_append]
          simp only [ih2, Bool.true_and, List.all_cons, List.all_nil,
            Bool.and_true]
          have hm : n % 10 < 10 := Nat.mod_lt _ (by omega)
          set k := n % 10 with hk
          interval_cases k <;> decide

theorem endsClean_natDecimal (n : Nat) : endsClean (natDecimal n) := by
  obtain ⟨h1, h2⟩ := natDecimal_digits n
  exact endsClean_of_all h1 h2 (by decide)

theorem endsClean_intDecimal (i : Int) : endsClean (intDecimal i) := by
  rw [intDecimal]
  split
  · exact endsClean_append ['-'] (endsClean_natDecimal _)
  · exact endsClean_natDecimal _

theorem bare_string_ok {s : Str} (h : yaml_string_must_be_quoted s = false) :
    s ≠ [] ∧ s.all inRawStringContains = true := by
  cases s with
  | nil => simp [yaml_string_must_be_quoted] at h
  | cons c cs =>
      rw [yaml_string_must_be_quoted] at h
      simp only [Bool.or_eq_false_iff, Bool.not_eq_false'] at h
      exact ⟨by simp, h.1.1.1.1.2⟩

/-- The chunk written for a scalar string always ends on a byte that is
not a newline: a bare string contains only printable bytes and a quoted
string ends on the closing quote. -/
theorem pack_string_chunk {env : yaml_pack_env_t} {s : Str} {n' : Nat}
    {env' : yaml_pack_env_t} (h : yaml_pack_string env s = (n', env')) :
    ∃ t, endsClean t ∧ n' ≤ t.length ∧
      env' = { env with out := env.out ++ t } := by
  rw [yaml_pack_string] at h
  split at h
  · obtain ⟨h1, h2⟩ := Prod.mk.injEq _ _ _ _ ▸ h
    subst h1 h2
    rename_i hq
    simp only [Bool.not_eq_true', Bool.not_eq_false] at hq
    obtain ⟨hne, hall⟩ := bare_string_ok hq
    exact ⟨s, endsClean_of_all hne hall (by decide), by
      constructor
      · omega
      · rfl⟩
  · obtain ⟨h1, h2⟩ := Prod.mk.injEq _ _ _ _ ▸ h
    subst h1 h2
    refine ⟨_, ⟨'"' :: (s.map fun c =>
      if packSafeChar c then [c] else yaml_escape_char c).flatten, '"',
      rfl, by decide⟩, by omega, rfl⟩

theorem scalar_done {env : yaml_pack_env_t} {v : YamlScalar} {n' : Nat}
    {env' : yaml_pack_env_t} (hwf : wfScalar v = true)
    (h : yaml_pack_scalar env v = (n', env')) :
    AfterRel n' env env' := by
  rw [yaml_pack_scalar] at h
  cases hg : yaml_pack_goto_state env .clean with
  | mk a env1 =>
      rw [hg] at h
      dsimp only at h
      obtain ⟨⟨w1, e1, l1, p1⟩, _, _⟩ := goto_step hg
      have finish : ∀ {t : Str} {b : Nat}, endsClean t → b ≤ t.length →
          (a + b, { { env1 with out := env1.out ++ t } with
            state := PackState.afterData }) = (n', env') →
          AfterRel n' env env' := by
        intro t b ht hb hEq
        obtain ⟨q1, q2⟩ := Prod.mk.injEq _ _ _ _ ▸ hEq
        subst q2
        subst q1
        exact ⟨w1 ++ t, by simp [e1], by simp; omega, p1, rfl,
          endsClean_append w1 ht⟩
      cases v with
      | str s =>
          dsimp only at h
          cases hs : yaml_pack_string env1 s with
          | mk b env2 =>
              rw [hs] at h
              dsimp only at h
              obtain ⟨t, ht, hb, henv2⟩ := pack_string_chunk hs
              subst henv2
              exact finish ht hb h
      | double r =>
          dsimp only at h
          cases hw : pwrite env1 r with
          | mk b env2 =>
              rw [hw] at h
              dsimp only at h
              obtain ⟨hb, henv2⟩ := pwrite_eq env1 _ hw
              subst henv2
              simp only [wfScalar, Bool.and_eq_true, Bool.not_eq_true',
                List.isEmpty_eq_false] at hwf
              exact finish
                (endsClean_of_all (by simpa using hwf.1) hwf.2 (by decide))
                (le_of_eq hb) h
      | uint u =>
          dsimp only at h
          cases hw : pwrite env1 (natDecimal u) with
          | mk b env2 =>
              rw [hw] at h
              dsimp only at h
              obtain ⟨hb, henv2⟩ := pwrite_eq env1 _ hw
              subst henv2
              exact finish (endsClean_natDecimal u) (le_of_eq hb) h
      | int i =>
          dsimp only at h
          cases hw : pwrite env1 (intDecimal i) with
          | mk b env2 =>
              rw [hw] at h
              dsimp only at h
              obtain ⟨hb, henv2⟩ := pwrite_eq env1 _ hw
              subst henv2
              exact finish (endsClean_intDecimal i) (le_of_eq hb) h
      | bool b =>
          cases b with
          | true =>
              dsimp only at h
              cases hw : pwrite env1 "true".toList with
              | mk b env2 =>
                  rw [hw] at h
                  dsimp only at h
                  obtain ⟨hb, henv2⟩ := pwrite_eq env1 _ hw
                  subst henv2
                  exact finish ⟨['t', 'r', 'u'], 'e', rfl, by decide⟩
                    (le_of_eq hb) h
          | false =>
              dsimp only at h
              cases hw : pwrite env1 "false".toList with
              | mk b env2 =>
                  rw [hw] at h
                  dsimp only at h
                  obtain ⟨hb, henv2⟩ := pwrite_eq env1 _ hw
                  subst henv2
                  exact finish ⟨['f', 'a', 'l', 's'], 'e', rfl, by decide⟩
                    (le_of_eq hb) h
      | null =>
          dsimp only at h
          cases hw : pwrite env1 "~".toList with
          | mk b env2 =>
              rw [hw] at h
              dsimp only at h
              obtain ⟨hb, henv2⟩ := pwrite_eq env1 _ hw
              subst henv2
              exact finish ⟨[], '~', rfl, by decide⟩ (le_of_eq hb) h

theorem lookupFirst_wf {m : List (Str × yaml_presentation_node_t)}
    (hm : wfPresMap m = true) (p : Str) :
    wfPresNodeOpt (lookupFirst m p) = true := by
  induction m with
  | nil => rfl
  | cons kv r ih =>
      rw [lookupFirst]
      rw [wfPresMap, List.all_cons, Bool.and_eq_true] at hm
      split
      · simpa [wfPresNodeOpt] using hm.1
      · exact ih hm.2

theorem getD_wf {l : List (Option yaml_presentation_node_t)}
    (h : l.all wfPresNodeOpt = true) (pos : Nat) :
    wfPresNodeOpt (l.getD pos none) = true := by
  induction l generalizing pos with
  | nil => cases pos <;> rfl
  | cons x r ih =>
      rw [List.all_cons, Bool.and_eq_true] at h
      cases pos with
      | zero => simpa [List.getD] using h.1
      | succ p => simpa [List.getD] using ih h.2 p

theorem wfData_presentation {data : yaml_data_t} (h : wfData data = true) :
    wfPresNodeOpt data.presentation = true := by
  cases data <;>
    simp only [wfData, Bool.and_eq_true, yaml_data_t.presentation] at h ⊢ <;>
    tauto

theorem env_node_wf {env : yaml_pack_env_t} {data : yaml_data_t}
    (henv : wfEnvPres env = true) (hd : wfData data = true) :
    wfPresNodeOpt
      (if env.pres.isSome then
        yaml_pack_env_get_pres_node
          { env with absolute_path := env.absolute_path ++ ['!'] }
      else data.presentation) = true := by
  cases hp : env.pres with
  | none => simp [hp, wfData_presentation hd]
  | some m =>
      rw [wfEnvPres, hp] at henv
      simp only [hp, Option.isSome_some, if_true]
      rw [yaml_pack_env_get_pres_node]
      simp only [hp]
      exact lookupFirst_wf henv _

theorem seq_elem_node_wf {env : yaml_pack_env_t}
    {pns : List (Option yaml_presentation_node_t)}
    (henv : wfEnvPres env = true) (hp : pns.all wfPresNodeOpt = true)
    (env2 : yaml_pack_env_t) (hpres : env2.pres = env.pres) (pos : Nat) :
    wfPresNodeOpt
      (if env2.pres.isSome then yaml_pack_env_get_pres_node env2
       else pns.getD pos none) = true := by
  cases hq : env2.pres with
  | none => simpa [hq] using getD_wf hp pos
  | some m =>
      have hem : env.pres = some m := hpres.symm.trans hq
      rw [wfEnvPres, hem] at henv
      simp only [hq, Option.isSome_some, if_true]
      rw [yaml_pack_env_get_pres_node, hq]
      exact lookupFirst_wf henv _

theorem DoneRel.congrIdx {m n : Nat} {a b : yaml_pack_env_t}
    (h : DoneRel m a b) (e : n = m) : DoneRel n a b := e ▸ h

theorem CleanRel.recount {m n : Nat} {a b : yaml_pack_env_t}
    (h : CleanRel m a b) (e : n = m) : CleanRel n a b := e ▸ h

theorem CleanRel.reClean {n : Nat} {a b : yaml_pack_env_t}
    (h : CleanRel n a b) : CleanRel n a { b with state := PackState.clean } := by
  obtain ⟨w, e, l, p, _, he⟩ := h
  exact ⟨w, e, l, p, rfl, he⟩

theorem DoneRel.thenInline {m : Nat} {a b : yaml_pack_env_t}
    (h1 : DoneRel m a b) {node : Option yaml_presentation_node_t}
    (hwf : wfPresNodeOpt node = true) {n2 : Nat} {env' : yaml_pack_env_t}
    (h2 : yaml_pack_pres_node_inline b node = (n2, env')) :
    DoneRel (m + n2) a env' := by
  rcases inline_step hwf h2 with ⟨hz, hid⟩ | ⟨w2, e2, l2, p2, hs2, he2⟩
  · subst hid
    subst hz
    simpa using h1
  · obtain ⟨w1, e1, l1, p1, _⟩ := h1
    exact ⟨w1 ++ w2, by rw [e2, e1, List.append_assoc],
      by simp; omega, packPreserved_trans p1 p2,
      Or.inr ⟨hs2, endsOneNl_append w1 he2⟩⟩

theorem inline_step_weak {env : yaml_pack_env_t}
    {node : Option yaml_presentation_node_t} {n' : Nat}
    {env' : yaml_pack_env_t} (hwf : wfPresNodeOpt node = true)
    (h : yaml_pack_pres_node_inline env node = (n', env')) :
    StepRel n' env env' := by
  rcases inline_step hwf h with ⟨hz, hid⟩ | ⟨w2, e2, l2, p2, _, _⟩
  · subst hid
    subst hz
    exact ⟨[], by simp, by omega, rfl⟩
  · exact ⟨w2, e2, l2, p2⟩

theorem wfEnvPres_pres_eq {a b : yaml_pack_env_t} (h : b.pres = a.pres) :
    wfEnvPres b = wfEnvPres a := by
  unfold wfEnvPres
  rw [h]

theorem yaml_data_sizeOf_pos (d : yaml_data_t) : 0 < sizeOf d := by
  cases d <;> simp_arith

theorem yaml_key_data_sizeOf_pos (kd : yaml_key_data_t) : 0 < sizeOf kd := by
  cases kd
  simp_arith

/-- Definitional unfoldings of yaml_pack_flow_data per constructor. -/
theorem flow_data_scalar_eq (env : yaml_pack_env_t) (v : YamlScalar)
    (t : Option Str) (p : Option yaml_presentation_node_t) (co : Bool) :
    yaml_pack_flow_data env (.scalar v t p) co =
      (let r := yaml_pack_scalar env v
       (r.1, { r.2 with state := PackState.clean })) := rfl

theorem flow_data_seq_eq (env : yaml_pack_env_t) (ds : List yaml_data_t)
    (pns : List (Option yaml_presentation_node_t)) (t : Option Str)
    (p : Option yaml_presentation_node_t) (co : Bool) :
    yaml_pack_flow_data env (.seq ds pns t p) co =
      (let r :=
        if ds.isEmpty then pwrite env "[]".toList
        else
          let r1 := pwrite env "[ ".toList
          let r2 := yaml_pack_flow_seq_loop r1.2 ds 0
          let r3 := pwrite r2.2 " ]".toList
          (r1.1 + r2.1 + r3.1, r3.2)
       (r.1, { r.2 with state := PackState.clean })) := rfl

theorem flow_data_obj_eq (env : yaml_pack_env_t)
    (fs : List yaml_key_data_t) (t : Option Str)
    (p : Option yaml_presentation_node_t) (co : Bool) :
    yaml_pack_flow_data env (.obj fs t p) co =
      (let r :=
        if fs.isEmpty then pwrite env [lbrace, rbrace]
        else
          let ob := co && fs.length == 1
          let r1 := if !ob then pwrite env [lbrace, ' '] else (0, env)
          let r2 := yaml_pack_flow_obj_loop r1.2 fs 0
          let r3 := if !ob then pwrite r2.2 [' ', rbrace] else (0, r2.2)
          (r1.1 + r2.1 + r3.1, r3.2)
       (r.1, { r.2 with state := PackState.clean })) := rfl

/-! ## The invariant, flow functions -/

def SFlow (N : Nat) : Prop :=
  ∀ env data co n' env', sizeOf data ≤ N → wfData data = true →
    yaml_pack_flow_data env data co = (n', env') → CleanRel n' env env'

def SFlowSeq (N : Nat) : Prop :=
  ∀ env datas pos n' env', sizeOf datas ≤ N → datas ≠ [] →
    wfDatas datas = true →
    yaml_pack_flow_seq_loop env datas pos = (n', env') →
    CleanRel n' env env'

def SFlowObj (N : Nat) : Prop :=
  ∀ env fields pos n' env', sizeOf fields ≤ N → fields ≠ [] →
    wfFields fields = true →
    yaml_pack_flow_obj_loop env fields pos = (n', env') →
    CleanRel n' env env'

theorem flow_invariant : ∀ N, SFlow N ∧ SFlowSeq N ∧ SFlowObj N := by
  intro N
  induction N with
  | zero =>
      refine ⟨?_, ?_, ?_⟩
      · intro env data co n' env' hsz _ _
        have := yaml_data_sizeOf_pos data
        omega
      · intro env datas pos n' env' hsz hne _ _
        cases datas with
        | nil => exact absurd rfl hne
        | cons d r =>
            have := yaml_data_sizeOf_pos d
            simp only [List.cons.sizeOf_spec] at hsz
            omega
      · intro env fields pos n' env' hsz hne _ _
        cases fields with
        | nil => exact absurd rfl hne
        | cons kd r =>
            have := yaml_key_data_sizeOf_pos kd
            simp only [List.cons.sizeOf_spec] at hsz
            omega
  | succ N ih =>
      obtain ⟨ihF, ihFS, ihFO⟩ := ih
      refine ⟨?_, ?_, ?_⟩
      · -- yaml_pack_flow_data
        intro env data co n' env' hsz hwf h
        cases data with
        | scalar v t p =>
            rw [flow_data_scalar_eq] at h
            dsimp only at h
            cases hs : yaml_pack_scalar env v with
            | mk a env2 =>
                rw [hs] at h
                dsimp only at h
                obtain ⟨q1, q2⟩ := Prod.mk.injEq _ _ _ _ ▸ h
                subst q2
                subst q1
                have hwv : wfScalar v = true := by
                  simp only [wfData, Bool.and_eq_true] at hwf
                  exact hwf.1
                exact (scalar_done hwv hs).toClean
        | seq ds pns t p =>
            rw [flow_data_seq_eq] at h
            dsimp only at h
            split at h
            · rename_i hemp
              cases hw : pwrite env "[]".toList with
              | mk a env2 =>
                  rw [hw] at h
                  dsimp only at h
                  obtain ⟨q1, q2⟩ := Prod.mk.injEq _ _ _ _ ▸ h
                  subst q2
                  subst q1
                  obtain ⟨hb, henv2⟩ := pwrite_eq env _ hw
                  subst henv2
                  subst hb
                  exact ⟨"[]".toList, rfl, by omega, rfl, rfl,
                    ⟨['['], ']', rfl, by decide⟩⟩
            · rename_i hemp
              cases h1 : pwrite env "[ ".toList with
              | mk a env1 =>
                  rw [h1] at h
                  dsimp only at h
                  cases h2 : yaml_pack_flow_seq_loop env1 ds 0 with
                  | mk b env2 =>
                      rw [h2] at h
                      dsimp only at h
                      cases h3 : pwrite env2 " ]".toList with
                      | mk c env3 =>
                          rw [h3] at h
                          dsimp only at h
                          obtain ⟨q1, q2⟩ := Prod.mk.injEq _ _ _ _ ▸ h
                          subst q2
                          subst q1
                          obtain ⟨ha, henv1⟩ := pwrite_eq env _ h1
                          subst henv1
                          subst ha
                          obtain ⟨hc, henv3⟩ := pwrite_eq env2 _ h3
                          subst henv3
                          subst hc
                          have hds : sizeOf ds ≤ N := by
                            simp only [yaml_data_t.seq.sizeOf_spec] at hsz
                            omega
                          have hdswf : wfDatas ds = true := by
                            simp only [wfData, Bool.and_eq_true] at hwf
                            exact hwf.2
                          obtain ⟨w2, e2, l2, p2, _, _⟩ :=
                            ihFS _ ds 0 b env2 hds
                              (by simpa using hemp) hdswf h2
                          refine ⟨"[ ".toList ++ w2 ++ " ]".toList,
                            by simp [e2, List.append_assoc],
                            by simp; omega, p2, rfl, ?_⟩
                          exact ⟨"[ ".toList ++ w2 ++ [' '], ']',
                            by simp, by decide⟩
        | obj fs t p =>
            rw [flow_data_obj_eq] at h
            dsimp only at h
            split at h
            · rename_i hemp
              cases hw : pwrite env [lbrace, rbrace] with
              | mk a env2 =>
                  rw [hw] at h
                  dsimp only at h
                  obtain ⟨q1, q2⟩ := Prod.mk.injEq _ _ _ _ ▸ h
                  subst q2
                  subst q1
                  obtain ⟨hb, henv2⟩ := pwrite_eq env _ hw
                  subst henv2
                  subst hb
                  exact ⟨[lbrace, rbrace], rfl, by omega, rfl, rfl,
                    ⟨[lbrace], rbrace, rfl, by decide⟩⟩
            · rename_i hemp
              have hfs : sizeOf fs ≤ N := by
                simp only [yaml_data_t.obj.sizeOf_spec] at hsz
                omega
              have hfswf : wfFields fs = true := by
                simp only [wfData, Bool.and_eq_true] at hwf
                exact hwf.2
              have hfne : fs ≠ [] := by simpa using hemp
              cases homit : co && fs.length == 1 with
              | true =>
                  rw [homit] at h
                  simp only [Bool.not_true, Bool.false_eq_true,
                    if_false] at h
                  cases h2 : yaml_pack_flow_obj_loop env fs 0 with
                  | mk b env2 =>
                      rw [h2] at h
                      dsimp only at h
                      obtain ⟨q1, q2⟩ := Prod.mk.injEq _ _ _ _ ▸ h
                      subst q2
                      subst q1
                      have := ihFO env fs 0 b env2 hfs hfne hfswf h2
                      simpa using this.reClean
              | false =>
                  rw [homit] at h
                  simp only [Bool.not_false, eq_self_iff_true,
                    if_true] at h
                  cases h1 : pwrite env [lbrace, ' '] with
                  | mk a env1 =>
                      rw [h1] at h
                      dsimp only at h
                      cases h2 : yaml_pack_flow_obj_loop env1 fs 0 with
                      | mk b env2 =>
                          rw [h2] at h
                          dsimp only at h
                          cases h3 : pwrite env2 [' ', rbrace] with
                          | mk c env3 =>
                              rw [h3] at h
                              dsimp only at h
                              obtain ⟨q1, q2⟩ := Prod.mk.injEq _ _ _ _ ▸ h
                              subst q2
                              subst q1
                              obtain ⟨ha, henv1⟩ := pwrite_eq env _ h1
                              subst henv1
                              subst ha
                              obtain ⟨hc, henv3⟩ := pwrite_eq env2 _ h3
                              subst henv3
                              subst hc
                              obtain ⟨w2, e2, l2, p2, _, _⟩ :=
                                ihFO _ fs 0 b env2 hfs hfne hfswf h2
                              refine ⟨[lbrace, ' '] ++ w2 ++ [' ', rbrace],
                                by simp [e2, List.append_assoc],
                                by simp; omega, p2, rfl, ?_⟩
                              exact ⟨[lbrace, ' '] ++ w2 ++ [' '], rbrace,
                                by simp, by decide⟩
      · -- yaml_pack_flow_seq_loop
        intro env datas pos n' env' hsz hne hwf h
        cases datas with
        | nil => exact absurd rfl hne
        | cons d rest =>
            rw [yaml_pack_flow_seq_loop] at h
            dsimp only at h
            cases hif : (if 0 < pos then pwrite env ", ".toList
                else (0, env)) with
            | mk a env1 =>
                rw [hif] at h
                dsimp only at h
                have s1 : StepRel a env env1 := by
                  split at hif
                  · obtain ⟨ha, henv1⟩ := pwrite_eq env _ hif
                    subst henv1
                    subst ha
                    exact ⟨", ".toList, rfl, by omega, rfl⟩
                  · obtain ⟨q1, q2⟩ := Prod.mk.injEq _ _ _ _ ▸ hif
                    subst q2
                    subst q1
                    exact ⟨[], by simp, by omega, rfl⟩
                cases h2 : yaml_pack_flow_data env1 d true with
                | mk b env2 =>
                    rw [h2] at h
                    dsimp only at h
                    cases h3 : yaml_pack_flow_seq_loop env2 rest (pos + 1)
                      with
                    | mk c env3 =>
                        rw [h3] at h
                        dsimp only at h
                        obtain ⟨q1, q2⟩ := Prod.mk.injEq _ _ _ _ ▸ h
                        subst q2
                        subst q1
                        simp only [List.cons.sizeOf_spec] at hsz
                        simp only [wfDatas, Bool.and_eq_true] at hwf
                        have c2 : CleanRel b env1 env2 :=
                          ihF env1 d true b env2 (by omega) hwf.1 h2
                        cases rest with
                        | nil =>
                            rw [yaml_pack_flow_seq_loop] at h3
                            obtain ⟨q1, q2⟩ := Prod.mk.injEq _ _ _ _ ▸ h3
                            subst q2
                            subst q1
                            exact (s1.clean c2).recount (by omega)
                        | cons d2 r2 =>
                            have c3 : CleanRel c env2 env3 :=
                              ihFS env2 (d2 :: r2) (pos + 1) c env3
                                (by omega) (by simp) hwf.2 h3
                            exact ((s1.clean c2).toStep.clean c3).recount
                              (by omega)
      · -- yaml_pack_flow_obj_loop
        intro env fields pos n' env' hsz hne hwf h
        cases fields with
        | nil => exact absurd rfl hne
        | cons kd rest =>
            cases kd with
            | mk key data kp =>
                rw [yaml_pack_flow_obj_loop] at h
                dsimp only at h
                cases hif : (if 0 < pos then pwrite env ", ".toList
                    else (0, env)) with
                | mk a env1 =>
                    rw [hif] at h
                    dsimp only at h
                    have s1 : StepRel a env env1 := by
                      split at hif
                      · obtain ⟨ha, henv1⟩ := pwrite_eq env _ hif
                        subst henv1
                        subst ha
                        exact ⟨", ".toList, rfl, by omega, rfl⟩
                      · obtain ⟨q1, q2⟩ := Prod.mk.injEq _ _ _ _ ▸ hif
                        subst q2
                        subst q1
                        exact ⟨[], by simp, by omega, rfl⟩
                    cases hk : pwrite env1 (key ++ ": ".toList) with
                    | mk b env2 =>
                        rw [hk] at h
                        dsimp only at h
                        obtain ⟨hb, henv2⟩ := pwrite_eq env1 _ hk
                        subst henv2
                        subst hb
                        have s2 : StepRel (key ++ ": ".toList).length env1
                            { env1 with out := env1.out ++
                              (key ++ ": ".toList) } :=
                          ⟨key ++ ": ".toList, rfl, by omega, rfl⟩
                        cases h2 : yaml_pack_flow_data
                            { env1 with out := env1.out ++
                              (key ++ ": ".toList) } data false with
                        | mk c env3 =>
                            rw [h2] at h
                            dsimp only at h
                            cases h3 : yaml_pack_flow_obj_loop env3 rest
                                (pos + 1) with
                            | mk d' env4 =>
                                rw [h3] at h
                                dsimp only at h
                                obtain ⟨q1, q2⟩ := Prod.mk.injEq _ _ _ _ ▸ h
                                subst q2
                                subst q1
                                simp only [List.cons.sizeOf_spec,
                                  yaml_key_data_t.mk.sizeOf_spec] at hsz
                                simp only [wfFields, Bool.and_eq_true] at hwf
                                have c2 : CleanRel c _ env3 :=
                                  ihF _ data false c env3 (by omega)
                                    hwf.1.2 h2
                                cases rest with
                                | nil =>
                                    rw [yaml_pack_flow_obj_loop] at h3
                                    obtain ⟨q1, q2⟩ :=
                                      Prod.mk.injEq _ _ _ _ ▸ h3
                                    subst q2
                                    subst q1
                                    exact ((s1.trans s2).clean c2).recount
                                      (by omega)
                                | cons kd2 r2 =>
                                    have c3 : CleanRel d' env3 env4 :=
                                      ihFO env3 (kd2 :: r2) (pos + 1) d' env4
                                        (by omega) (by simp) hwf.2 h3
                                    exact (((s1.trans s2).clean
                                      c2).toStep.clean c3).recount
                                      (by omega)

/-! ## The invariant, block functions -/

/-- The flow-mode hint carried by a presentation node (the test
`node && node->flow_mode` of t_yaml_pack_data). -/
def nodeFlowMode : Option yaml_presentation_node_t → Bool
  | some nd => nd.flowMode
  | none => false

/-- Definitional unfoldings of t_yaml_pack_data per constructor. -/
theorem pack_data_scalar_eq (env : yaml_pack_env_t) (v : YamlScalar)
    (t : Option Str) (p : Option yaml_presentation_node_t) :
    t_yaml_pack_data env (.scalar v t p) =
      (let node : Option yaml_presentation_node_t :=
        if env.pres.isSome then
          yaml_pack_env_get_pres_node
            { env with absolute_path := env.absolute_path ++ ['!'] }
        else p
       let r1 := yaml_pack_pres_node_lead env node
       let r2 := yaml_pack_tag r1.2 t
       if nodeFlowMode node &&
          yaml_env_data_can_use_flow_mode (.scalar v t p) then
         let r3 := yaml_pack_goto_state r2.2 .clean
         let r4 := yaml_pack_flow_data r3.2 (.scalar v t p) false
         let r5 := yaml_pack_pres_node_inline
           { r4.2 with state := PackState.afterData } node
         (r1.1 + r2.1 + r3.1 + r4.1 + r5.1, r5.2)
       else
         let r3 := yaml_pack_scalar r2.2 v
         let r5 := yaml_pack_pres_node_inline r3.2 node
         (r1.1 + r2.1 + r3.1 + r5.1, r5.2)) := rfl

theorem pack_data_seq_eq (env : yaml_pack_env_t) (ds : List yaml_data_t)
    (pns : List (Option yaml_presentation_node_t)) (t : Option Str)
    (p : Option yaml_presentation_node_t) :
    t_yaml_pack_data env (.seq ds pns t p) =
      (let node : Option yaml_presentation_node_t :=
        if env.pres.isSome then
          yaml_pack_env_get_pres_node
            { env with absolute_path := env.absolute_path ++ ['!'] }
        else p
       let r1 := yaml_pack_pres_node_lead env node
       let r2 := yaml_pack_tag r1.2 t
       if nodeFlowMode node &&
          yaml_env_data_can_use_flow_mode (.seq ds pns t p) then
         let r3 := yaml_pack_goto_state r2.2 .clean
         let r4 := yaml_pack_flow_data r3.2 (.seq ds pns t p) false
         let r5 := yaml_pack_pres_node_inline
           { r4.2 with state := PackState.afterData } node
         (r1.1 + r2.1 + r3.1 + r4.1 + r5.1, r5.2)
       else
         let r3 :=
           if ds.isEmpty then
             let a := yaml_pack_goto_state r2.2 .clean
             let b := pwrite a.2 "[]".toList
             (a.1 + b.1, { b.2 with state := PackState.afterData })
           else t_yaml_pack_seq_loop r2.2 ds pns 0
         let r5 := yaml_pack_pres_node_inline r3.2 node
         (r1.1 + r2.1 + r3.1 + r5.1, r5.2)) := rfl

theorem pack_data_obj_eq (env : yaml_pack_env_t)
    (fs : List yaml_key_data_t) (t : Option Str)
    (p : Option yaml_presentation_node_t) :
    t_yaml_pack_data env (.obj fs t p) =
      (let node : Option yaml_presentation_node_t :=
        if env.pres.isSome then
          yaml_pack_env_get_pres_node
            { env with absolute_path := env.absolute_path ++ ['!'] }
        else p
       let r1 := yaml_pack_pres_node_lead env node
       let r2 := yaml_pack_tag r1.2 t
       if nodeFlowMode node &&
          yaml_env_data_can_use_flow_mode (.obj fs t p) then
         let r3 := yaml_pack_goto_state r2.2 .clean
         let r4 := yaml_pack_flow_data r3.2 (.obj fs t p) false
         let r5 := yaml_pack_pres_node_inline
           { r4.2 with state := PackState.afterData } node
         (r1.1 + r2.1 + r3.1 + r4.1 + r5.1, r5.2)
       else
         let r3 :=
           if fs.isEmpty then
             let a := yaml_pack_goto_state r2.2 .clean
             let b := pwrite a.2 [lbrace, rbrace]
             (a.1 + b.1, { b.2 with state := PackState.afterData })
           else yaml_pack_obj_loop r2.2 fs
         let r5 := yaml_pack_pres_node_inline r3.2 node
         (r1.1 + r2.1 + r3.1 + r5.1, r5.2)) := rfl

theorem seq_loop_nil_eq (env : yaml_pack_env_t)
    (pns : List (Option yaml_presentation_node_t)) (pos : Nat) :
    t_yaml_pack_seq_loop env [] pns pos = (0, env) := rfl

theorem seq_loop_cons_eq (env : yaml_pack_env_t) (d : yaml_data_t)
    (rest : List yaml_data_t)
    (pns : List (Option yaml_presentation_node_t)) (pos : Nat) :
    t_yaml_pack_seq_loop env (d :: rest) pns pos =
      (let env0 := if env.pres.isSome then
          { env with absolute_path := env.absolute_path ++ natPath pos }
        else env
       let node := if env0.pres.isSome then yaml_pack_env_get_pres_node env0
         else pns.getD pos none
       let r1 := yaml_pack_pres_node_lead env0 node
       let r2 := yaml_pack_goto_state r1.2 .onDash
       let r3 := pwrite r2.2 ['-']
       let r4 := yaml_pack_pres_node_inline
         { r3.2 with indent_lvl := r3.2.indent_lvl + YAML_STD_INDENT } node
       let r5 := t_yaml_pack_data r4.2 d
       let r6 := t_yaml_pack_seq_loop
         { r5.2 with
           indent_lvl := r5.2.indent_lvl - YAML_STD_INDENT
           absolute_path := env.absolute_path } rest pns (pos + 1)
       (r1.1 + r2.1 + r3.1 + r4.1 + r5.1 + r6.1, r6.2)) := rfl

theorem key_data_eq (env : yaml_pack_env_t) (key : Str)
    (data : yaml_data_t) (kp : Option yaml_presentation_node_t) :
    t_yaml_pack_key_data env (.mk key data kp) =
      (let env0 := if env.pres.isSome then
          { env with absolute_path := env.absolute_path ++ '.' :: key }
        else env
       let node := if env0.pres.isSome then yaml_pack_env_get_pres_node env0
         else kp
       let r1 := yaml_pack_pres_node_lead env0 node
       let r2 := yaml_pack_goto_state r1.2 .onKey
       let r3 := pwrite r2.2 (key ++ [':'])
       let r4 := yaml_pack_pres_node_inline
         { r3.2 with indent_lvl := r3.2.indent_lvl + YAML_STD_INDENT } node
       let r5 := t_yaml_pack_data r4.2 data
       (r1.1 + r2.1 + r3.1 + r4.1 + r5.1,
        { r5.2 with
          indent_lvl := r5.2.indent_lvl - YAML_STD_INDENT
          absolute_path := env.absolute_path })) := rfl

theorem obj_loop_nil_eq (env : yaml_pack_env_t) :
    yaml_pack_obj_loop env [] = (0, env) := rfl

theorem obj_loop_cons_eq (env : yaml_pack_env_t) (kd : yaml_key_data_t)
    (rest : List yaml_key_data_t) :
    yaml_pack_obj_loop env (kd :: rest) =
      (let r1 := t_yaml_pack_key_data env kd
       let r2 := yaml_pack_obj_loop r1.2 rest
       (r1.1 + r2.1, r2.2)) := rfl

theorem StepRel.presEq {n : Nat} {a b : yaml_pack_env_t}
    (h : StepRel n a b) : b.pres = a.pres := by
  obtain ⟨_, _, _, p⟩ := h
  exact p

theorem DoneRel.presKept {n : Nat} {a b : yaml_pack_env_t}
    (h : DoneRel n a b) : b.pres = a.pres := by
  obtain ⟨_, _, _, p, _⟩ := h
  exact p

/-- Restate a step from an equal base environment (same buffer and
presentation map). -/
theorem StepRel.baseSwap {n : Nat} {a a' b : yaml_pack_env_t}
    (h : StepRel n a b) (ho : a.out = a'.out) (hp : a.pres = a'.pres) :
    StepRel n a' b := by
  obtain ⟨w, e, l, p⟩ := h
  exact ⟨w, by rw [e, ho], l, p.trans hp⟩

/-- Restate a packing result at an equal target environment (same
buffer, presentation map and machine state). -/
theorem DoneRel.retarget {n : Nat} {a b c : yaml_pack_env_t}
    (h : DoneRel n a b) (ho : c.out = b.out) (hp : c.pres = b.pres)
    (hs : c.state = b.state) : DoneRel n a c := by
  obtain ⟨w, e, l, p, hd⟩ := h
  refine ⟨w, ho.trans e, l, hp.trans p, ?_⟩
  rcases hd with ⟨h1, h2⟩ | ⟨h1, h2⟩
  · exact Or.inl ⟨hs.trans h1, h2⟩
  · exact Or.inr ⟨hs.trans h1, h2⟩

/-- The flow branch of t_yaml_pack_data: GOTO_STATE(CLEAN), flow pack,
forced AFTER_DATA, then the inline comment. -/
theorem pack_flow_branch {env2 env3 env4 env5 : yaml_pack_env_t}
    {data : yaml_data_t} {node : Option yaml_presentation_node_t}
    {c d e : Nat} (hwf : wfData data = true)
    (hnwf : wfPresNodeOpt node = true)
    (h3 : yaml_pack_goto_state env2 .clean = (c, env3))
    (h4 : yaml_pack_flow_data env3 data false = (d, env4))
    (h5 : yaml_pack_pres_node_inline
      { env4 with state := PackState.afterData } node = (e, env5)) :
    DoneRel (c + d + e) env2 env5 := by
  have c4 := (flow_invariant (sizeOf data)).1 env3 data false d env4
    le_rfl hwf h4
  have d5 := (c4.setAfterData).thenInline hnwf h5
  exact ((goto_step h3).1.intoDone d5).congrIdx (by omega)

/-- The empty-container branch of t_yaml_pack_seq / yaml_pack_obj:
GOTO_STATE(CLEAN), the two bracket bytes, forced AFTER_DATA. -/
theorem empty_brackets_done {env2 env3 env4 : yaml_pack_env_t} {s : Str}
    (hs : endsClean s) {c d : Nat}
    (h3 : yaml_pack_goto_state env2 .clean = (c, env3))
    (h4 : pwrite env3 s = (d, env4)) :
    DoneRel (c + d) env2 { env4 with state := PackState.afterData } := by
  obtain ⟨⟨w3, e3, l3, p3⟩, _, _⟩ := goto_step h3
  obtain ⟨hd, henv4⟩ := pwrite_eq env3 _ h4
  subst henv4
  subst hd
  exact ⟨w3 ++ s, by simp [e3], by simp; omega, p3,
    Or.inl ⟨rfl, endsClean_append w3 hs⟩⟩

/-- Well-formedness of the presentation node used for an object key
(from the environment map when packing with presentation data, from the
key slot otherwise). -/
theorem key_node_wf {env : yaml_pack_env_t}
    {kp : Option yaml_presentation_node_t}
    (henv : wfEnvPres env = true) (hkp : wfPresNodeOpt kp = true)
    (env2 : yaml_pack_env_t) (hpres : env2.pres = env.pres) :
    wfPresNodeOpt
      (if env2.pres.isSome then yaml_pack_env_get_pres_node env2
       else kp) = true := by
  cases hq : env2.pres with
  | none => simpa [hq] using hkp
  | some m =>
      have hem : env.pres = some m := hpres.symm.trans hq
      rw [wfEnvPres, hem] at henv
      simp only [hq, Option.isSome_some, if_true]
      rw [yaml_pack_env_get_pres_node, hq]
      exact lookupFirst_wf henv _

/-- Invariant of t_yaml_pack_data at bounded size: packing appends a
chunk accounted for by the returned byte count, preserves the
presentation map, and ends in AFTER_DATA with no trailing newline or in
ON_NEWLINE with exactly one. -/
def SData (N : Nat) : Prop :=
  ∀ env data n' env', sizeOf data ≤ N → wfEnvPres env = true →
    wfData data = true →
    t_yaml_pack_data env data = (n', env') → DoneRel n' env env'

def SSeqLoop (N : Nat) : Prop :=
  ∀ env datas pns pos n' env', sizeOf datas ≤ N → datas ≠ [] →
    wfEnvPres env = true → pns.all wfPresNodeOpt = true →
    wfDatas datas = true →
    t_yaml_pack_seq_loop env datas pns pos = (n', env') →
    DoneRel n' env env'

def SKeyData (N : Nat) : Prop :=
  ∀ env key data kp n' env',
    sizeOf (yaml_key_data_t.mk key data kp) ≤ N →
    wfEnvPres env = true → wfPresNodeOpt kp = true → wfData data = true →
    t_yaml_pack_key_data env (.mk key data kp) = (n', env') →
    DoneRel n' env env'

def SObjLoop (N : Nat) : Prop :=
  ∀ env fields n' env', sizeOf fields ≤ N → fields ≠ [] →
    wfEnvPres env = true → wfFields fields = true →
    yaml_pack_obj_loop env fields = (n', env') →
    DoneRel n' env env'

theorem block_invariant : ∀ N, SData N ∧ SSeqLoop N ∧ SKeyData N ∧
    SObjLoop N := by
  intro N
  induction N with
  | zero =>
      refine ⟨?_, ?_, ?_, ?_⟩
      · intro env data n' env' hsz _ _ _
        have := yaml_data_sizeOf_pos data
        omega
      · intro env datas pns pos n' env' hsz hne _ _ _ _
        cases datas with
        | nil => exact absurd rfl hne
        | cons d r =>
            have := yaml_data_sizeOf_pos d
            simp only [List.cons.sizeOf_spec] at hsz
            omega
      · intro env key data kp n' env' hsz _ _ _ _
        have := yaml_key_data_sizeOf_pos (.mk key data kp)
        omega
      · intro env fields n' env' hsz hne _ _ _
        cases fields with
        | nil => exact absurd rfl hne
        | cons kd r =>
            have := yaml_key_data_sizeOf_pos kd
            simp only [List.cons.sizeOf_spec] at hsz
            omega
  | succ N ih =>
      obtain ⟨ihD, ihS, ihK, ihO⟩ := ih
      refine ⟨?_, ?_, ?_, ?_⟩
      · -- t_yaml_pack_data
        intro env data n' env' hsz henv hwf h
        cases data with
        | scalar v t p =>
            rw [pack_data_scalar_eq] at h
            dsimp only at h
            generalize hnode : (if env.pres.isSome then
                yaml_pack_env_get_pres_node
                  { env with absolute_path := env.absolute_path ++ ['!'] }
              else p) = node at h
            have hnwf : wfPresNodeOpt node = true := by
              rw [← hnode]
              exact env_node_wf henv hwf
            rcases h1 : yaml_pack_pres_node_lead env node with ⟨a, env1⟩
            rw [h1] at h
            dsimp only at h
            rcases h2 : yaml_pack_tag env1 t with ⟨b, env2⟩
            rw [h2] at h
            dsimp only at h
            cases hcond : (nodeFlowMode node &&
                yaml_env_data_can_use_flow_mode (.scalar v t p)) with
            | true =>
                rw [hcond] at h
                simp only [eq_self_iff_true, if_true] at h
                rcases h3 : yaml_pack_goto_state env2 .clean with ⟨c, env3⟩
                rw [h3] at h
                dsimp only at h
                rcases h4 : yaml_pack_flow_data env3 (.scalar v t p) false
                  with ⟨d, env4⟩
                rw [h4] at h
                dsimp only at h
                rcases h5 : yaml_pack_pres_node_inline
                    { env4 with state := PackState.afterData } node
                  with ⟨e, env5⟩
                rw [h5] at h
                dsimp only at h
                obtain ⟨q1, q2⟩ := Prod.mk.injEq _ _ _ _ ▸ h
                subst q2
                subst q1
                exact (((lead_step h1).trans (tag_step h2)).intoDone
                  (pack_flow_branch hwf hnwf h3 h4 h5)).congrIdx (by omega)
            | false =>
                rw [hcond] at h
                simp only [Bool.false_eq_true, if_false] at h
                rcases h3 : yaml_pack_scalar env2 v with ⟨c, env3⟩
                rw [h3] at h
                dsimp only at h
                rcases h5 : yaml_pack_pres_node_inline env3 node
                  with ⟨e, env5⟩
                rw [h5] at h
                dsimp only at h
                obtain ⟨q1, q2⟩ := Prod.mk.injEq _ _ _ _ ▸ h
                subst q2
                subst q1
                have hvwf : wfScalar v = true := by
                  simp only [wfData, Bool.and_eq_true] at hwf
                  exact hwf.1
                exact (((lead_step h1).trans (tag_step h2)).intoDone
                  (((scalar_done hvwf h3).toDone).thenInline
                    hnwf h5)).congrIdx (by omega)
        | seq ds pns t p =>
            rw [pack_data_seq_eq] at h
            dsimp only at h
            generalize hnode : (if env.pres.isSome then
                yaml_pack_env_get_pres_node
                  { env with absolute_path := env.absolute_path ++ ['!'] }
              else p) = node at h
            have hnwf : wfPresNodeOpt node = true := by
              rw [← hnode]
              exact env_node_wf henv hwf
            rcases h1 : yaml_pack_pres_node_lead env node with ⟨a, env1⟩
            rw [h1] at h
            dsimp only at h
            rcases h2 : yaml_pack_tag env1 t with ⟨b, env2⟩
            rw [h2] at h
            dsimp only at h
            cases hcond : (nodeFlowMode node &&
                yaml_env_data_can_use_flow_mode (.seq ds pns t p)) with
            | true =>
                rw [hcond] at h
                simp only [eq_self_iff_true, if_true] at h
                rcases h3 : yaml_pack_goto_state env2 .clean with ⟨c, env3⟩
                rw [h3] at h
                dsimp only at h
                rcases h4 : yaml_pack_flow_data env3 (.seq ds pns t p) false
                  with ⟨d, env4⟩
                rw [h4] at h
                dsimp only at h
                rcases h5 : yaml_pack_pres_node_inline
                    { env4 with state := PackState.afterData } node
                  with ⟨e, env5⟩
                rw [h5] at h
                dsimp only at h
                obtain ⟨q1, q2⟩ := Prod.mk.injEq _ _ _ _ ▸ h
                subst q2
                subst q1
                exact (((lead_step h1).trans (tag_step h2)).intoDone
                  (pack_flow_branch hwf hnwf h3 h4 h5)).congrIdx (by omega)
            | false =>
                rw [hcond] at h
                simp only [Bool.false_eq_true, if_false] at h
                split at h
                · rename_i hemp
                  rcases h3 : yaml_pack_goto_state env2 .clean with ⟨c, env3⟩
                  rw [h3] at h
                  dsimp only at h
                  rcases h4 : pwrite env3 "[]".toList with ⟨d, env4⟩
                  rw [h4] at h
                  dsimp only at h
                  rcases h5 : yaml_pack_pres_node_inline
                      { env4 with state := PackState.afterData } node
                    with ⟨e, env5⟩
                  rw [h5] at h
                  dsimp only at h
                  obtain ⟨q1, q2⟩ := Prod.mk.injEq _ _ _ _ ▸ h
                  subst q2
                  subst q1
                  exact (((lead_step h1).trans (tag_step h2)).intoDone
                    ((empty_brackets_done ⟨['['], ']', rfl, by decide⟩
                      h3 h4).thenInline hnwf h5)).congrIdx (by omega)
                · rename_i hemp
                  rcases h3 : t_yaml_pack_seq_loop env2 ds pns 0
                    with ⟨c, env3⟩
                  rw [h3] at h
                  dsimp only at h
                  rcases h5 : yaml_pack_pres_node_inline env3 node
                    with ⟨e, env5⟩
                  rw [h5] at h
                  dsimp only at h
                  obtain ⟨q1, q2⟩ := Prod.mk.injEq _ _ _ _ ▸ h
                  subst q2
                  subst q1
                  have hdsz : sizeOf ds ≤ N := by
                    simp only [yaml_data_t.seq.sizeOf_spec] at hsz
                    omega
                  have hpres2 : env2.pres = env.pres :=
                    (tag_step h2).presEq.trans (lead_step h1).presEq
                  have henv2 : wfEnvPres env2 = true := by
                    rw [wfEnvPres_pres_eq hpres2]
                    exact henv
                  simp only [wfData, Bool.and_eq_true] at hwf
                  have dS := ihS env2 ds pns 0 c env3 hdsz
                    (by simpa using hemp) henv2 hwf.1.2 hwf.2 h3
                  exact (((lead_step h1).trans (tag_step h2)).intoDone
                    (dS.thenInline hnwf h5)).congrIdx (by omega)
        | obj fs t p =>
            rw [pack_data_obj_eq] at h
            dsimp only at h
            generalize hnode : (if env.pres.isSome then
                yaml_pack_env_get_pres_node
                  { env with absolute_path := env.absolute_path ++ ['!'] }
              else p) = node at h
            have hnwf : wfPresNodeOpt node = true := by
              rw [← hnode]
              exact env_node_wf henv hwf
            rcases h1 : yaml_pack_pres_node_lead env node with ⟨a, env1⟩
            rw [h1] at h
            dsimp only at h
            rcases h2 : yaml_pack_tag env1 t with ⟨b, env2⟩
            rw [h2] at h
            dsimp only at h
            cases hcond : (nodeFlowMode node &&
                yaml_env_data_can_use_flow_mode (.obj fs t p)) with
            | true =>
                rw [hcond] at h
                simp only [eq_self_iff_true, if_true] at h
                rcases h3 : yaml_pack_goto_state env2 .clean with ⟨c, env3⟩
                rw [h3] at h
                dsimp only at h
                rcases h4 : yaml_pack_flow_data env3 (.obj fs t p) false
                  with ⟨d, env4⟩
                rw [h4] at h
                dsimp only at h
                rcases h5 : yaml_pack_pres_node_inline
                    { env4 with state := PackState.afterData } node
                  with ⟨e, env5⟩
                rw [h5] at h
                dsimp only at h
                obtain ⟨q1, q2⟩ := Prod.mk.injEq _ _ _ _ ▸ h
                subst q2
                subst q1
                exact (((lead_step h1).trans (tag_step h2)).intoDone
                  (pack_flow_branch hwf hnwf h3 h4 h5)).congrIdx (by omega)
            | false =>
                rw [hcond] at h
                simp only [Bool.false_eq_true, if_false] at h
                split at h
                · rename_i hemp
                  rcases h3 : yaml_pack_goto_state env2 .clean with ⟨c, env3⟩
                  rw [h3] at h
                  dsimp only at h
                  rcases h4 : pwrite env3 [lbrace, rbrace] with ⟨d, env4⟩
                  rw [h4] at h
                  dsimp only at h
                  rcases h5 : yaml_pack_pres_node_inline
                      { env4 with state := PackState.afterData } node
                    with ⟨e, env5⟩
                  rw [h5] at h
                  dsimp only at h
                  obtain ⟨q1, q2⟩ := Prod.mk.injEq _ _ _ _ ▸ h
                  subst q2
                  subst q1
                  exact (((lead_step h1).trans (tag_step h2)).intoDone
                    ((empty_brackets_done ⟨[lbrace], rbrace, rfl, by decide⟩
                      h3 h4).thenInline hnwf h5)).congrIdx (by omega)
                · rename_i hemp
                  rcases h3 : yaml_pack_obj_loop env2 fs with ⟨c, env3⟩
                  rw [h3] at h
                  dsimp only at h
                  rcases h5 : yaml_pack_pres_node_inline env3 node
                    with ⟨e, env5⟩
                  rw [h5] at h
                  dsimp only at h
                  obtain ⟨q1, q2⟩ := Prod.mk.injEq _ _ _ _ ▸ h
                  subst q2
                  subst q1
                  have hfsz : sizeOf fs ≤ N := by
                    simp only [yaml_data_t.obj.sizeOf_spec] at hsz
                    omega
                  have hpres2 : env2.pres = env.pres :=
                    (tag_step h2).presEq.trans (lead_step h1).presEq
                  have henv2 : wfEnvPres env2 = true := by
                    rw [wfEnvPres_pres_eq hpres2]
                    exact henv
                  simp only [wfData, Bool.and_eq_true] at hwf
                  have dO := ihO env2 fs c env3 hfsz
                    (by simpa using hemp) henv2 hwf.2 h3
                  exact (((lead_step h1).trans (tag_step h2)).intoDone
                    (dO.thenInline hnwf h5)).congrIdx (by omega)
      · -- t_yaml_pack_seq_loop
        intro env datas pns pos n' env' hsz hne henv hpns hwf h
        cases datas with
        | nil => exact absurd rfl hne
        | cons d rest =>
            rw [seq_loop_cons_eq] at h
            dsimp only at h
            generalize henv0 : (if env.pres.isSome then
                { env with absolute_path := env.absolute_path ++ natPath pos }
              else env) = env0 at h
            have h0 : env0.out = env.out ∧ env0.pres = env.pres := by
              rw [← henv0]
              split
              · exact ⟨rfl, rfl⟩
              · exact ⟨rfl, rfl⟩
            generalize hnode : (if env0.pres.isSome then
                yaml_pack_env_get_pres_node env0
              else pns.getD pos none) = node at h
            have hnwf : wfPresNodeOpt node = true := by
              rw [← hnode]
              exact seq_elem_node_wf henv hpns env0 h0.2 pos
            rcases h1 : yaml_pack_pres_node_lead env0 node with ⟨a, env1⟩
            rw [h1] at h
            dsimp only at h
            rcases h2 : yaml_pack_goto_state env1 .onDash with ⟨b, env2⟩
            rw [h2] at h
            dsimp only at h
            rcases h3 : pwrite env2 ['-'] with ⟨c, env3⟩
            rw [h3] at h
            dsimp only at h
            rcases h4 : yaml_pack_pres_node_inline
                { env3 with indent_lvl := env3.indent_lvl + YAML_STD_INDENT }
                node with ⟨d', env4⟩
            rw [h4] at h
            dsimp only at h
            rcases h5 : t_yaml_pack_data env4 d with ⟨e, env5⟩
            rw [h5] at h
            dsimp only at h
            rcases h6 : t_yaml_pack_seq_loop
                { env5 with
                  indent_lvl := env5.indent_lvl - YAML_STD_INDENT
                  absolute_path := env.absolute_path } rest pns (pos + 1)
              with ⟨f, env6⟩
            rw [h6] at h
            dsimp only at h
            obtain ⟨q1, q2⟩ := Prod.mk.injEq _ _ _ _ ▸ h
            subst q2
            subst q1
            have s1 : StepRel a env env1 :=
              (lead_step h1).baseSwap h0.1 h0.2
            have s2 := (goto_step h2).1
            have s3 : StepRel c env2 env3 := by
              obtain ⟨hc, henv3⟩ := pwrite_eq env2 _ h3
              exact ⟨['-'], by rw [henv3], le_of_eq hc,
                show env3.pres = env2.pres by rw [henv3]⟩
            have s4 : StepRel d' env3 env4 :=
              (inline_step_weak hnwf h4).baseSwap rfl rfl
            have pre : StepRel (a + b + c + d') env env4 :=
              ((s1.trans s2).trans s3).trans s4
            have henv4 : wfEnvPres env4 = true := by
              rw [wfEnvPres_pres_eq pre.presEq]
              exact henv
            have hdsz : sizeOf d ≤ N := by
              simp only [List.cons.sizeOf_spec] at hsz
              omega
            simp only [wfDatas, Bool.and_eq_true] at hwf
            have dD := ihD env4 d e env5 hdsz henv4 hwf.1 h5
            have dD' : DoneRel e env4
                { env5 with
                  indent_lvl := env5.indent_lvl - YAML_STD_INDENT
                  absolute_path := env.absolute_path } :=
              dD.retarget rfl rfl rfl
            cases rest with
            | nil =>
                rw [seq_loop_nil_eq] at h6
                obtain ⟨r1, r2⟩ := Prod.mk.injEq _ _ _ _ ▸ h6
                subst r2
                subst r1
                exact (pre.intoDone dD').congrIdx (by omega)
            | cons d2 r2 =>
                have hrp : ({ env5 with
                    indent_lvl := env5.indent_lvl - YAML_STD_INDENT
                    absolute_path := env.absolute_path }).pres =
                    env4.pres := dD.presKept
                have henv5 : wfEnvPres { env5 with
                    indent_lvl := env5.indent_lvl - YAML_STD_INDENT
                    absolute_path := env.absolute_path } = true := by
                  rw [wfEnvPres_pres_eq hrp]
                  exact henv4
                have dR := ihS _ _ pns (pos + 1) f env6 (by
                    simp only [List.cons.sizeOf_spec] at hsz ⊢
                    omega) (by simp) henv5 hpns hwf.2 h6
                exact (((pre.intoDone dD').chain dR)).congrIdx (by omega)
      · -- t_yaml_pack_key_data
        intro env key data kp n' env' hsz henv hkp hdwf h
        rw [key_data_eq] at h
        dsimp only at h
        generalize henv0 : (if env.pres.isSome then
            { env with absolute_path := env.absolute_path ++ '.' :: key }
          else env) = env0 at h
        have h0 : env0.out = env.out ∧ env0.pres = env.pres := by
          rw [← henv0]
          split
          · exact ⟨rfl, rfl⟩
          · exact ⟨rfl, rfl⟩
        generalize hnode : (if env0.pres.isSome then
            yaml_pack_env_get_pres_node env0
          else kp) = node at h
        have hnwf : wfPresNodeOpt node = true := by
          rw [← hnode]
          exact key_node_wf henv hkp env0 h0.2
        rcases h1 : yaml_pack_pres_node_lead env0 node with ⟨a, env1⟩
        rw [h1] at h
        dsimp only at h
        rcases h2 : yaml_pack_goto_state env1 .onKey with ⟨b, env2⟩
        rw [h2] at h
        dsimp only at h
        rcases h3 : pwrite env2 (key ++ [':']) with ⟨c, env3⟩
        rw [h3] at h
        dsimp only at h
        rcases h4 : yaml_pack_pres_node_inline
            { env3 with indent_lvl := env3.indent_lvl + YAML_STD_INDENT }
            node with ⟨d', env4⟩
        rw [h4] at h
        dsimp only at h
        rcases h5 : t_yaml_pack_data env4 data with ⟨e, env5⟩
        rw [h5] at h
        dsimp only at h
        obtain ⟨q1, q2⟩ := Prod.mk.injEq _ _ _ _ ▸ h
        subst q2
        subst q1
        have s1 : StepRel a env env1 := (lead_step h1).baseSwap h0.1 h0.2
        have s2 := (goto_step h2).1
        have s3 : StepRel c env2 env3 := by
          obtain ⟨hc, henv3⟩ := pwrite_eq env2 _ h3
          exact ⟨key ++ [':'], by rw [henv3], le_of_eq hc,
            show env3.pres = env2.pres by rw [henv3]⟩
        have s4 : StepRel d' env3 env4 :=
          (inline_step_weak hnwf h4).baseSwap rfl rfl
        have pre : StepRel (a + b + c + d') env env4 :=
          ((s1.trans s2).trans s3).trans s4
        have henv4 : wfEnvPres env4 = true := by
          rw [wfEnvPres_pres_eq pre.presEq]
          exact henv
        have hdsz : sizeOf data ≤ N := by
          simp only [yaml_key_data_t.mk.sizeOf_spec] at hsz
          omega
        have dD := ihD env4 data e env5 hdsz henv4 hdwf h5
        exact (pre.intoDone (dD.retarget rfl rfl rfl)).congrIdx (by omega)
      · -- yaml_pack_obj_loop
        intro env fields n' env' hsz hne henv hwf h
        cases fields with
        | nil => exact absurd rfl hne
        | cons kd rest =>
            cases kd with
            | mk key dta kp =>
                rw [obj_loop_cons_eq] at h
                dsimp only at h
                rcases h1 : t_yaml_pack_key_data env (.mk key dta kp)
                  with ⟨a, env1⟩
                rw [h1] at h
                dsimp only at h
                rcases h2 : yaml_pack_obj_loop env1 rest with ⟨b, env2⟩
                rw [h2] at h
                dsimp only at h
                obtain ⟨q1, q2⟩ := Prod.mk.injEq _ _ _ _ ▸ h
                subst q2
                subst q1
                simp only [wfFields, Bool.and_eq_true] at hwf
                have hksz : sizeOf (yaml_key_data_t.mk key dta kp) ≤ N := by
                  simp only [List.cons.sizeOf_spec] at hsz
                  omega
                have dK := ihK env key dta kp a env1 hksz henv
                  hwf.1.1 hwf.1.2 h1
                cases rest with
                | nil =>
                    rw [obj_loop_nil_eq] at h2
                    obtain ⟨r1, r2⟩ := Prod.mk.injEq _ _ _ _ ▸ h2
                    subst r2
                    subst r1
                    exact dK.congrIdx (by omega)
                | cons kd2 r2 =>
                    have henv1 : wfEnvPres env1 = true := by
                      rw [wfEnvPres_pres_eq dK.presKept]
                      exact henv
                    have dR := ihO env1 _ b env2 (by
                        simp only [List.cons.sizeOf_spec] at hsz ⊢
                        omega) (by simp) henv1 hwf.2 h2
                    exact (dK.chain dR).congrIdx (by omega)

/-! ## C9 and the packer side of C2 -/

/-- C9: packing to a file terminates the output with exactly one
trailing newline — t_yaml_pack_file appends one newline exactly when the
packed stream does not already end on one, and a packed stream never
ends with two — while the in-memory entry point t_yaml_pack_sb appends
nothing after the bytes produced by t_yaml_pack_data. -/
theorem pack_file_single_trailing_newline (data : yaml_data_t)
    (hwf : wfData data = true) :
    endsOneNl (t_yaml_pack_file t_yaml_pack_env_new data).2 ∧
    (t_yaml_pack_sb t_yaml_pack_env_new data).2.out =
      (t_yaml_pack_data t_yaml_pack_env_new data).2.out := by
  rcases hp : t_yaml_pack_data t_yaml_pack_env_new data with ⟨n, envp⟩
  obtain ⟨w, e, l, pr, hd⟩ := (block_invariant (sizeOf data)).1
    t_yaml_pack_env_new data n envp le_rfl rfl hwf hp
  have hout : envp.out = w := by
    simpa [t_yaml_pack_env_new] using e
  constructor
  · rw [t_yaml_pack_file, hp]
    dsimp only
    rcases hd with ⟨hs, v, c, hw, hc⟩ | ⟨hs, he⟩
    · have hne : PackState.afterData ≠ PackState.onNewline := by decide
      rw [hs, if_pos hne]
      refine ⟨v, c, ?_, hc⟩
      rw [hout, hw]
      simp
    · have hnn : ¬(PackState.onNewline ≠ PackState.onNewline) := by decide
      rw [hs, if_neg hnn]
      rw [hout]
      exact he
  · rw [t_yaml_pack_sb, hp]

/-- Witness for the trailing-newline theorem at the document `~`. -/
theorem pack_file_single_trailing_newline_witness :
    wfData (yaml_data_t.scalar YamlScalar.null none none) = true ∧
    (endsOneNl (t_yaml_pack_file t_yaml_pack_env_new
        (yaml_data_t.scalar YamlScalar.null none none)).2 ∧
      (t_yaml_pack_sb t_yaml_pack_env_new
        (yaml_data_t.scalar YamlScalar.null none none)).2.out =
        (t_yaml_pack_data t_yaml_pack_env_new
          (yaml_data_t.scalar YamlScalar.null none none)).2.out) :=
  ⟨by decide, pack_file_single_trailing_newline _ (by decide)⟩

/-- C2 counterexample: on success the in-memory pack entry point returns
the packed byte count — here 1 for the one-byte document `~` — and not
0 as the spec states. -/
theorem pack_sb_returns_byte_count :
    (t_yaml_pack_sb t_yaml_pack_env_new
      (yaml_data_t.scalar YamlScalar.null none none)).1 = 1 ∧
    (1 : Int) ≠ 0 := by decide

/-! ## Parser: state, errors, lexical helpers

The parser is embedded in no-presentation mode (flags = 0 as used by the
public API default in this model): all presentation recording of the
source is a no-op, and the unbound-variables check of t_yaml_parse is
active.  Error messages carry the kind-specific text of
yaml_env_set_err_at without the position pretty-printing (positions are
a display concern).  The stream is the remaining character list plus the
byte offsets needed by yaml_env_get_column_nb. -/

structure yaml_parse_t where
  rest : Str
  offset : Nat
  posNewline : Nat
  vars : List Str
deriving Repr

inductive yaml_error_t where
  | badKey | badString | missingData | wrongData | wrongIndent
  | wrongObject | tabCharacter | invalidTag | extraData
  | invalidInclude | invalidOverride
deriving DecidableEq, Repr

/-- The per-kind text prepended by yaml_env_set_err_at. -/
def yaml_error_text : yaml_error_t → Str
  | .badKey => "invalid key".toList
  | .badString => "expected string".toList
  | .missingData => "missing data".toList
  | .wrongData => "wrong type of data".toList
  | .wrongIndent => "wrong indentation".toList
  | .wrongObject => "wrong object".toList
  | .tabCharacter => "tab character detected".toList
  | .invalidTag => "invalid tag".toList
  | .extraData => "extra characters after data".toList
  | .invalidInclude => "invalid include".toList
  | .invalidOverride => "cannot change types of data in override".toList

structure YErr where
  kind : Option yaml_error_t
  detail : Str
deriving DecidableEq, Repr

def mkErr (k : yaml_error_t) (msg : Str) : YErr := ⟨some k, msg⟩

/-- Sentinel of the fuel-bounded recursion; the entry point passes more
fuel than any input can consume. -/
def fuelErr : YErr := ⟨none, []⟩

/-- The rendered message of yaml_env_set_err_at: the kind text, a comma,
then the detail. -/
def YErr.msg (e : YErr) : Str :=
  match e.kind with
  | some k => yaml_error_text k ++ ", ".toList ++ e.detail
  | none => "recursion limit reached".toList

def yaml_env_skipn (env : yaml_parse_t) (n : Nat) : yaml_parse_t :=
  { env with rest := env.rest.drop n, offset := env.offset + n }

def yaml_env_get_column_nb (env : yaml_parse_t) : Nat :=
  env.offset - env.posNewline + 1

/-- The skipping loop of yaml_env_ltrim on (rest, offset, pos_newline):
a # opens a comment, a newline closes it and moves pos_newline, a tab is
an error even inside a comment, and the loop stops on the first
non-space byte outside a comment. -/
def ltrimAux : Str → Nat → Nat → Bool → Except YErr (Str × Nat × Nat)
  | [], off, pnl, _ => .ok ([], off, pnl)
  | c :: r, off, pnl, inComment =>
      if c = '#' then ltrimAux r (off + 1) pnl true
      else if c = '\n' then ltrimAux r (off + 1) (off + 1) false
      else if c = '\t' then
        .error (mkErr .tabCharacter
          "cannot use tab characters for indentation".toList)
      else if !cIsSpace c && !inComment then .ok (c :: r, off, pnl)
      else ltrimAux r (off + 1) pnl inComment

def yaml_env_ltrim (env : yaml_parse_t) : Except YErr yaml_parse_t :=
  match ltrimAux env.rest env.offset env.posNewline false with
  | .error e => .error e
  | .ok (r, off, pnl) =>
      .ok { env with rest := r, offset := off, posNewline := pnl }

/-- ps_startswith_yaml_seq_prefix of the source: a dash followed by a
space byte. -/
def startswith_yaml_seq_dash : Str → Bool
  | a :: b :: _ => a == '-' && cIsSpace b
  | _ => false

/-- ps_startswith_yaml_key of the source. -/
def startswith_yaml_key (s : Str) (mustBeVariable : Bool) : Bool :=
  let s2opt : Option Str :=
    if s.head? = some '$' then some s.tail
    else if mustBeVariable then none else some s
  match s2opt with
  | none => false
  | some s2 =>
      let key := s2.takeWhile cIsAlnum
      let r := s2.drop key.length
      if key.isEmpty then false
      else match r with
        | [] => false
        | ':' :: rr =>
            match rr with
            | [] => true
            | c :: _ => cIsSpace c
        | _ => false

/-- yaml_env_parse_key (without presentation-node retrieval): ltrim, an
optional leading dollar, an alphanumeric span, then a mandatory
colon. -/
def yaml_env_parse_key (env : yaml_parse_t) :
    Except YErr (Str × yaml_parse_t) :=
  match yaml_env_ltrim env with
  | .error e => .error e
  | .ok env1 =>
      let hasDollar := env1.rest.head? == some '$'
      let envA := if hasDollar then yaml_env_skipn env1 1 else env1
      let span := envA.rest.takeWhile cIsAlnum
      let env2 := yaml_env_skipn envA span.length
      let ps_key := (if hasDollar then ['$'] else []) ++ span
      if ps_key.isEmpty then
        .error (mkErr .badKey "only alpha-numeric characters allowed".toList)
      else match env2.rest with
        | ':' :: _ => .ok (ps_key, yaml_env_skipn env2 1)
        | _ => .error (mkErr .badKey "missing colon".toList)

/-- The variable scan of t_yaml_env_add_variables: every dollar followed
by a non-empty alphanumeric span names a variable. -/
def findVariables : Str → List Str
  | [] => []
  | c :: r =>
      if c == '$' then
        let name := r.takeWhile cIsAlnum
        if name.isEmpty then findVariables r
        else name :: findVariables (r.drop name.length)
      else findVariables r
termination_by s => s.length
decreasing_by
  · simp
  · simp [List.length_drop]
    omega
  · simp

/-! ## Parser: quoted strings and scalars -/

/-- Modelled from the spec: the escape set of parse_quoted_string (a
lib-common helper that is part of this repository but not under src/):
a b e f n r t v, backslash, double quote, and u followed by four hex
digits. -/
def yaml_escape_decode (c : Char) : Option Char :=
  if c == 'a' then some (Char.ofNat 7)
  else if c == 'b' then some (Char.ofNat 8)
  else if c == 'e' then some (Char.ofNat 27)
  else if c == 'f' then some (Char.ofNat 12)
  else if c == 'n' then some '\n'
  else if c == 'r' then some (Char.ofNat 13)
  else if c == 't' then some '\t'
  else if c == 'v' then some (Char.ofNat 11)
  else if c == backslash then some backslash
  else if c == '"' then some '"'
  else none

def hexVal (c : Char) : Option Nat :=
  let n := c.toNat
  if 48 ≤ n && n ≤ 57 then some (n - 48)
  else if 97 ≤ n && n ≤ 102 then some (n - 87)
  else if 65 ≤ n && n ≤ 70 then some (n - 55)
  else none

/-- Modelled from the spec: parse_quoted_string after the opening quote;
returns the decoded content and the count of consumed bytes including
the closing quote.  Malformed escapes raise "invalid backslash",
unterminated strings raise the missing-closing-quote error. -/
def quotedAux : Str → Str → Nat → Except YErr (Str × Nat)
  | [], _, _ =>
      .error (mkErr .badString "missing closing '\"'".toList)
  | '"' :: _, acc, n => .ok (acc.reverse, n + 1)
  | c :: r, acc, n =>
      if c == backslash then
        match r with
        | [] => .error (mkErr .badString "invalid backslash".toList)
        | e :: r2 =>
            if e == 'u' then
              match r2 with
              | h1 :: h2 :: h3 :: h4 :: r3 =>
                  match hexVal h1, hexVal h2, hexVal h3, hexVal h4 with
                  | some a, some b, some c2, some d =>
                      quotedAux r3
                        (Char.ofNat (((a * 16 + b) * 16 + c2) * 16 + d)
                          :: acc) (n + 6)
                  | _, _, _, _ =>
                      .error (mkErr .badString "invalid backslash".toList)
              | _ => .error (mkErr .badString "invalid backslash".toList)
            else match yaml_escape_decode e with
              | some c2 => quotedAux r2 (c2 :: acc) (n + 2)
              | none => .error (mkErr .badString "invalid backslash".toList)
      else quotedAux r (c :: acc) (n + 1)

def yaml_parse_quoted_string (env : yaml_parse_t) :
    Except YErr (Str × yaml_parse_t) :=
  match quotedAux env.rest [] 0 with
  | .error e => .error e
  | .ok (content, n) => .ok (content, yaml_env_skipn env n)

/-- The scalar-ending byte sets of yaml_env_get_scalar_ps. -/
def yaml_scalar_endchar (inFlow : Bool) (c : Char) : Bool :=
  if inFlow then
    c == '\n' || c == '#' || c == '[' || c == ']' || c == ',' ||
    c == lbrace || c == rbrace
  else c == '\n' || c == '#'

def rtrim (s : Str) : Str := (s.reverse.dropWhile cIsSpace).reverse

/-- t_yaml_env_parse_scalar: a quoted string, or a raw span up to the
context-dependent end bytes, right-trimmed and classified; string
scalars feed the variable scan. -/
def t_yaml_env_parse_scalar (env : yaml_parse_t) (inFlow : Bool) :
    Except YErr (yaml_data_t × yaml_parse_t) :=
  match env.rest with
  | '"' :: _ =>
      match yaml_parse_quoted_string (yaml_env_skipn env 1) with
      | .error e => .error e
      | .ok (content, env1) =>
          .ok (.scalar (.str content) none none,
               { env1 with vars := env1.vars ++ findVariables content })
  | _ =>
      let line := rtrim (env.rest.takeWhile
        (fun c => !yaml_scalar_endchar inFlow c))
      let env1 := yaml_env_skipn env line.length
      if line.isEmpty then
        .error (mkErr .missingData "unexpected character".toList)
      else match scalarClassOf line with
        | .str s =>
            .ok (.scalar (.str s) none none,
                 { env1 with vars := env1.vars ++ findVariables s })
        | sc => .ok (.scalar sc none none, env1)

def yaml_data_is_string_scalar : yaml_data_t → Bool
  | .scalar (.str _) _ _ => true
  | _ => false

/-- t_yaml_env_handle_include.  Without a filesystem every include
fails inside t_yaml_env_do_include: after the leading ltrim, a
non-string data errors with the can-only-be-used-with-strings message
and a string errors when its file cannot be read, both through
YAML_ERR_INVALID_INCLUDE; the variables/override handling behind a
successful inclusion is therefore unreachable and not modelled. -/
def t_yaml_env_handle_include (env : yaml_parse_t) (data : yaml_data_t) :
    Except YErr (yaml_data_t × yaml_parse_t) :=
  if data.tag == some "include".toList ||
     data.tag == some "includeraw".toList then
    match yaml_env_ltrim env with
    | .error e => .error e
    | .ok _ =>
        if yaml_data_is_string_scalar data then
          .error (mkErr .invalidInclude "cannot read file".toList)
        else
          .error (mkErr .invalidInclude
            "can only be used with strings".toList)
  else .ok (data, env)

/-! ## Parser: the recursive functions

The mutual recursion is bounded by a fuel parameter; every recursive
call spends one unit and the entry point provides more than any input
can consume, so the sentinel error is unreachable on real runs. -/

mutual

/-- t_yaml_env_parse_data. -/
def t_yaml_env_parse_data : Nat → yaml_parse_t → Nat →
    Except YErr (yaml_data_t × yaml_parse_t)
  | 0, _, _ => .error fuelErr
  | n + 1, env, min_indent =>
      match yaml_env_ltrim env with
      | .error e => .error e
      | .ok env1 =>
          if env1.rest.isEmpty then
            .error (mkErr .missingData "unexpected end of line".toList)
          else
            let cur_indent := yaml_env_get_column_nb env1
            if cur_indent < min_indent then
              .error (mkErr .wrongIndent "missing element".toList)
            else if env1.rest.head? == some '!' then
              match t_yaml_env_parse_tag n env1 min_indent with
              | .error e => .error e
              | .ok (d, env2) => t_yaml_env_handle_include env2 d
            else if startswith_yaml_seq_dash env1.rest then
              t_yaml_env_parse_seq_loop n env1 cur_indent [] []
            else if env1.rest.head? == some '[' then
              t_yaml_env_parse_flow_seq_loop n (yaml_env_skipn env1 1) []
            else if env1.rest.head? == some lbrace then
              t_yaml_env_parse_flow_obj_loop n (yaml_env_skipn env1 1) [] []
            else if startswith_yaml_key env1.rest false then
              t_yaml_env_parse_obj_loop n env1 cur_indent false [] []
            else
              t_yaml_env_parse_scalar env1 false
termination_by structural fuel env mi => fuel

/-- t_yaml_env_parse_tag (the caller guarantees the leading bang). -/
def t_yaml_env_parse_tag : Nat → yaml_parse_t → Nat →
    Except YErr (yaml_data_t × yaml_parse_t)
  | 0, _, _ => .error fuelErr
  | n + 1, env, min_indent =>
      let env1 := yaml_env_skipn env 1
      match env1.rest.head? with
      | none => .error (mkErr .invalidTag "must start with a letter".toList)
      | some c =>
          if !cIsAlpha c then
            .error (mkErr .invalidTag "must start with a letter".toList)
          else
            let tag := env1.rest.takeWhile cIsTagChar
            let env2 := yaml_env_skipn env1 tag.length
            match env2.rest.head? with
            | none =>
                .error (mkErr .invalidTag
                  "must only contain alphanumeric characters".toList)
            | some c2 =>
                if !cIsSpace c2 then
                  .error (mkErr .invalidTag
                    "must only contain alphanumeric characters".toList)
                else
                  match t_yaml_env_parse_data n env2 min_indent with
                  | .error e => .error e
                  | .ok (d, env3) =>
                      if d.tag.isSome then
                        .error (mkErr .wrongObject
                          "two tags have been declared".toList)
                      else .ok (d.setTag tag, env3)
termination_by structural fuel env mi => fuel

/-- The loop of t_yaml_env_parse_seq: the element list and the
presentation-slot list are appended in lockstep. -/
def t_yaml_env_parse_seq_loop : Nat → yaml_parse_t → Nat →
    List yaml_data_t → List (Option yaml_presentation_node_t) →
    Except YErr (yaml_data_t × yaml_parse_t)
  | 0, _, _, _, _ => .error fuelErr
  | n + 1, env, min_indent, datas, pres =>
      match yaml_env_ltrim env with
      | .error e => .error e
      | .ok env1 =>
          let env2 := yaml_env_skipn env1 1
          match t_yaml_env_parse_data n env2 (min_indent + 1) with
          | .error e => .error e
          | .ok (elem, env3) =>
              match yaml_env_ltrim env3 with
              | .error e => .error e
              | .ok env4 =>
                  let datas2 := datas ++ [elem]
                  let pres2 := pres ++ [none]
                  if env4.rest.isEmpty then
                    .ok (.seq datas2 pres2 none none, env4)
                  else
                    let last_indent := yaml_env_get_column_nb env4
                    if last_indent < min_indent then
                      .ok (.seq datas2 pres2 none none, env4)
                    else if last_indent > min_indent then
                      .error (mkErr .wrongIndent
                        "line not aligned with current sequence".toList)
                    else if !startswith_yaml_seq_dash env4.rest then
                      .error (mkErr .wrongData
                        "expected another element of sequence".toList)
                    else
                      t_yaml_env_parse_seq_loop n env4 min_indent
                        datas2 pres2
termination_by structural fuel env mi datas pres => fuel

/-- The loop of t_yaml_env_parse_obj: the only-variables pre-check, then
one key/data step. -/
def t_yaml_env_parse_obj_loop : Nat → yaml_parse_t → Nat → Bool →
    List yaml_key_data_t → List Str →
    Except YErr (yaml_data_t × yaml_parse_t)
  | 0, _, _, _, _, _ => .error fuelErr
  | n + 1, env, min_indent, onlyVariables, fields, keys =>
      if onlyVariables then
        match yaml_env_ltrim env with
        | .error e => .error e
        | .ok envA =>
            if envA.rest.head? != some '$' then
              .ok (.obj fields none none, envA)
            else
              t_yaml_env_parse_obj_step n envA min_indent onlyVariables
                fields keys
      else
        t_yaml_env_parse_obj_step n env min_indent onlyVariables
          fields keys
termination_by structural fuel env mi ov fields keys => fuel

/-- One iteration body of the t_yaml_env_parse_obj loop: key (rejecting
duplicates through the keys hash and dollar keys outside variable
context), data at min_indent+1 (or min_indent for the same-column
sequence special case), then the indent-based continuation. -/
def t_yaml_env_parse_obj_step : Nat → yaml_parse_t → Nat → Bool →
    List yaml_key_data_t → List Str →
    Except YErr (yaml_data_t × yaml_parse_t)
  | 0, _, _, _, _, _ => .error fuelErr
  | n + 1, env, min_indent, onlyVariables, fields, keys =>
      match yaml_env_parse_key env with
      | .error e => .error e
      | .ok (key, env1) =>
          if !onlyVariables && key.head? == some '$' then
            .error (mkErr .badKey
              "cannot specify a variable value in this context".toList)
          else if keys.contains key then
            .error (mkErr .badKey
              "key is already declared in the object".toList)
          else
            match yaml_env_ltrim env1 with
            | .error e => .error e
            | .ok env2 =>
                match (if startswith_yaml_seq_dash env2.rest then
                        t_yaml_env_parse_data n env2 min_indent
                      else t_yaml_env_parse_data n env2 (min_indent + 1))
                  with
                | .error e => .error e
                | .ok (d, env3) =>
                    match yaml_env_ltrim env3 with
                    | .error e => .error e
                    | .ok env4 =>
                        let fields2 := fields ++ [.mk key d none]
                        let keys2 := keys ++ [key]
                        if env4.rest.isEmpty then
                          .ok (.obj fields2 none none, env4)
                        else
                          let last_indent := yaml_env_get_column_nb env4
                          if last_indent < min_indent then
                            .ok (.obj fields2 none none, env4)
                          else if last_indent > min_indent then
                            .error (mkErr .wrongIndent
                              "line not aligned with current object".toList)
                          else
                            t_yaml_env_parse_obj_loop n env4 min_indent
                              onlyVariables fields2 keys2
termination_by structural fuel env mi ov fields keys => fuel

/-- The loop of t_yaml_env_parse_flow_seq (after the opening bracket):
elements separated by commas, an implicit one-field object for key-value
elements, and no presentation slots. -/
def t_yaml_env_parse_flow_seq_loop : Nat → yaml_parse_t →
    List yaml_data_t → Except YErr (yaml_data_t × yaml_parse_t)
  | 0, _, _ => .error fuelErr
  | n + 1, env, datas =>
      match yaml_env_ltrim env with
      | .error e => .error e
      | .ok env1 =>
          if env1.rest.head? == some ']' then
            .ok (.seq datas [] none none, yaml_env_skipn env1 1)
          else
            match t_yaml_env_parse_flow_key_data n env1 with
            | .error e => .error e
            | .ok ((okey, d), env2) =>
                let elem := match okey with
                  | some k => yaml_data_t.obj [.mk k d none] none none
                  | none => d
                let datas2 := datas ++ [elem]
                match yaml_env_ltrim env2 with
                | .error e => .error e
                | .ok env3 =>
                    if env3.rest.head? == some ']' then
                      .ok (.seq datas2 [] none none, yaml_env_skipn env3 1)
                    else if env3.rest.head? == some ',' then
                      t_yaml_env_parse_flow_seq_loop n
                        (yaml_env_skipn env3 1) datas2
                    else
                      .error (mkErr .wrongData
                        "expected another element of sequence".toList)
termination_by structural fuel env datas => fuel

/-- The loop of t_yaml_env_parse_flow_obj (after the opening brace). -/
def t_yaml_env_parse_flow_obj_loop : Nat → yaml_parse_t →
    List yaml_key_data_t → List Str →
    Except YErr (yaml_data_t × yaml_parse_t)
  | 0, _, _, _ => .error fuelErr
  | n + 1, env, fields, keys =>
      match yaml_env_ltrim env with
      | .error e => .error e
      | .ok env1 =>
          if env1.rest.head? == some rbrace then
            .ok (.obj fields none none, yaml_env_skipn env1 1)
          else
            match t_yaml_env_parse_flow_key_data n env1 with
            | .error e => .error e
            | .ok ((okey, d), env2) =>
                match okey with
                | none =>
                    .error (mkErr .wrongData
                      "only key-value mappings are allowed inside an object".toList)
                | some k =>
                    if keys.contains k then
                      .error (mkErr .badKey
                        "key is already declared in the object".toList)
                    else
                      let fields2 := fields ++ [.mk k d none]
                      match yaml_env_ltrim env2 with
                      | .error e => .error e
                      | .ok env3 =>
                          if env3.rest.head? == some rbrace then
                            .ok (.obj fields2 none none,
                                 yaml_env_skipn env3 1)
                          else if env3.rest.head? == some ',' then
                            t_yaml_env_parse_flow_obj_loop n
                              (yaml_env_skipn env3 1) fields2 (keys ++ [k])
                          else
                            .error (mkErr .wrongData
                              "expected another element of object".toList)
termination_by structural fuel env fields keys => fuel

/-- t_yaml_env_parse_flow_key_data: a key-value pair, a nested flow
container, or a scalar. -/
def t_yaml_env_parse_flow_key_data : Nat → yaml_parse_t →
    Except YErr ((Option Str × yaml_data_t) × yaml_parse_t)
  | 0, _ => .error fuelErr
  | n + 1, env =>
      match yaml_env_ltrim env with
      | .error e => .error e
      | .ok env1 =>
          if env1.rest.isEmpty then
            .error (mkErr .missingData "unexpected end of line".toList)
          else if startswith_yaml_key env1.rest false then
            t_yaml_env_parse_flow_key_val n env1
          else if env1.rest.head? == some '[' then
            match t_yaml_env_parse_flow_seq_loop n
                (yaml_env_skipn env1 1) [] with
            | .error e => .error e
            | .ok (d, env2) => .ok ((none, d), env2)
          else if env1.rest.head? == some lbrace then
            match t_yaml_env_parse_flow_obj_loop n
                (yaml_env_skipn env1 1) [] [] with
            | .error e => .error e
            | .ok (d, env2) => .ok ((none, d), env2)
          else
            match t_yaml_env_parse_scalar env1 true with
            | .error e => .error e
            | .ok (d, env2) => .ok ((none, d), env2)
termination_by structural fuel env => fuel

/-- t_yaml_env_parse_flow_key_val: a key, then a value that must not
itself be a key-value pair. -/
def t_yaml_env_parse_flow_key_val : Nat → yaml_parse_t →
    Except YErr ((Option Str × yaml_data_t) × yaml_parse_t)
  | 0, _ => .error fuelErr
  | n + 1, env =>
      match yaml_env_parse_key env with
      | .error e => .error e
      | .ok (key, env1) =>
          if key.head? == some '$' then
            .error (mkErr .badKey
              "cannot specify a variable value in this context".toList)
          else
            match yaml_env_ltrim env1 with
            | .error e => .error e
            | .ok env2 =>
                match t_yaml_env_parse_flow_key_data n env2 with
                | .error e => .error e
                | .ok ((some _, _), _) =>
                    .error (mkErr .wrongData "unexpected colon".toList)
                | .ok ((none, d), env3) => .ok ((some key, d), env3)
termination_by structural fuel env => fuel

end

/-- t_yaml_env_parse_seq as an entry (its body is the loop above; the
caller guarantees the dash). -/
def t_yaml_env_parse_seq (fuel : Nat) (env : yaml_parse_t)
    (min_indent : Nat) : Except YErr (yaml_data_t × yaml_parse_t) :=
  t_yaml_env_parse_seq_loop fuel env min_indent [] []

/-- t_yaml_env_parse_flow_seq as an entry: skip the opening bracket and
run the loop. -/
def t_yaml_env_parse_flow_seq (fuel : Nat) (env : yaml_parse_t) :
    Except YErr (yaml_data_t × yaml_parse_t) :=
  t_yaml_env_parse_flow_seq_loop fuel (yaml_env_skipn env 1) []

def yaml_parse_attach_ps (s : Str) : yaml_parse_t :=
  { rest := s, offset := 0, posNewline := 0, vars := [] }

def joinComma : List Str → Str
  | [] => []
  | [x] => x
  | x :: r => x ++ ", ".toList ++ joinComma r

/-- The fuel given to the recursion by the entry point; parsing one data
costs at least one consumed byte per recursion layer, so this bound is
never reached. -/
def parseFuel (s : Str) : Nat := 8 * s.length + 64

/-- t_yaml_parse with flags 0: the document data at min_indent 0, the
trailing ltrim, the extra-data check, then the unbound-variables check.
The paths that jump to the end label fill the caller's message buffer;
the RETHROW on the post-document ltrim returns -1 directly without
touching it, so that buffer stays empty on that path. -/
def t_yaml_parse (s : Str) : Int × Option yaml_data_t × Str :=
  let env := yaml_parse_attach_ps s
  match t_yaml_env_parse_data (parseFuel s) env 0 with
  | .error e => (-1, none, e.msg)
  | .ok (d, env1) =>
      match yaml_env_ltrim env1 with
      | .error _ => (-1, none, [])
      | .ok env2 =>
          if !env2.rest.isEmpty then
            (-1, none, (mkErr .extraData "expected end of document".toList).msg)
          else if !env2.vars.isEmpty then
            (-1, none, "the document is invalid: there are unbound variables: ".toList ++
              joinComma env2.vars.eraseDups)
          else (0, some d, [])

/-! ## Override merging -/

def yaml_data_get_data_type : yaml_data_t → Str
  | .obj _ _ _ => "an object".toList
  | .seq _ _ _ _ => "a sequence".toList
  | .scalar _ _ _ => "a scalar".toList

/-- data->type equality, the gate of t_yaml_env_merge_data. -/
def yaml_data_kind_eq : yaml_data_t → yaml_data_t → Bool
  | .scalar _ _ _, .scalar _ _ _ => true
  | .seq _ _ _ _, .seq _ _ _ _ => true
  | .obj _ _ _, .obj _ _ _ => true
  | _, _ => false

/-- The override recording state: the current path buffer and the list
of recorded override nodes (path, original data if any). -/
structure yaml_presentation_override_t where
  path : Str
  nodes : List (Str × Option yaml_data_t)

/-- First occurrence of a key among the fields, split as
(before, match, after). -/
def splitAtKey (k : Str) : List yaml_key_data_t →
    Option (List yaml_key_data_t × yaml_key_data_t × List yaml_key_data_t)
  | [] => none
  | kd :: r =>
      if kd.key == k then some ([], kd, r)
      else match splitAtKey k r with
        | some (pre, m, post) => some (kd :: pre, m, post)
        | none => none

mutual

/-- t_yaml_env_merge_data: same-kind gate, scalar overwrite recording
the original at path suffix bang, additive sequence merge recording the
appended positions, and object recursion. -/
def t_yaml_env_merge_data : yaml_data_t → yaml_presentation_override_t →
    yaml_data_t → Except YErr (yaml_data_t × yaml_presentation_override_t)
  | .scalar ov ot op, pres, .scalar v t p =>
      .ok (.scalar ov ot op,
        { pres with nodes := pres.nodes ++
            [(pres.path ++ ['!'], some (.scalar v t p))] })
  | .seq ods opns _ _, pres, .seq ds pns t p =>
      let newNodes := (List.range ods.length).map
        (fun i => (pres.path ++ natPath (ds.length + i),
                   (none : Option yaml_data_t)))
      .ok (.seq (ds ++ ods) (pns ++ opns) t p,
        { pres with nodes := pres.nodes ++ newNodes })
  | .obj ofs _ _, pres, .obj fs t p =>
      match t_yaml_env_merge_obj ofs pres fs with
      | .error e => .error e
      | .ok (fs2, pres2) => .ok (.obj fs2 t p, pres2)
  | o, _, data =>
      .error (mkErr .invalidOverride
        ("overridden data is ".toList ++ yaml_data_get_data_type data ++
         " and not ".toList ++ yaml_data_get_data_type o))
termination_by structural o _ _ => o

/-- t_yaml_env_merge_obj: each override field in order, skipping
variable keys. -/
def t_yaml_env_merge_obj : List yaml_key_data_t →
    yaml_presentation_override_t → List yaml_key_data_t →
    Except YErr (List yaml_key_data_t × yaml_presentation_override_t)
  | [], pres, fs => .ok (fs, pres)
  | kd :: rest, pres, fs =>
      if kd.key.head? == some '$' then t_yaml_env_merge_obj rest pres fs
      else
        match t_yaml_env_merge_key_data kd pres fs with
        | .error e => .error e
        | .ok (fs2, pres2) => t_yaml_env_merge_obj rest pres2 fs2
termination_by structural l _ _ => l

/-- t_yaml_env_merge_key_data: recurse into the first matching key,
or append the pair recording its path with no original data. -/
def t_yaml_env_merge_key_data : yaml_key_data_t →
    yaml_presentation_override_t → List yaml_key_data_t →
    Except YErr (List yaml_key_data_t × yaml_presentation_override_t)
  | .mk k d kp, pres, fields =>
      match splitAtKey k fields with
      | some (pre, .mk km dm kpm, post) =>
          match t_yaml_env_merge_data d
              { pres with path := pres.path ++ '.' :: km } dm with
          | .error e => .error e
          | .ok (dm2, pres2) =>
              .ok (pre ++ .mk km dm2 kpm :: post,
                   { pres2 with path := pres.path })
      | none =>
          .ok (fields ++ [.mk k d kp],
               { pres with nodes := pres.nodes ++
                   [(pres.path ++ '.' :: k, none)] })
termination_by structural kd _ _ => kd

end

/-! ## C5: the merge against the spec wording -/

mutual

/-- Written from the words of the spec sentences on override merging:
same kind required (mismatch raises the cannot-change-types error), a
scalar is overwritten with the original recorded at path suffix bang, a
sequence is merged additively with appended positions recorded as
bracketed indices and no original data, and a mapping recurses into
existing keys and appends absent keys recorded with no original data. -/
def mergeDataSpec : yaml_data_t → yaml_presentation_override_t →
    yaml_data_t → Except YErr (yaml_data_t × yaml_presentation_override_t)
  | .scalar ov ot op, pres, .scalar v t p =>
      .ok (.scalar ov ot op,
        { pres with nodes := pres.nodes ++
            [(pres.path ++ ['!'], some (.scalar v t p))] })
  | .seq ods opns _ _, pres, .seq ds pns t p =>
      let newNodes := (List.range ods.length).map
        (fun i => (pres.path ++ natPath (ds.length + i),
                   (none : Option yaml_data_t)))
      .ok (.seq (ds ++ ods) (pns ++ opns) t p,
        { pres with nodes := pres.nodes ++ newNodes })
  | .obj ofs _ _, pres, .obj fs t p =>
      match mergeObjSpec ofs pres fs with
      | .error e => .error e
      | .ok (fs2, pres2) => .ok (.obj fs2 t p, pres2)
  | o, _, data =>
      .error (mkErr .invalidOverride
        ("overridden data is ".toList ++ yaml_data_get_data_type data ++
         " and not ".toList ++ yaml_data_get_data_type o))
termination_by structural o _ _ => o

def mergeObjSpec : List yaml_key_data_t → yaml_presentation_override_t →
    List yaml_key_data_t →
    Except YErr (List yaml_key_data_t × yaml_presentation_override_t)
  | [], pres, fs => .ok (fs, pres)
  | kd :: rest, pres, fs =>
      match mergeKeyDataSpec kd pres fs with
      | .error e => .error e
      | .ok (fs2, pres2) => mergeObjSpec rest pres2 fs2
termination_by structural l _ _ => l

def mergeKeyDataSpec : yaml_key_data_t → yaml_presentation_override_t →
    List yaml_key_data_t →
    Except YErr (List yaml_key_data_t × yaml_presentation_override_t)
  | .mk k d kp, pres, fields =>
      match splitAtKey k fields with
      | some (pre, .mk km dm kpm, post) =>
          match mergeDataSpec d
              { pres with path := pres.path ++ '.' :: km } dm with
          | .error e => .error e
          | .ok (dm2, pres2) =>
              .ok (pre ++ .mk km dm2 kpm :: post,
                   { pres2 with path := pres.path })
      | none =>
          .ok (fields ++ [.mk k d kp],
               { pres with nodes := pres.nodes ++
                   [(pres.path ++ '.' :: k, none)] })
termination_by structural kd _ _ => kd

end

mutual

/-- No key anywhere in the data names a variable (starts with a
dollar); variable keys are consumed by the variable-substitution pass,
not by the merge. -/
def noDollarKeysData : yaml_data_t → Bool
  | .scalar _ _ _ => true
  | .seq ds _ _ _ => noDollarKeysDatas ds
  | .obj fs _ _ => noDollarKeysFields fs
termination_by structural d => d

def noDollarKeysDatas : List yaml_data_t → Bool
  | [] => true
  | d :: r => noDollarKeysData d && noDollarKeysDatas r
termination_by structural l => l

def noDollarKeysFields : List yaml_key_data_t → Bool
  | [] => true
  | .mk k d _ :: r =>
      !(k.head? == some '$') && noDollarKeysData d && noDollarKeysFields r
termination_by structural l => l

end

theorem merge_data_obj_eq (ofs : List yaml_key_data_t)
    (ot : Option Str) (op : Option yaml_presentation_node_t)
    (pres : yaml_presentation_override_t) (fs : List yaml_key_data_t)
    (t : Option Str) (p : Option yaml_presentation_node_t) :
    t_yaml_env_merge_data (.obj ofs ot op) pres (.obj fs t p) =
      (match t_yaml_env_merge_obj ofs pres fs with
       | .error e => .error e
       | .ok (fs2, pres2) => .ok (.obj fs2 t p, pres2)) := rfl

theorem merge_data_spec_obj_eq (ofs : List yaml_key_data_t)
    (ot : Option Str) (op : Option yaml_presentation_node_t)
    (pres : yaml_presentation_override_t) (fs : List yaml_key_data_t)
    (t : Option Str) (p : Option yaml_presentation_node_t) :
    mergeDataSpec (.obj ofs ot op) pres (.obj fs t p) =
      (match mergeObjSpec ofs pres fs with
       | .error e => .error e
       | .ok (fs2, pres2) => .ok (.obj fs2 t p, pres2)) := rfl

theorem merge_obj_cons_eq (kd : yaml_key_data_t)
    (rest : List yaml_key_data_t) (pres : yaml_presentation_override_t)
    (fs : List yaml_key_data_t) :
    t_yaml_env_merge_obj (kd :: rest) pres fs =
      (if kd.key.head? == some '$' then t_yaml_env_merge_obj rest pres fs
       else
         match t_yaml_env_merge_key_data kd pres fs with
         | .error e => .error e
         | .ok (fs2, pres2) => t_yaml_env_merge_obj rest pres2 fs2) := rfl

theorem merge_obj_spec_cons_eq (kd : yaml_key_data_t)
    (rest : List yaml_key_data_t) (pres : yaml_presentation_override_t)
    (fs : List yaml_key_data_t) :
    mergeObjSpec (kd :: rest) pres fs =
      (match mergeKeyDataSpec kd pres fs with
       | .error e => .error e
       | .ok (fs2, pres2) => mergeObjSpec rest pres2 fs2) := rfl

theorem merge_key_data_eq (k : Str) (d : yaml_data_t)
    (kp : Option yaml_presentation_node_t)
    (pres : yaml_presentation_override_t) (fields : List yaml_key_data_t) :
    t_yaml_env_merge_key_data (.mk k d kp) pres fields =
      (match splitAtKey k fields with
       | some (pre, .mk km dm kpm, post) =>
           match t_yaml_env_merge_data d
               { pres with path := pres.path ++ '.' :: km } dm with
           | .error e => .error e
           | .ok (dm2, pres2) =>
               .ok (pre ++ .mk km dm2 kpm :: post,
                    { pres2 with path := pres.path })
       | none =>
           .ok (fields ++ [.mk k d kp],
                { pres with nodes := pres.nodes ++
                    [(pres.path ++ '.' :: k, none)] })) := rfl

theorem merge_key_data_spec_eq (k : Str) (d : yaml_data_t)
    (kp : Option yaml_presentation_node_t)
    (pres : yaml_presentation_override_t) (fields : List yaml_key_data_t) :
    mergeKeyDataSpec (.mk k d kp) pres fields =
      (match splitAtKey k fields with
       | some (pre, .mk km dm kpm, post) =>
           match mergeDataSpec d
               { pres with path := pres.path ++ '.' :: km } dm with
           | .error e => .error e
           | .ok (dm2, pres2) =>
               .ok (pre ++ .mk km dm2 kpm :: post,
                    { pres2 with path := pres.path })
       | none =>
           .ok (fields ++ [.mk k d kp],
                { pres with nodes := pres.nodes ++
                    [(pres.path ++ '.' :: k, none)] })) := rfl

theorem merge_spec_equiv_aux : ∀ N,
    (∀ o pres data, sizeOf o ≤ N → noDollarKeysData o = true →
      t_yaml_env_merge_data o pres data = mergeDataSpec o pres data) ∧
    (∀ l pres fs, sizeOf l ≤ N → noDollarKeysFields l = true →
      t_yaml_env_merge_obj l pres fs = mergeObjSpec l pres fs) ∧
    (∀ kd pres fs, sizeOf kd ≤ N →
      noDollarKeysData kd.data = true →
      t_yaml_env_merge_key_data kd pres fs = mergeKeyDataSpec kd pres fs) := by
  intro N
  induction N with
  | zero =>
      refine ⟨?_, ?_, ?_⟩
      · intro o _ _ hsz _
        have := yaml_data_sizeOf_pos o
        omega
      · intro l _ _ hsz _
        cases l with
        | nil =>
            intros
            rfl
        | cons kd r =>
            have := yaml_key_data_sizeOf_pos kd
            simp only [List.cons.sizeOf_spec] at hsz
            omega
      · intro kd _ _ hsz _
        have := yaml_key_data_sizeOf_pos kd
        omega
  | succ N ih =>
      obtain ⟨ihD, ihO, ihK⟩ := ih
      refine ⟨?_, ?_, ?_⟩
      · intro o pres data hsz hnd
        cases o with
        | scalar ov ot op => cases data <;> rfl
        | seq ods opns oot oop => cases data <;> rfl
        | obj ofs ot op =>
            cases data with
            | scalar v t p => rfl
            | seq ds pns t p => rfl
            | obj fs t p =>
                rw [merge_data_obj_eq, merge_data_spec_obj_eq]
                rw [ihO ofs pres fs (by
                    simp only [yaml_data_t.obj.sizeOf_spec] at hsz
                    omega) hnd]
      · intro l pres fs hsz hnd
        cases l with
        | nil => rfl
        | cons kd rest =>
            cases kd with
            | mk k d kp =>
                rw [merge_obj_cons_eq, merge_obj_spec_cons_eq]
                have hnd2 : (!(k.head? == some '$') && noDollarKeysData d &&
                    noDollarKeysFields rest) = true := hnd
                simp only [Bool.and_eq_true, Bool.not_eq_true'] at hnd2
                dsimp only [yaml_key_data_t.key]
                rw [hnd2.1.1]
                simp only [Bool.false_eq_true, if_false]
                have hks : sizeOf (yaml_key_data_t.mk k d kp) ≤ N := by
                  simp only [List.cons.sizeOf_spec] at hsz
                  omega
                rw [ihK (.mk k d kp) pres fs hks hnd2.1.2]
                cases hm : mergeKeyDataSpec (.mk k d kp) pres fs with
                | error e => rfl
                | ok r =>
                    cases r with
                    | mk fs2 pres2 =>
                        dsimp only
                        exact ihO rest pres2 fs2 (by
                          simp only [List.cons.sizeOf_spec] at hsz
                          omega) hnd2.2
      · intro kd pres fs hsz hnd
        cases kd with
        | mk k d kp =>
            rw [merge_key_data_eq, merge_key_data_spec_eq]
            cases hs : splitAtKey k fs with
            | none => rfl
            | some r =>
                obtain ⟨pre, m, post⟩ := r
                cases m with
                | mk km dm kpm =>
                    dsimp only
                    rw [ihD d { pres with path := pres.path ++ '.' :: km }
                      dm (by
                        simp only [yaml_key_data_t.mk.sizeOf_spec] at hsz
                        omega) hnd]

/-- C5: for overrides without variable keys, the merge of an override
into an included subtree is exactly the spec'd merge — same-kind gate
with the cannot-change-types error on mismatch, scalar overwrite with
the original recorded at path suffix bang, additive sequence merge with
appended positions recorded as bracketed indices and no original data,
object recursion into existing keys with absent keys appended and
recorded with no original data. -/
theorem override_merge_matches_spec (o : yaml_data_t)
    (pres : yaml_presentation_override_t) (data : yaml_data_t)
    (hnd : noDollarKeysData o = true) :
    t_yaml_env_merge_data o pres data = mergeDataSpec o pres data ∧
    (yaml_data_kind_eq o data = false →
      t_yaml_env_merge_data o pres data =
        .error (mkErr .invalidOverride
          ("overridden data is ".toList ++ yaml_data_get_data_type data ++
           " and not ".toList ++ yaml_data_get_data_type o))) := by
  constructor
  · exact (merge_spec_equiv_aux (sizeOf o)).1 o pres data le_rfl hnd
  · intro hk
    cases o <;> cases data <;>
      first
        | rfl
        | simp [yaml_data_kind_eq] at hk

/-- Witness for the merge theorem: the override `a: 2` merged into the
object `a: 1`. -/
theorem override_merge_matches_spec_witness :
    noDollarKeysData (yaml_data_t.obj
      [.mk "a".toList (.scalar (.uint 2) none none) none] none none) =
      true ∧
    (t_yaml_env_merge_data
        (yaml_data_t.obj
          [.mk "a".toList (.scalar (.uint 2) none none) none] none none)
        ⟨[], []⟩
        (yaml_data_t.obj
          [.mk "a".toList (.scalar (.uint 1) none none) none] none none) =
      mergeDataSpec
        (yaml_data_t.obj
          [.mk "a".toList (.scalar (.uint 2) none none) none] none none)
        ⟨[], []⟩
        (yaml_data_t.obj
          [.mk "a".toList (.scalar (.uint 1) none none) none] none none) ∧
      (yaml_data_kind_eq
          (yaml_data_t.obj
            [.mk "a".toList (.scalar (.uint 2) none none) none] none none)
          (yaml_data_t.obj
            [.mk "a".toList (.scalar (.uint 1) none none) none] none none) =
          false →
        t_yaml_env_merge_data
            (yaml_data_t.obj
              [.mk "a".toList (.scalar (.uint 2) none none) none] none none)
            ⟨[], []⟩
            (yaml_data_t.obj
              [.mk "a".toList (.scalar (.uint 1) none none) none] none
              none) =
          .error (mkErr .invalidOverride
            ("overridden data is ".toList ++
             yaml_data_get_data_type
               (yaml_data_t.obj
                 [.mk "a".toList (.scalar (.uint 1) none none) none] none
                 none) ++
             " and not ".toList ++
             yaml_data_get_data_type
               (yaml_data_t.obj
                 [.mk "a".toList (.scalar (.uint 2) none none) none] none
                 none))))) :=
  ⟨by decide, override_merge_matches_spec _ _ _ (by decide)⟩

/-! ## C3: sequence presentation slots -/

theorem parse_seq_loop_zero_eq (env : yaml_parse_t) (mi : Nat)
    (datas : List yaml_data_t)
    (pres : List (Option yaml_presentation_node_t)) :
    t_yaml_env_parse_seq_loop 0 env mi datas pres = .error fuelErr := rfl

theorem parse_seq_loop_succ_eq (n : Nat) (env : yaml_parse_t) (mi : Nat)
    (datas : List yaml_data_t)
    (pres : List (Option yaml_presentation_node_t)) :
    t_yaml_env_parse_seq_loop (n + 1) env mi datas pres =
      (match yaml_env_ltrim env with
       | .error e => .error e
       | .ok env1 =>
           let env2 := yaml_env_skipn env1 1
           match t_yaml_env_parse_data n env2 (mi + 1) with
           | .error e => .error e
           | .ok (elem, env3) =>
               match yaml_env_ltrim env3 with
               | .error e => .error e
               | .ok env4 =>
                   let datas2 := datas ++ [elem]
                   let pres2 := pres ++ [none]
                   if env4.rest.isEmpty then
                     .ok (.seq datas2 pres2 none none, env4)
                   else
                     let last_indent := yaml_env_get_column_nb env4
                     if last_indent < mi then
                       .ok (.seq datas2 pres2 none none, env4)
                     else if last_indent > mi then
                       .error (mkErr .wrongIndent
                         "line not aligned with current sequence".toList)
                     else if !startswith_yaml_seq_dash env4.rest then
                       .error (mkErr .wrongData
                         "expected another element of sequence".toList)
                     else
                       t_yaml_env_parse_seq_loop n env4 mi datas2 pres2) :=
  rfl

theorem parse_flow_seq_loop_zero_eq (env : yaml_parse_t)
    (datas : List yaml_data_t) :
    t_yaml_env_parse_flow_seq_loop 0 env datas = .error fuelErr := rfl

theorem parse_flow_seq_loop_succ_eq (n : Nat) (env : yaml_parse_t)
    (datas : List yaml_data_t) :
    t_yaml_env_parse_flow_seq_loop (n + 1) env datas =
      (match yaml_env_ltrim env with
       | .error e => .error e
       | .ok env1 =>
           if env1.rest.head? == some ']' then
             .ok (.seq datas [] none none, yaml_env_skipn env1 1)
           else
             match t_yaml_env_parse_flow_key_data n env1 with
             | .error e => .error e
             | .ok ((okey, d), env2) =>
                 let elem := match okey with
                   | some k => yaml_data_t.obj [.mk k d none] none none
                   | none => d
                 let datas2 := datas ++ [elem]
                 match yaml_env_ltrim env2 with
                 | .error e => .error e
                 | .ok env3 =>
                     if env3.rest.head? == some ']' then
                       .ok (.seq datas2 [] none none, yaml_env_skipn env3 1)
                     else if env3.rest.head? == some ',' then
                       t_yaml_env_parse_flow_seq_loop n
                         (yaml_env_skipn env3 1) datas2
                     else
                       .error (mkErr .wrongData
                         "expected another element of sequence".toList)) :=
  rfl

/-- The block sequence loop appends one presentation slot per parsed
element, so it keeps the two lists at equal lengths. -/
theorem parse_seq_loop_parallel : ∀ n env mi datas pres d env',
    datas.length = pres.length →
    t_yaml_env_parse_seq_loop n env mi datas pres = .ok (d, env') →
    ∃ ds pns, d = yaml_data_t.seq ds pns none none ∧
      ds.length = pns.length := by
  intro n
  induction n with
  | zero =>
      intro env mi datas pres d env' _ h
      rw [parse_seq_loop_zero_eq] at h
      exact Except.noConfusion h
  | succ n ih =>
      intro env mi datas pres d env' hlen h
      rw [parse_seq_loop_succ_eq] at h
      cases h1 : yaml_env_ltrim env with
      | error e =>
          rw [h1] at h
          exact Except.noConfusion h
      | ok env1 =>
          rw [h1] at h
          dsimp only at h
          cases h2 : t_yaml_env_parse_data n (yaml_env_skipn env1 1) (mi + 1)
            with
          | error e =>
              rw [h2] at h
              exact Except.noConfusion h
          | ok r =>
              obtain ⟨elem, env3⟩ := r
              rw [h2] at h
              dsimp only at h
              cases h3 : yaml_env_ltrim env3 with
              | error e =>
                  rw [h3] at h
                  exact Except.noConfusion h
              | ok env4 =>
                  rw [h3] at h
                  dsimp only at h
                  have hlen2 : (datas ++ [elem]).length =
                      (pres ++ [(none : Option yaml_presentation_node_t)]).length := by
                    simp [hlen]
                  split at h
                  · simp only [Except.ok.injEq] at h
                    obtain ⟨q1, q2⟩ := Prod.mk.injEq _ _ _ _ ▸ h
                    subst q1
                    exact ⟨_, _, rfl, hlen2⟩
                  · split at h
                    · simp only [Except.ok.injEq] at h
                      obtain ⟨q1, q2⟩ := Prod.mk.injEq _ _ _ _ ▸ h
                      subst q1
                      exact ⟨_, _, rfl, hlen2⟩
                    · split at h
                      · exact Except.noConfusion h
                      · split at h
                        · exact Except.noConfusion h
                        · exact ih _ _ _ _ _ _ hlen2 h

/-- The flow sequence loop never fills the presentation-slot list. -/
theorem parse_flow_seq_loop_no_slots : ∀ n env datas d env',
    t_yaml_env_parse_flow_seq_loop n env datas = .ok (d, env') →
    ∃ ds, d = yaml_data_t.seq ds [] none none := by
  intro n
  induction n with
  | zero =>
      intro env datas d env' h
      rw [parse_flow_seq_loop_zero_eq] at h
      exact Except.noConfusion h
  | succ n ih =>
      intro env datas d env' h
      rw [parse_flow_seq_loop_succ_eq] at h
      cases h1 : yaml_env_ltrim env with
      | error e =>
          rw [h1] at h
          exact Except.noConfusion h
      | ok env1 =>
          rw [h1] at h
          dsimp only at h
          split at h
          · simp only [Except.ok.injEq] at h
            obtain ⟨q1, q2⟩ := Prod.mk.injEq _ _ _ _ ▸ h
            subst q1
            exact ⟨_, rfl⟩
          · cases h2 : t_yaml_env_parse_flow_key_data n env1 with
            | error e =>
                rw [h2] at h
                exact Except.noConfusion h
            | ok r =>
                obtain ⟨⟨okey, dv⟩, env2⟩ := r
                rw [h2] at h
                dsimp only at h
                cases h3 : yaml_env_ltrim env2 with
                | error e =>
                    rw [h3] at h
                    exact Except.noConfusion h
                | ok env3 =>
                    rw [h3] at h
                    dsimp only at h
                    split at h
                    · simp only [Except.ok.injEq] at h
                      obtain ⟨q1, q2⟩ := Prod.mk.injEq _ _ _ _ ▸ h
                      subst q1
                      exact ⟨_, rfl⟩
                    · split at h
                      · exact ih _ _ _ _ h
                      · exact Except.noConfusion h

/-- The element/slot lengths of a parsed sequence, for exhibiting
concrete parses. -/
def seqLens : Option yaml_data_t → Option (Nat × Nat)
  | some (.seq ds pns _ _) => some (ds.length, pns.length)
  | _ => none

/-- C3 counterexample: parsing the flow sequence `[1]` succeeds with one
element but an empty presentation-slot list, so the slot list does not
have the same length as the element list. -/
theorem seq_pres_slots_counterexample :
    (t_yaml_parse "[1]".toList).1 = 0 ∧
    seqLens (t_yaml_parse "[1]".toList).2.1 = some (1, 0) := by decide

/-- C3 amended: a block-parsed sequence carries one presentation slot
per element; a flow-parsed sequence carries an empty slot list; the
override merge concatenates elements and slots so it preserves equal
lengths. -/
theorem seq_pres_slots_amended :
    (∀ n env mi d env',
      t_yaml_env_parse_seq n env mi = .ok (d, env') →
      ∃ ds pns, d = yaml_data_t.seq ds pns none none ∧
        ds.length = pns.length) ∧
    (∀ n env d env',
      t_yaml_env_parse_flow_seq n env = .ok (d, env') →
      ∃ ds, d = yaml_data_t.seq ds [] none none) ∧
    (∀ ods opns oot oop pres ds pns t p, ∃ pres2,
      t_yaml_env_merge_data (.seq ods opns oot oop) pres
          (.seq ds pns t p) =
        .ok (yaml_data_t.seq (ds ++ ods) (pns ++ opns) t p, pres2) ∧
      (ds.length = pns.length → ods.length = opns.length →
        (ds ++ ods).length = (pns ++ opns).length)) := by
  refine ⟨?_, ?_, ?_⟩
  · intro n env mi d env' h
    exact parse_seq_loop_parallel n env mi [] [] d env' rfl h
  · intro n env d env' h
    exact parse_flow_seq_loop_no_slots n _ [] d env' h
  · intro ods opns oot oop pres ds pns t p
    refine ⟨_, rfl, ?_⟩
    intro h1 h2
    simp [h1, h2]

/-- Witness for the amended sequence-slots theorem: the block parse of
`- 1`, the flow parse of `[1]`, and a one-element merge. -/
theorem seq_pres_slots_amended_witness :
    (∃ ds pns,
      yaml_data_t.seq [.scalar (.uint 1) none none] [none] none none =
        yaml_data_t.seq ds pns none none ∧ ds.length = pns.length) ∧
    (∃ ds,
      yaml_data_t.seq [.scalar (.uint 1) none none] [] none none =
        yaml_data_t.seq ds [] none none) ∧
    (([] : List yaml_data_t) ++ [yaml_data_t.scalar (.uint 1) none none]).length =
      (([] : List (Option yaml_presentation_node_t)) ++ [none]).length := by
  refine ⟨?_, ?_, ?_⟩
  · exact seq_pres_slots_amended.1 8 (yaml_parse_attach_ps "- 1".toList) 1
      _ ⟨[], 3, 0, []⟩ rfl
  · exact seq_pres_slots_amended.2.1 8 (yaml_parse_attach_ps "[1]".toList)
      _ ⟨[], 3, 0, []⟩ rfl
  · obtain ⟨p2, _, himp⟩ := seq_pres_slots_amended.2.2
      [.scalar (.uint 1) none none] [none] none none ⟨[], []⟩ [] [] none
      none
    exact himp rfl rfl

/-! ## C2: entry-point return conventions -/

/-- Every rendered parser error message is non-empty: it starts with the
kind text of yaml_env_set_err_at. -/
theorem YErr_msg_ne_nil (e : YErr) : e.msg ≠ [] := by
  obtain ⟨k, d⟩ := e
  cases k with
  | none => simp [YErr.msg]
  | some k => cases k <;> simp [YErr.msg, yaml_error_text]

/-- C2 amended: t_yaml_parse returns 0 with the data and an empty error
buffer on success, and -1 with no data on failure; the error buffer is
not always filled on failure — the post-document trim failure returns -1
leaving it empty, as on the input 1 newline tab. The in-memory pack
entry point returns the packed byte count — non-negative and bounded by
the bytes written — rather than 0, and the file entry point returns 0
on success. -/
theorem entry_return_conventions :
    (∀ s : Str,
      ((t_yaml_parse s).1 = 0 ∧ (t_yaml_parse s).2.1.isSome = true ∧
        (t_yaml_parse s).2.2 = []) ∨
      ((t_yaml_parse s).1 = -1 ∧ (t_yaml_parse s).2.1 = none)) ∧
    (t_yaml_parse "1\n\t".toList = (-1, none, [])) ∧
    (∀ data, wfData data = true →
      0 ≤ (t_yaml_pack_sb t_yaml_pack_env_new data).1 ∧
      (t_yaml_pack_sb t_yaml_pack_env_new data).1.toNat ≤
        (t_yaml_pack_sb t_yaml_pack_env_new data).2.out.length) ∧
    (∀ data : yaml_data_t,
      (t_yaml_pack_file t_yaml_pack_env_new data).1 = 0) := by
  refine ⟨?_, rfl, ?_, ?_⟩
  · intro s
    rw [t_yaml_parse]
    cases h1 : t_yaml_env_parse_data (parseFuel s)
        (yaml_parse_attach_ps s) 0 with
    | error e =>
        dsimp only
        right
        exact ⟨rfl, rfl⟩
    | ok r =>
        obtain ⟨d, env1⟩ := r
        dsimp only
        cases h2 : yaml_env_ltrim env1 with
        | error e =>
            dsimp only
            right
            exact ⟨rfl, rfl⟩
        | ok env2 =>
            dsimp only
            split
            · right
              exact ⟨rfl, rfl⟩
            · split
              · right
                exact ⟨rfl, rfl⟩
              · left
                exact ⟨rfl, rfl, rfl⟩
  · intro data hwf
    rcases hp : t_yaml_pack_data t_yaml_pack_env_new data with ⟨n, envp⟩
    obtain ⟨w, e, l, _, _⟩ := (block_invariant (sizeOf data)).1
      t_yaml_pack_env_new data n envp le_rfl rfl hwf hp
    have hout : envp.out = w := by
      simpa [t_yaml_pack_env_new] using e
    rw [t_yaml_pack_sb, hp]
    dsimp only
    refine ⟨Int.ofNat_nonneg n, ?_⟩
    rw [hout]
    simpa using l
  · intro data
    rfl

/-! ## C7: duplicate keys, tabs, double tags -/

theorem parse_data_zero_eq (env : yaml_parse_t) (mi : Nat) :
    t_yaml_env_parse_data 0 env mi = .error fuelErr := rfl

theorem parse_data_succ_eq (n : Nat) (env : yaml_parse_t) (mi : Nat) :
    t_yaml_env_parse_data (n + 1) env mi =
      (match yaml_env_ltrim env with
       | .error e => .error e
       | .ok env1 =>
           if env1.rest.isEmpty then
             .error (mkErr .missingData "unexpected end of line".toList)
           else
             let cur_indent := yaml_env_get_column_nb env1
             if cur_indent < mi then
               .error (mkErr .wrongIndent "missing element".toList)
             else if env1.rest.head? == some '!' then
               match t_yaml_env_parse_tag n env1 mi with
               | .error e => .error e
               | .ok (d, env2) => t_yaml_env_handle_include env2 d
             else if startswith_yaml_seq_dash env1.rest then
               t_yaml_env_parse_seq_loop n env1 cur_indent [] []
             else if env1.rest.head? == some '[' then
               t_yaml_env_parse_flow_seq_loop n (yaml_env_skipn env1 1) []
             else if env1.rest.head? == some lbrace then
               t_yaml_env_parse_flow_obj_loop n (yaml_env_skipn env1 1) [] []
             else if startswith_yaml_key env1.rest false then
               t_yaml_env_parse_obj_loop n env1 cur_indent false [] []
             else
               t_yaml_env_parse_scalar env1 false) := rfl

theorem parse_tag_zero_eq (env : yaml_parse_t) (mi : Nat) :
    t_yaml_env_parse_tag 0 env mi = .error fuelErr := rfl

theorem parse_tag_succ_eq (n : Nat) (env : yaml_parse_t) (mi : Nat) :
    t_yaml_env_parse_tag (n + 1) env mi =
      (let env1 := yaml_env_skipn env 1
       match env1.rest.head? with
       | none => .error (mkErr .invalidTag "must start with a letter".toList)
       | some c =>
           if !cIsAlpha c then
             .error (mkErr .invalidTag "must start with a letter".toList)
           else
             let tag := env1.rest.takeWhile cIsTagChar
             let env2 := yaml_env_skipn env1 tag.length
             match env2.rest.head? with
             | none =>
                 .error (mkErr .invalidTag
                   "must only contain alphanumeric characters".toList)
             | some c2 =>
                 if !cIsSpace c2 then
                   .error (mkErr .invalidTag
                     "must only contain alphanumeric characters".toList)
                 else
                   match t_yaml_env_parse_data n env2 mi with
                   | .error e => .error e
                   | .ok (d, env3) =>
                       if d.tag.isSome then
                         .error (mkErr .wrongObject
                           "two tags have been declared".toList)
                       else .ok (d.setTag tag, env3)) := rfl

theorem parse_obj_loop_zero_eq (env : yaml_parse_t) (mi : Nat) (ov : Bool)
    (fields : List yaml_key_data_t) (keys : List Str) :
    t_yaml_env_parse_obj_loop 0 env mi ov fields keys = .error fuelErr :=
  rfl

theorem parse_obj_loop_succ_eq (n : Nat) (env : yaml_parse_t) (mi : Nat)
    (ov : Bool) (fields : List yaml_key_data_t) (keys : List Str) :
    t_yaml_env_parse_obj_loop (n + 1) env mi ov fields keys =
      (if ov then
        match yaml_env_ltrim env with
        | .error e => .error e
        | .ok envA =>
            if envA.rest.head? != some '$' then
              .ok (.obj fields none none, envA)
            else t_yaml_env_parse_obj_step n envA mi ov fields keys
      else t_yaml_env_parse_obj_step n env mi ov fields keys) := rfl

theorem parse_obj_step_zero_eq (env : yaml_parse_t) (mi : Nat) (ov : Bool)
    (fields : List yaml_key_data_t) (keys : List Str) :
    t_yaml_env_parse_obj_step 0 env mi ov fields keys = .error fuelErr :=
  rfl

theorem parse_obj_step_succ_eq (n : Nat) (env : yaml_parse_t) (mi : Nat)
    (ov : Bool) (fields : List yaml_key_data_t) (keys : List Str) :
    t_yaml_env_parse_obj_step (n + 1) env mi ov fields keys =
      (match yaml_env_parse_key env with
       | .error e => .error e
       | .ok (key, env1) =>
           if !ov && key.head? == some '$' then
             .error (mkErr .badKey
               "cannot specify a variable value in this context".toList)
           else if keys.contains key then
             .error (mkErr .badKey
               "key is already declared in the object".toList)
           else
             match yaml_env_ltrim env1 with
             | .error e => .error e
             | .ok env2 =>
                 match (if startswith_yaml_seq_dash env2.rest then
                         t_yaml_env_parse_data n env2 mi
                       else t_yaml_env_parse_data n env2 (mi + 1)) with
                 | .error e => .error e
                 | .ok (d, env3) =>
                     match yaml_env_ltrim env3 with
                     | .error e => .error e
                     | .ok env4 =>
                         let fields2 := fields ++ [.mk key d none]
                         let keys2 := keys ++ [key]
                         if env4.rest.isEmpty then
                           .ok (.obj fields2 none none, env4)
                         else
                           let last_indent := yaml_env_get_column_nb env4
                           if last_indent < mi then
                             .ok (.obj fields2 none none, env4)
                           else if last_indent > mi then
                             .error (mkErr .wrongIndent
                               "line not aligned with current object".toList)
                           else
                             t_yaml_env_parse_obj_loop n env4 mi ov
                               fields2 keys2) := rfl

theorem parse_flow_obj_loop_zero_eq (env : yaml_parse_t)
    (fields : List yaml_key_data_t) (keys : List Str) :
    t_yaml_env_parse_flow_obj_loop 0 env fields keys = .error fuelErr :=
  rfl

theorem parse_flow_obj_loop_succ_eq (n : Nat) (env : yaml_parse_t)
    (fields : List yaml_key_data_t) (keys : List Str) :
    t_yaml_env_parse_flow_obj_loop (n + 1) env fields keys =
      (match yaml_env_ltrim env with
       | .error e => .error e
       | .ok env1 =>
           if env1.rest.head? == some rbrace then
             .ok (.obj fields none none, yaml_env_skipn env1 1)
           else
             match t_yaml_env_parse_flow_key_data n env1 with
             | .error e => .error e
             | .ok ((okey, d), env2) =>
                 match okey with
                 | none =>
                     .error (mkErr .wrongData
                       "only key-value mappings are allowed inside an object".toList)
                 | some k =>
                     if keys.contains k then
                       .error (mkErr .badKey
                         "key is already declared in the object".toList)
                     else
                       let fields2 := fields ++ [.mk k d none]
                       match yaml_env_ltrim env2 with
                       | .error e => .error e
                       | .ok env3 =>
                           if env3.rest.head? == some rbrace then
                             .ok (.obj fields2 none none,
                                  yaml_env_skipn env3 1)
                           else if env3.rest.head? == some ',' then
                             t_yaml_env_parse_flow_obj_loop n
                               (yaml_env_skipn env3 1) fields2 (keys ++ [k])
                           else
                             .error (mkErr .wrongData
                               "expected another element of object".toList)) :=
  rfl

theorem parse_flow_key_data_zero_eq (env : yaml_parse_t) :
    t_yaml_env_parse_flow_key_data 0 env = .error fuelErr := rfl

theorem parse_flow_key_data_succ_eq (n : Nat) (env : yaml_parse_t) :
    t_yaml_env_parse_flow_key_data (n + 1) env =
      (match yaml_env_ltrim env with
       | .error e => .error e
       | .ok env1 =>
           if env1.rest.isEmpty then
             .error (mkErr .missingData "unexpected end of line".toList)
           else if startswith_yaml_key env1.rest false then
             t_yaml_env_parse_flow_key_val n env1
           else if env1.rest.head? == some '[' then
             match t_yaml_env_parse_flow_seq_loop n
                 (yaml_env_skipn env1 1) [] with
             | .error e => .error e
             | .ok (d, env2) => .ok ((none, d), env2)
           else if env1.rest.head? == some lbrace then
             match t_yaml_env_parse_flow_obj_loop n
                 (yaml_env_skipn env1 1) [] [] with
             | .error e => .error e
             | .ok (d, env2) => .ok ((none, d), env2)
           else
             match t_yaml_env_parse_scalar env1 true with
             | .error e => .error e
             | .ok (d, env2) => .ok ((none, d), env2)) := rfl

theorem parse_flow_key_val_zero_eq (env : yaml_parse_t) :
    t_yaml_env_parse_flow_key_val 0 env = .error fuelErr := rfl

theorem parse_flow_key_val_succ_eq (n : Nat) (env : yaml_parse_t) :
    t_yaml_env_parse_flow_key_val (n + 1) env =
      (match yaml_env_parse_key env with
       | .error e => .error e
       | .ok (key, env1) =>
           if key.head? == some '$' then
             .error (mkErr .badKey
               "cannot specify a variable value in this context".toList)
           else
             match yaml_env_ltrim env1 with
             | .error e => .error e
             | .ok env2 =>
                 match t_yaml_env_parse_flow_key_data n env2 with
                 | .error e => .error e
                 | .ok ((some _, _), _) =>
                     .error (mkErr .wrongData "unexpected colon".toList)
                 | .ok ((none, d), env3) => .ok ((some key, d), env3)) :=
  rfl

/-- No string occurs twice (the property the keys_hash of the object
parsers enforces). -/
def strNodup : List Str → Bool
  | [] => true
  | k :: r => !(r.contains k) && strNodup r

def keyList (fs : List yaml_key_data_t) : List Str :=
  fs.map yaml_key_data_t.key

mutual

/-- Every object anywhere in the data has pairwise-distinct keys. -/
def dataKeysOk : yaml_data_t → Bool
  | .scalar _ _ _ => true
  | .seq ds _ _ _ => datasKeysOk ds
  | .obj fs _ _ => strNodup (keyList fs) && fieldsKeysOk fs
termination_by structural d => d

def datasKeysOk : List yaml_data_t → Bool
  | [] => true
  | d :: r => dataKeysOk d && datasKeysOk r
termination_by structural l => l

def fieldsKeysOk : List yaml_key_data_t → Bool
  | [] => true
  | .mk _ d _ :: r => dataKeysOk d && fieldsKeysOk r
termination_by structural l => l

end

theorem dataKeysOk_scalar (v : YamlScalar) (t : Option Str)
    (p : Option yaml_presentation_node_t) :
    dataKeysOk (.scalar v t p) = true := rfl

theorem dataKeysOk_seq (ds : List yaml_data_t)
    (pns : List (Option yaml_presentation_node_t)) (t : Option Str)
    (p : Option yaml_presentation_node_t) :
    dataKeysOk (.seq ds pns t p) = datasKeysOk ds := rfl

theorem dataKeysOk_obj (fs : List yaml_key_data_t) (t : Option Str)
    (p : Option yaml_presentation_node_t) :
    dataKeysOk (.obj fs t p) =
      (strNodup (keyList fs) && fieldsKeysOk fs) := rfl

theorem datasKeysOk_cons (d : yaml_data_t) (r : List yaml_data_t) :
    datasKeysOk (d :: r) = (dataKeysOk d && datasKeysOk r) := rfl

theorem fieldsKeysOk_cons (k : Str) (d : yaml_data_t)
    (kp : Option yaml_presentation_node_t) (r : List yaml_key_data_t) :
    fieldsKeysOk (.mk k d kp :: r) = (dataKeysOk d && fieldsKeysOk r) :=
  rfl

theorem strNodup_append_one {l : List Str} {k : Str}
    (h1 : strNodup l = true) (h2 : l.contains k = false) :
    strNodup (l ++ [k]) = true := by
  induction l with
  | nil => rfl
  | cons a r ih =>
      simp only [strNodup, Bool.and_eq_true, Bool.not_eq_true'] at h1
      simp only [List.contains_cons, Bool.or_eq_false_iff] at h2
      simp only [List.cons_append, strNodup, Bool.and_eq_true,
        Bool.not_eq_true']
      refine ⟨?_, ih h1.2 h2.2⟩
      have happ : (r ++ [k]).contains a =
          (r.contains a || [k].contains a) := by
        simp [List.contains, List.elem_eq_mem, List.mem_append]
      show (r ++ [k]).contains a = false
      rw [happ]
      simp only [Bool.or_eq_false_iff]
      refine ⟨h1.1, ?_⟩
      simp only [List.contains_cons, List.contains_nil, Bool.or_false]
      have : ¬(k = a) := by
        intro hEq
        rw [hEq] at h2
        simpa using h2.1
      simp [beq_eq_false_iff_ne]
      exact fun hEq => this hEq.symm

theorem datasKeysOk_append_one {l : List yaml_data_t} {d : yaml_data_t}
    (h1 : datasKeysOk l = true) (h2 : dataKeysOk d = true) :
    datasKeysOk (l ++ [d]) = true := by
  induction l with
  | nil =>
      simp only [List.nil_append, datasKeysOk_cons, Bool.and_eq_true]
      exact ⟨h2, rfl⟩
  | cons a r ih =>
      simp only [datasKeysOk_cons, Bool.and_eq_true] at h1
      simp only [List.cons_append, datasKeysOk_cons, Bool.and_eq_true]
      exact ⟨h1.1, ih h1.2⟩

theorem fieldsKeysOk_append_one {l : List yaml_key_data_t} {k : Str}
    {d : yaml_data_t} {kp : Option yaml_presentation_node_t}
    (h1 : fieldsKeysOk l = true) (h2 : dataKeysOk d = true) :
    fieldsKeysOk (l ++ [.mk k d kp]) = true := by
  induction l with
  | nil =>
      simp only [List.nil_append, fieldsKeysOk_cons, Bool.and_eq_true]
      exact ⟨h2, rfl⟩
  | cons a r ih =>
      cases a with
      | mk ka da kpa =>
          simp only [fieldsKeysOk_cons, Bool.and_eq_true] at h1
          simp only [List.cons_append, fieldsKeysOk_cons, Bool.and_eq_true]
          exact ⟨h1.1, ih h1.2⟩

theorem keyList_append_one (fs : List yaml_key_data_t) (k : Str)
    (d : yaml_data_t) (kp : Option yaml_presentation_node_t) :
    keyList (fs ++ [.mk k d kp]) = keyList fs ++ [k] := by
  simp [keyList, yaml_key_data_t.key]

/-- The parsed scalar is always a scalar node. -/
theorem parse_scalar_shape {env : yaml_parse_t} {b : Bool}
    {d : yaml_data_t} {env' : yaml_parse_t}
    (h : t_yaml_env_parse_scalar env b = .ok (d, env')) :
    ∃ v, d = yaml_data_t.scalar v none none := by
  unfold t_yaml_env_parse_scalar at h
  split at h
  · rename_i heq
    cases hq : yaml_parse_quoted_string (yaml_env_skipn env 1) with
    | error e =>
        rw [hq] at h
        exact Except.noConfusion h
    | ok r =>
        obtain ⟨content, env1⟩ := r
        rw [hq] at h
        dsimp only at h
        simp only [Except.ok.injEq] at h
        obtain ⟨q1, q2⟩ := Prod.mk.injEq _ _ _ _ ▸ h
        subst q1
        exact ⟨_, rfl⟩
  · dsimp only at h
    split at h
    · exact Except.noConfusion h
    · split at h
      · rename_i v heq
        simp only [Except.ok.injEq] at h
        obtain ⟨q1, q2⟩ := Prod.mk.injEq _ _ _ _ ▸ h
        subst q1
        exact ⟨_, rfl⟩
      · simp only [Except.ok.injEq] at h
        obtain ⟨q1, q2⟩ := Prod.mk.injEq _ _ _ _ ▸ h
        subst q1
        exact ⟨_, rfl⟩

/-- A successful include pass returns its data unchanged (inclusion
itself always fails without a filesystem). -/
theorem handle_include_ok {env : yaml_parse_t} {d d' : yaml_data_t}
    {env' : yaml_parse_t}
    (h : t_yaml_env_handle_include env d = .ok (d', env')) : d' = d := by
  rw [t_yaml_env_handle_include] at h
  split at h
  · cases hl : yaml_env_ltrim env with
    | error e =>
        rw [hl] at h
        exact Except.noConfusion h
    | ok env1 =>
        rw [hl] at h
        dsimp only at h
        split at h
        · exact Except.noConfusion h
        · exact Except.noConfusion h
  · simp only [Except.ok.injEq] at h
    exact ((Prod.mk.injEq _ _ _ _ ▸ h).1).symm

/-- Tagging does not change the container structure. -/
theorem dataKeysOk_setTag (d : yaml_data_t) (t : Str) :
    dataKeysOk (d.setTag t) = dataKeysOk d := by
  cases d <;> rfl

def KeysData (n : Nat) : Prop := ∀ env mi d env',
  t_yaml_env_parse_data n env mi = .ok (d, env') → dataKeysOk d = true

def KeysTag (n : Nat) : Prop := ∀ env mi d env',
  t_yaml_env_parse_tag n env mi = .ok (d, env') → dataKeysOk d = true

def KeysSeqLoop (n : Nat) : Prop := ∀ env mi datas pres d env',
  datasKeysOk datas = true →
  t_yaml_env_parse_seq_loop n env mi datas pres = .ok (d, env') →
  dataKeysOk d = true

def KeysObjLoop (n : Nat) : Prop := ∀ env mi ov fields keys d env',
  fieldsKeysOk fields = true → strNodup (keyList fields) = true →
  (∀ k, (keyList fields).contains k = true → keys.contains k = true) →
  t_yaml_env_parse_obj_loop n env mi ov fields keys = .ok (d, env') →
  dataKeysOk d = true

def KeysObjStep (n : Nat) : Prop := ∀ env mi ov fields keys d env',
  fieldsKeysOk fields = true → strNodup (keyList fields) = true →
  (∀ k, (keyList fields).contains k = true → keys.contains k = true) →
  t_yaml_env_parse_obj_step n env mi ov fields keys = .ok (d, env') →
  dataKeysOk d = true

def KeysFlowSeq (n : Nat) : Prop := ∀ env datas d env',
  datasKeysOk datas = true →
  t_yaml_env_parse_flow_seq_loop n env datas = .ok (d, env') →
  dataKeysOk d = true

def KeysFlowObj (n : Nat) : Prop := ∀ env fields keys d env',
  fieldsKeysOk fields = true → strNodup (keyList fields) = true →
  (∀ k, (keyList fields).contains k = true → keys.contains k = true) →
  t_yaml_env_parse_flow_obj_loop n env fields keys = .ok (d, env') →
  dataKeysOk d = true

def KeysFlowKD (n : Nat) : Prop := ∀ env okey d env',
  t_yaml_env_parse_flow_key_data n env = .ok ((okey, d), env') →
  dataKeysOk d = true

def KeysFlowKV (n : Nat) : Prop := ∀ env okey d env',
  t_yaml_env_parse_flow_key_val n env = .ok ((okey, d), env') →
  dataKeysOk d = true

theorem KD_step {n : Nat} (ihT : KeysTag n) (ihSL : KeysSeqLoop n)
    (ihOL : KeysObjLoop n) (ihFS : KeysFlowSeq n) (ihFO : KeysFlowObj n) :
    KeysData (n + 1) := by
  intro env mi d env' h
  rw [parse_data_succ_eq] at h
  split at h
  · exact Except.noConfusion h
  · dsimp only at h
    split at h
    · exact Except.noConfusion h
    · split at h
      · exact Except.noConfusion h
      · split at h
        · split at h
          · exact Except.noConfusion h
          · rename_i r heq
            obtain ⟨d0, env2⟩ := r
            rw [handle_include_ok h]
            exact ihT _ _ _ _ heq
        · split at h
          · exact ihSL _ _ [] [] _ _ rfl h
          · split at h
            · exact ihFS _ [] _ _ rfl h
            · split at h
              · refine ihFO _ [] [] _ _ rfl rfl ?_ h
                intro k hk
                simp [keyList] at hk
              · split at h
                · refine ihOL _ _ _ [] [] _ _ rfl rfl ?_ h
                  intro k hk
                  simp [keyList] at hk
                · obtain ⟨v, rfl⟩ := parse_scalar_shape h
                  rfl

theorem datasKeysOk_nil : datasKeysOk [] = true := rfl

theorem fieldsKeysOk_nil : fieldsKeysOk [] = true := rfl

theorem KT_step {n : Nat} (ihD : KeysData n) : KeysTag (n + 1) := by
  intro env mi d env' h
  rw [parse_tag_succ_eq] at h
  dsimp only at h
  split at h
  · exact Except.noConfusion h
  · split at h
    · exact Except.noConfusion h
    · split at h
      · exact Except.noConfusion h
      · split at h
        · exact Except.noConfusion h
        · split at h
          · exact Except.noConfusion h
          · rename_i r heq
            obtain ⟨d0, env3⟩ := r
            split at h
            · exact Except.noConfusion h
            · simp only [Except.ok.injEq] at h
              obtain ⟨q1, q2⟩ := Prod.mk.injEq _ _ _ _ ▸ h
              subst q1
              rw [dataKeysOk_setTag]
              exact ihD _ _ _ _ heq

theorem KSL_step {n : Nat} (ihD : KeysData n) (ihSL : KeysSeqLoop n) :
    KeysSeqLoop (n + 1) := by
  intro env mi datas pres d env' hds h
  rw [parse_seq_loop_succ_eq] at h
  split at h
  · exact Except.noConfusion h
  · dsimp only at h
    split at h
    · exact Except.noConfusion h
    · rename_i elem env3 heq
      split at h
      · exact Except.noConfusion h
      · have hds2 : datasKeysOk (datas ++ [elem]) = true :=
          datasKeysOk_append_one hds (ihD _ _ _ _ heq)
        split at h
        · simp only [Except.ok.injEq] at h
          obtain ⟨q1, q2⟩ := Prod.mk.injEq _ _ _ _ ▸ h
          subst q1
          rw [dataKeysOk_seq]
          exact hds2
        · split at h
          · simp only [Except.ok.injEq] at h
            obtain ⟨q1, q2⟩ := Prod.mk.injEq _ _ _ _ ▸ h
            subst q1
            rw [dataKeysOk_seq]
            exact hds2
          · split at h
            · exact Except.noConfusion h
            · split at h
              · exact Except.noConfusion h
              · exact ihSL _ _ _ _ _ _ hds2 h

theorem KOL_step {n : Nat} (ihOS : KeysObjStep n) : KeysObjLoop (n + 1) := by
  intro env mi ov fields keys d env' hf hn hsub h
  rw [parse_obj_loop_succ_eq] at h
  split at h
  · split at h
    · exact Except.noConfusion h
    · split at h
      · simp only [Except.ok.injEq] at h
        obtain ⟨q1, q2⟩ := Prod.mk.injEq _ _ _ _ ▸ h
        subst q1
        rw [dataKeysOk_obj]
        simp [hn, hf]
      · exact ihOS _ _ _ _ _ _ _ hf hn hsub h
  · exact ihOS _ _ _ _ _ _ _ hf hn hsub h

/-- Contains over an append, specialised to the key lists. -/
theorem contains_append_one (l : List Str) (k x : Str) :
    (l ++ [k]).contains x = (l.contains x || [k].contains x) := by
  simp [List.contains, List.elem_eq_mem, List.mem_append]

theorem KOS_step {n : Nat} (ihD : KeysData n) (ihOL : KeysObjLoop n) :
    KeysObjStep (n + 1) := by
  intro env mi ov fields keys d env' hf hn hsub h
  rw [parse_obj_step_succ_eq] at h
  split at h
  · exact Except.noConfusion h
  · rename_i key env1 heqk
    split at h
    · exact Except.noConfusion h
    · split at h
      · exact Except.noConfusion h
      · rename_i hkc
        split at h
        · exact Except.noConfusion h
        · split at h
          · exact Except.noConfusion h
          · rename_i d0 env3 heqd
            split at h
            · exact Except.noConfusion h
            · have hd0 : dataKeysOk d0 = true := by
                split at heqd
                · exact ihD _ _ _ _ heqd
                · exact ihD _ _ _ _ heqd
              have hkc2 : keys.contains key = false := by
                cases hv : keys.contains key
                · rfl
                · exact absurd hv hkc
              have hnotin : (keyList fields).contains key = false := by
                cases hv : (keyList fields).contains key
                · rfl
                · have := hsub key hv
                  rw [hkc2] at this
                  exact Bool.noConfusion this
              have hf2 : fieldsKeysOk (fields ++ [.mk key d0 none]) = true :=
                fieldsKeysOk_append_one hf hd0
              have hn2 : strNodup
                  (keyList (fields ++ [.mk key d0 none])) = true := by
                rw [keyList_append_one]
                exact strNodup_append_one hn hnotin
              have hsub2 : ∀ k,
                  (keyList (fields ++ [.mk key d0 none])).contains k =
                    true →
                  (keys ++ [key]).contains k = true := by
                intro k hk
                rw [keyList_append_one, contains_append_one] at hk
                rw [contains_append_one]
                cases hmem : (keyList fields).contains k with
                | true =>
                    rw [Bool.or_eq_true]
                    exact Or.inl (hsub k hmem)
                | false =>
                    rw [hmem] at hk
                    simp only [Bool.false_or] at hk
                    rw [Bool.or_eq_true]
                    exact Or.inr hk
              dsimp only at h
              split at h
              · simp only [Except.ok.injEq] at h
                obtain ⟨q1, q2⟩ := Prod.mk.injEq _ _ _ _ ▸ h
                subst q1
                rw [dataKeysOk_obj]
                simp [hn2, hf2]
              · split at h
                · simp only [Except.ok.injEq] at h
                  obtain ⟨q1, q2⟩ := Prod.mk.injEq _ _ _ _ ▸ h
                  subst q1
                  rw [dataKeysOk_obj]
                  simp [hn2, hf2]
                · split at h
                  · exact Except.noConfusion h
                  · exact ihOL _ _ _ _ _ _ _ hf2 hn2 hsub2 h

theorem KFS_step {n : Nat} (ihFKD : KeysFlowKD n) (ihFS : KeysFlowSeq n) :
    KeysFlowSeq (n + 1) := by
  intro env datas d env' hds h
  rw [parse_flow_seq_loop_succ_eq] at h
  split at h
  · exact Except.noConfusion h
  · dsimp only at h
    split at h
    · simp only [Except.ok.injEq] at h
      obtain ⟨q1, q2⟩ := Prod.mk.injEq _ _ _ _ ▸ h
      subst q1
      rw [dataKeysOk_seq]
      exact hds
    · split at h
      · exact Except.noConfusion h
      · rename_i okey dv env2 heq
        have hdv : dataKeysOk dv = true := ihFKD _ _ _ _ heq
        cases okey with
        | none =>
            dsimp only at h
            have hds2 : datasKeysOk (datas ++ [dv]) = true :=
              datasKeysOk_append_one hds hdv
            split at h
            · exact Except.noConfusion h
            · split at h
              · simp only [Except.ok.injEq] at h
                obtain ⟨q1, q2⟩ := Prod.mk.injEq _ _ _ _ ▸ h
                subst q1
                rw [dataKeysOk_seq]
                exact hds2
              · split at h
                · exact ihFS _ _ _ _ hds2 h
                · exact Except.noConfusion h
        | some k =>
            dsimp only at h
            have helem : dataKeysOk
                (yaml_data_t.obj [.mk k dv none] none none) = true := by
              rw [dataKeysOk_obj]
              simp [keyList, strNodup, fieldsKeysOk_cons, fieldsKeysOk_nil,
                yaml_key_data_t.key, hdv]
            have hds2 : datasKeysOk
                (datas ++ [yaml_data_t.obj [.mk k dv none] none none]) =
                true := datasKeysOk_append_one hds helem
            split at h
            · exact Except.noConfusion h
            · split at h
              · simp only [Except.ok.injEq] at h
                obtain ⟨q1, q2⟩ := Prod.mk.injEq _ _ _ _ ▸ h
                subst q1
                rw [dataKeysOk_seq]
                exact hds2
              · split at h
                · exact ihFS _ _ _ _ hds2 h
                · exact Except.noConfusion h

theorem KFO_step {n : Nat} (ihFKD : KeysFlowKD n) (ihFO : KeysFlowObj n) :
    KeysFlowObj (n + 1) := by
  intro env fields keys d env' hf hn hsub h
  rw [parse_flow_obj_loop_succ_eq] at h
  split at h
  · exact Except.noConfusion h
  · dsimp only at h
    split at h
    · simp only [Except.ok.injEq] at h
      obtain ⟨q1, q2⟩ := Prod.mk.injEq _ _ _ _ ▸ h
      subst q1
      rw [dataKeysOk_obj]
      simp [hn, hf]
    · split at h
      · exact Except.noConfusion h
      · rename_i okey dv env2 heq
        have hdv : dataKeysOk dv = true := ihFKD _ _ _ _ heq
        split at h
        · exact Except.noConfusion h
        · rename_i k
          split at h
          · exact Except.noConfusion h
          · rename_i hkc
            have hkc2 : keys.contains k = false := by
              cases hv : keys.contains k
              · rfl
              · exact absurd hv hkc
            have hnotin : (keyList fields).contains k = false := by
              cases hv : (keyList fields).contains k
              · rfl
              · have := hsub k hv
                rw [hkc2] at this
                exact Bool.noConfusion this
            have hf2 : fieldsKeysOk (fields ++ [.mk k dv none]) = true :=
              fieldsKeysOk_append_one hf hdv
            have hn2 : strNodup (keyList (fields ++ [.mk k dv none])) =
                true := by
              rw [keyList_append_one]
              exact strNodup_append_one hn hnotin
            have hsub2 : ∀ x,
                (keyList (fields ++ [.mk k dv none])).contains x = true →
                (keys ++ [k]).contains x = true := by
              intro x hx
              rw [keyList_append_one, contains_append_one] at hx
              rw [contains_append_one]
              cases hmem : (keyList fields).contains x with
              | true =>
                  rw [Bool.or_eq_true]
                  exact Or.inl (hsub x hmem)
              | false =>
                  rw [hmem] at hx
                  simp only [Bool.false_or] at hx
                  rw [Bool.or_eq_true]
                  exact Or.inr hx
            split at h
            · exact Except.noConfusion h
            · split at h
              · simp only [Except.ok.injEq] at h
                obtain ⟨q1, q2⟩ := Prod.mk.injEq _ _ _ _ ▸ h
                subst q1
                rw [dataKeysOk_obj]
                simp [hn2, hf2]
              · split at h
                · exact ihFO _ _ _ _ _ hf2 hn2 hsub2 h
                · exact Except.noConfusion h

theorem KFKD_step {n : Nat} (ihFKV : KeysFlowKV n) (ihFS : KeysFlowSeq n)
    (ihFO : KeysFlowObj n) : KeysFlowKD (n + 1) := by
  intro env okey d env' h
  rw [parse_flow_key_data_succ_eq] at h
  split at h
  · exact Except.noConfusion h
  · split at h
    · exact Except.noConfusion h
    · split at h
      · exact ihFKV _ _ _ _ h
      · split at h
        · split at h
          · exact Except.noConfusion h
          · rename_i dv env2 heq
            simp only [Except.ok.injEq, Prod.mk.injEq] at h
            obtain ⟨⟨q1, q2⟩, q3⟩ := h
            subst q2
            exact ihFS _ [] _ _ rfl heq
        · split at h
          · split at h
            · exact Except.noConfusion h
            · rename_i dv env2 heq
              simp only [Except.ok.injEq, Prod.mk.injEq] at h
              obtain ⟨⟨q1, q2⟩, q3⟩ := h
              subst q2
              refine ihFO _ [] [] _ _ rfl rfl ?_ heq
              intro x hx
              simp [keyList] at hx
          · split at h
            · exact Except.noConfusion h
            · rename_i dv env2 heq
              simp only [Except.ok.injEq, Prod.mk.injEq] at h
              obtain ⟨⟨q1, q2⟩, q3⟩ := h
              subst q2
              obtain ⟨v, rfl⟩ := parse_scalar_shape heq
              rfl

theorem KFKV_step {n : Nat} (ihFKD : KeysFlowKD n) : KeysFlowKV (n + 1) := by
  intro env okey d env' h
  rw [parse_flow_key_val_succ_eq] at h
  split at h
  · exact Except.noConfusion h
  · rename_i key env1 heqk
    split at h
    · exact Except.noConfusion h
    · split at h
      · exact Except.noConfusion h
      · split at h
        · exact Except.noConfusion h
        · exact Except.noConfusion h
        · rename_i dv env3 heq
          simp only [Except.ok.injEq, Prod.mk.injEq] at h
          obtain ⟨⟨q1, q2⟩, q3⟩ := h
          subst q2
          exact ihFKD _ _ _ _ heq

theorem keys_ok_invariant : ∀ n, KeysData n ∧ KeysTag n ∧ KeysSeqLoop n ∧
    KeysObjLoop n ∧ KeysObjStep n ∧ KeysFlowSeq n ∧ KeysFlowObj n ∧
    KeysFlowKD n ∧ KeysFlowKV n := by
  intro n
  induction n with
  | zero =>
      refine ⟨?_, ?_, ?_, ?_, ?_, ?_, ?_, ?_, ?_⟩
      · intro env mi d env' h
        rw [parse_data_zero_eq] at h
        exact Except.noConfusion h
      · intro env mi d env' h
        rw [parse_tag_zero_eq] at h
        exact Except.noConfusion h
      · intro env mi datas pres d env' _ h
        rw [parse_seq_loop_zero_eq] at h
        exact Except.noConfusion h
      · intro env mi ov fields keys d env' _ _ _ h
        rw [parse_obj_loop_zero_eq] at h
        exact Except.noConfusion h
      · intro env mi ov fields keys d env' _ _ _ h
        rw [parse_obj_step_zero_eq] at h
        exact Except.noConfusion h
      · intro env datas d env' _ h
        rw [parse_flow_seq_loop_zero_eq] at h
        exact Except.noConfusion h
      · intro env fields keys d env' _ _ _ h
        rw [parse_flow_obj_loop_zero_eq] at h
        exact Except.noConfusion h
      · intro env okey d env' h
        rw [parse_flow_key_data_zero_eq] at h
        exact Except.noConfusion h
      · intro env okey d env' h
        rw [parse_flow_key_val_zero_eq] at h
        exact Except.noConfusion h
  | succ n ih =>
      obtain ⟨ihD, ihT, ihSL, ihOL, ihOS, ihFS, ihFO, ihFKD, ihFKV⟩ := ih
      exact ⟨KD_step ihT ihSL ihOL ihFS ihFO, KT_step ihD,
        KSL_step ihD ihSL, KOL_step ihOS, KOS_step ihD ihOL,
        KFS_step ihFKD ihFS, KFO_step ihFKD ihFO,
        KFKD_step ihFKV ihFS ihFO, KFKV_step ihFKD⟩

/-- The whitespace-skipping loop never steps over a tab: whatever it
consumed before a successful stop is tab-free (a tab there raises the
tab error instead). -/
theorem ltrimAux_no_tab : ∀ (s : Str) (off pnl : Nat) (ic : Bool)
    (r : Str) (off' pnl' : Nat),
    ltrimAux s off pnl ic = .ok (r, off', pnl') →
    ∃ pre, s = pre ++ r ∧ '\t' ∉ pre := by
  intro s
  induction s with
  | nil =>
      intro off pnl ic r off' pnl' h
      rw [ltrimAux] at h
      simp only [Except.ok.injEq] at h
      obtain ⟨q1, _⟩ := Prod.mk.injEq _ _ _ _ ▸ h
      exact ⟨[], by simp [← q1], by simp⟩
  | cons c cs ih =>
      intro off pnl ic r off' pnl' h
      rw [ltrimAux] at h
      split at h
      · rename_i hc
        obtain ⟨pre, he, hnt⟩ := ih _ _ _ _ _ _ h
        subst he
        refine ⟨c :: pre, by simp, ?_⟩
        intro hmem
        rcases List.mem_cons.mp hmem with hh | hh
        · rw [hc] at hh
          exact absurd hh (by decide)
        · exact hnt hh
      · rename_i hc1
        split at h
        · rename_i hc2
          obtain ⟨pre, he, hnt⟩ := ih _ _ _ _ _ _ h
          subst he
          refine ⟨c :: pre, by simp, ?_⟩
          intro hmem
          rcases List.mem_cons.mp hmem with hh | hh
          · rw [hc2] at hh
            exact absurd hh (by decide)
          · exact hnt hh
        · rename_i hc2
          split at h
          · exact Except.noConfusion h
          · rename_i hc3
            split at h
            · simp only [Except.ok.injEq] at h
              obtain ⟨q1, _⟩ := Prod.mk.injEq _ _ _ _ ▸ h
              exact ⟨[], by simp [← q1], by simp⟩
            · obtain ⟨pre, he, hnt⟩ := ih _ _ _ _ _ _ h
              subst he
              refine ⟨c :: pre, by simp, ?_⟩
              intro hmem
              rcases List.mem_cons.mp hmem with hh | hh
              · exact hc3 hh.symm
              · exact hnt hh

theorem setTag_tag (d : yaml_data_t) (t : Str) :
    (d.setTag t).tag = some t := by
  cases d <;> rfl

/-- A successful tag parse always assigns the parsed tag to the
resulting node. -/
theorem parse_tag_assigns_tag : ∀ n env mi d env',
    t_yaml_env_parse_tag n env mi = .ok (d, env') →
    d.tag.isSome = true := by
  intro n env mi d env' h
  cases n with
  | zero =>
      rw [parse_tag_zero_eq] at h
      exact Except.noConfusion h
  | succ n =>
      rw [parse_tag_succ_eq] at h
      dsimp only at h
      split at h
      · exact Except.noConfusion h
      · split at h
        · exact Except.noConfusion h
        · split at h
          · exact Except.noConfusion h
          · split at h
            · exact Except.noConfusion h
            · split at h
              · exact Except.noConfusion h
              · rename_i d0 env3 heq
                split at h
                · exact Except.noConfusion h
                · simp only [Except.ok.injEq] at h
                  obtain ⟨q1, q2⟩ := Prod.mk.injEq _ _ _ _ ▸ h
                  subst q1
                  rw [setTag_tag]
                  rfl

/-- When the data under a tag is itself already tagged, the tag parse
rejects it with the two-tags error. -/
theorem parse_tag_rejects_second_tag (n : Nat) (env : yaml_parse_t)
    (mi : Nat) {c c2 : Char} {d : yaml_data_t} {env3 : yaml_parse_t}
    (h1 : (yaml_env_skipn env 1).rest.head? = some c)
    (h2 : cIsAlpha c = true)
    (h3 : (yaml_env_skipn (yaml_env_skipn env 1)
      ((yaml_env_skipn env 1).rest.takeWhile cIsTagChar).length).rest.head?
      = some c2)
    (h4 : cIsSpace c2 = true)
    (h5 : t_yaml_env_parse_data n
      (yaml_env_skipn (yaml_env_skipn env 1)
        ((yaml_env_skipn env 1).rest.takeWhile cIsTagChar).length) mi =
      .ok (d, env3))
    (h6 : d.tag.isSome = true) :
    t_yaml_env_parse_tag (n + 1) env mi =
      .error (mkErr .wrongObject "two tags have been declared".toList) := by
  rw [parse_tag_succ_eq]
  dsimp only
  rw [h1]
  dsimp only
  rw [h2]
  simp only [Bool.not_true, Bool.false_eq_true, if_false]
  rw [h3]
  dsimp only
  rw [h4]
  simp only [Bool.not_true, Bool.false_eq_true, if_false]
  rw [h5]
  dsimp only
  rw [h6]
  simp only [eq_self_iff_true, if_true]

/-- C7: no parse ever succeeds against the three lexical safety rules —
every object anywhere in a successfully parsed document has
pairwise-distinct keys (the duplicate-key check errors otherwise),
indentation skipping never consumes a tab (a tab raises the
tab-character error), and a node that already carries a tag makes an
enclosing tag parse fail with the two-tags error while every successful
tag parse yields a tagged node. -/
theorem parse_rejects_dup_keys_tabs_double_tags :
    (∀ s d, (t_yaml_parse s).2.1 = some d → dataKeysOk d = true) ∧
    (∀ (s : Str) (off pnl : Nat) (ic : Bool) (r : Str) (off' pnl' : Nat),
      ltrimAux s off pnl ic = .ok (r, off', pnl') →
      ∃ pre, s = pre ++ r ∧ '\t' ∉ pre) ∧
    (∀ n env mi d env',
      t_yaml_env_parse_tag n env mi = .ok (d, env') →
      d.tag.isSome = true) ∧
    (∀ (n : Nat) (env : yaml_parse_t) (mi : Nat) (c c2 : Char)
      (d : yaml_data_t) (env3 : yaml_parse_t),
      (yaml_env_skipn env 1).rest.head? = some c →
      cIsAlpha c = true →
      (yaml_env_skipn (yaml_env_skipn env 1)
        ((yaml_env_skipn env 1).rest.takeWhile cIsTagChar).length).rest.head?
        = some c2 →
      cIsSpace c2 = true →
      t_yaml_env_parse_data n
        (yaml_env_skipn (yaml_env_skipn env 1)
          ((yaml_env_skipn env 1).rest.takeWhile cIsTagChar).length) mi =
        .ok (d, env3) →
      d.tag.isSome = true →
      t_yaml_env_parse_tag (n + 1) env mi =
        .error (mkErr .wrongObject
          "two tags have been declared".toList)) := by
  refine ⟨?_, ltrimAux_no_tab, parse_tag_assigns_tag, ?_⟩
  · intro s d h
    rw [t_yaml_parse] at h
    cases hp : t_yaml_env_parse_data (parseFuel s)
        (yaml_parse_attach_ps s) 0 with
    | error e =>
        rw [hp] at h
        exact Option.noConfusion h
    | ok r =>
        obtain ⟨d0, env1⟩ := r
        rw [hp] at h
        dsimp only at h
        cases h2 : yaml_env_ltrim env1 with
        | error e =>
            rw [h2] at h
            exact Option.noConfusion h
        | ok env2 =>
            rw [h2] at h
            dsimp only at h
            split at h
            · exact Option.noConfusion h
            · split at h
              · exact Option.noConfusion h
              · simp only [Option.some.injEq] at h
                rw [← h]
                exact (keys_ok_invariant (parseFuel s)).1 _ _ _ _ hp
  · intro n env mi c c2 d env3 h1 h2 h3 h4 h5 h6
    exact parse_tag_rejects_second_tag n env mi h1 h2 h3 h4 h5 h6

/-- Witness for the safety theorem: the document `a: 1`, a two-space
indentation, the tag parse of `!a 1`, and the rejected double tag of
`!a !b 1`. -/
theorem parse_rejects_dup_keys_tabs_double_tags_witness :
    dataKeysOk (yaml_data_t.obj
      [.mk ['a'] (.scalar (.uint 1) none none) none] none none) = true ∧
    (∃ pre, "  x".toList = pre ++ ['x'] ∧ '\t' ∉ pre) ∧
    (yaml_data_t.scalar (.uint 1) (some ['a']) none).tag.isSome = true ∧
    t_yaml_env_parse_tag 9 (yaml_parse_attach_ps "!a !b 1".toList) 0 =
      .error (mkErr .wrongObject "two tags have been declared".toList) := by
  refine ⟨?_, ?_, ?_, ?_⟩
  · exact parse_rejects_dup_keys_tabs_double_tags.1 "a: 1".toList _ rfl
  · exact parse_rejects_dup_keys_tabs_double_tags.2.1 "  x".toList 0 0
      false ['x'] 2 0 rfl
  · exact parse_rejects_dup_keys_tabs_double_tags.2.2.1 8
      (yaml_parse_attach_ps "!a 1".toList) 0 _ ⟨[], 4, 0, []⟩ rfl
  · exact parse_rejects_dup_keys_tabs_double_tags.2.2.2 8
      (yaml_parse_attach_ps "!a !b 1".toList) 0 'a' ' '
      (.scalar (.uint 1) (some ['b']) none) ⟨[], 7, 0, []⟩ rfl (by decide)
      rfl (by decide) rfl rfl

/-- Witness for the return-conventions theorem: the document `a: 1` and
the packed scalar `true`. -/
theorem entry_return_conventions_witness :
    (((t_yaml_parse "a: 1".toList).1 = 0 ∧
      (t_yaml_parse "a: 1".toList).2.1.isSome = true ∧
      (t_yaml_parse "a: 1".toList).2.2 = []) ∨
     ((t_yaml_parse "a: 1".toList).1 = -1 ∧
      (t_yaml_parse "a: 1".toList).2.1 = none)) ∧
    (t_yaml_parse "1\n\t".toList = (-1, none, [])) ∧
    (wfData (yaml_data_t.scalar (.bool true) none none) = true ∧
     (0 ≤ (t_yaml_pack_sb t_yaml_pack_env_new
        (yaml_data_t.scalar (.bool true) none none)).1 ∧
      (t_yaml_pack_sb t_yaml_pack_env_new
        (yaml_data_t.scalar (.bool true) none none)).1.toNat ≤
        (t_yaml_pack_sb t_yaml_pack_env_new
          (yaml_data_t.scalar (.bool true) none none)).2.out.length)) ∧
    (t_yaml_pack_file t_yaml_pack_env_new
      (yaml_data_t.scalar (.bool true) none none)).1 = 0 :=
  ⟨entry_return_conventions.1 _,
   entry_return_conventions.2.1,
   ⟨by decide, entry_return_conventions.2.2.1 _ (by decide)⟩,
   entry_return_conventions.2.2.2 _⟩

end Yaml
